import Mathlib

/-!
Verification of the lightning-exchange matching engine core.

This file gives a shallow embedding of the Go sources (domain/order.go,
domain/trade.go, orderbook/orderbook.go, orderbook/price_tree_sharded.go,
orderbook/price_tree_factory.go, matching/engine.go, the ring-buffer
constructors) and proves properties about it.

Modelling conventions:
- Go pointers to Order objects are modelled by a heap, an association list
  from order id to Order; every mutation of an order goes through the heap.
- The container/list FIFO inside a price level is modelled as the list of
  order ids it holds, in front-to-back order.
- The doubly-linked chain of price levels inside a bucket is modelled as the
  list of levels in chain order (best first); the Go field Bucket.bestPrice
  always equals the head of that chain (it is set exactly when the head
  changes), so it is represented by chain.head?.
- The red-black tree of buckets is modelled as the list of buckets in
  comparator order (best bucket first); rbt.Left() is the head.
- The cached pointers ShardedPriceTree.bestBucket / bestPrice are kept as
  explicit fields holding the bucket id / the Price field of the level they
  point to; the Go code only ever compares these pointers against live
  objects or reads their Price/bucketID fields, which this captures.
- Machine integers (int64) are modelled as Int; the one place where 64-bit
  wrap-around matters (the power-of-two test of the ring-buffer
  constructors) uses explicit two's-complement helpers.
- Wall-clock timestamps are out of scope; Order.timestamp is an opaque Nat
  supplied by the producer.
-/

namespace LX

/-! ### Two's-complement helpers for int64 operations -/

/-- Unsigned 64-bit view of an integer (value taken mod 2^64). -/
def toU64 (x : Int) : Nat := ((x % (2 ^ 64 : Int) + 2 ^ 64) % 2 ^ 64).toNat

/-- Signed interpretation of an unsigned 64-bit value. -/
def ofU64 (n : Nat) : Int := if n < 2 ^ 63 then (n : Int) else (n : Int) - 2 ^ 64

/-- Go's bitwise AND on int64, via two's complement. -/
def int64And (a b : Int) : Int := ofU64 (Nat.land (toU64 a) (toU64 b))

/-- Go's int64 subtraction with wrap-around. -/
def wrap64 (x : Int) : Int := ofU64 (toU64 x)

/-! ### Domain types (domain/order.go, domain/trade.go) -/

/-- Order side (Go: Side with SideBuy, SideSell). -/
inductive Side where
  | Buy
  | Sell
deriving Repr, DecidableEq

/-- Order type (Go: OrderType with OrderTypeLimit, OrderTypeMarket). -/
inductive OrderType where
  | Limit
  | Market
deriving Repr, DecidableEq

/-- Order status (Go: OrderStatus). -/
inductive OrderStatus where
  | Pending
  | PartialFilled
  | Filled
  | Cancelled
deriving Repr, DecidableEq

/-- A trading order (Go: domain.Order).  ListElement, the handle into the
FIFO slot, is modelled as a flag saying whether the handle is currently set
(non-nil); the FIFO itself stores the order's id. -/
structure Order where
  id : String
  symbol : String
  userId : String
  side : Side
  otype : OrderType
  price : Int
  quantity : Int
  filled : Int
  status : OrderStatus
  listElement : Bool
  timestamp : Nat
deriving Repr, DecidableEq

instance : Inhabited Order :=
  ⟨{ id := "", symbol := "", userId := "", side := Side.Buy, otype := OrderType.Limit,
     price := 0, quantity := 0, filled := 0, status := OrderStatus.Pending,
     listElement := false, timestamp := 0 }⟩

/-- Go: NewLimitOrder. -/
def NewLimitOrder (id symbol userId : String) (side : Side) (price quantity : Int)
    (timestamp : Nat) : Order :=
  { id := id, symbol := symbol, userId := userId, side := side, otype := OrderType.Limit,
    price := price, quantity := quantity, filled := 0, status := OrderStatus.Pending,
    listElement := false, timestamp := timestamp }

/-- Go: Order.IsFilled, filled >= quantity. -/
def Order.isFilled (o : Order) : Bool := o.quantity ≤ o.filled

/-- Go: Order.RemainingQuantity. -/
def Order.remainingQuantity (o : Order) : Int := o.quantity - o.filled

/-- Go: Order.Fill. -/
def Order.fill (o : Order) (quantity : Int) : Order :=
  let o1 := { o with filled := o.filled + quantity }
  if o1.isFilled then { o1 with status := OrderStatus.Filled }
  else { o1 with status := OrderStatus.PartialFilled }

/-- Go: Order.Cancel. -/
def Order.cancel (o : Order) : Order := { o with status := OrderStatus.Cancelled }

/-- A matched trade (Go: domain.Trade).  The wall-clock Timestamp field is
out of scope and omitted. -/
structure Trade where
  id : String
  symbol : String
  price : Int
  quantity : Int
  buyOrderID : String
  sellOrderID : String
  buyUserID : String
  sellUserID : String
  isBuyerMaker : Bool
deriving Repr, DecidableEq

/-- Go: domain.NewTrade. -/
def NewTrade (id symbol : String) (price quantity : Int) (buyOrder sellOrder : Order) :
    Trade :=
  { id := id, symbol := symbol, price := price, quantity := quantity,
    buyOrderID := buyOrder.id, sellOrderID := sellOrder.id,
    buyUserID := buyOrder.userId, sellUserID := sellOrder.userId,
    isBuyerMaker := buyOrder.timestamp < sellOrder.timestamp }

/-! ### The order heap (Go pointers to Order objects) -/

/-- The heap of live Order objects, keyed by order id.  Go code passes
pointers; here every access goes through the id. -/
abbrev Heap : Type := List (String × Order)

/-- Dereference an order pointer. -/
def heapGet : Heap → String → Option Order
  | [], _ => none
  | (k', v) :: rest, k => if k' = k then some v else heapGet rest k

/-- Mutate the order object with id k (insert if absent, keeping position
otherwise). -/
def heapSet : Heap → String → Order → Heap
  | [], k, v => [(k, v)]
  | (k', v') :: rest, k, v =>
    if k' = k then (k, v) :: rest else (k', v') :: heapSet rest k v

/-- Total dereference, with a junk order as the (never reached) default. -/
def getOrder (h : Heap) (k : String) : Order := (heapGet h k).getD default

/-! ### Price levels, buckets and the sharded price tree
(orderbook/price_tree_sharded.go, orderbook/price_tree_factory.go) -/

/-- A price level (Go: PriceLevel_).  The FIFO of resting orders is the list
of their ids, front first.  The NextPrice/PrevPrice links are represented by
the position of the level in its bucket's chain list. -/
structure PriceLevel where
  price : Int
  orders : List String
  volume : Int
deriving Repr, DecidableEq

/-- A bucket (Go: Bucket).  slots models the fixed direct-address array: the
pairs (index, price of the level object stored at that index).  chain models
the bucket-local doubly-linked list of levels, best price first, and owns the
level data; the Go field Bucket.bestPrice always equals the chain head. -/
structure Bucket where
  bucketID : Int
  slots : List (Int × Int)
  chain : List PriceLevel
  size : Int
  isBuy : Bool
  bucketSize : Int
  bucketMask : Int
deriving Repr, DecidableEq

/-- Go: NewBucket. -/
def NewBucket (bucketID : Int) (isBuy : Bool) (bucketSize : Int) : Bucket :=
  { bucketID := bucketID, slots := [], chain := [], size := 0, isBuy := isBuy,
    bucketSize := bucketSize, bucketMask := bucketSize - 1 }

/-- Go: Bucket.isBetterPrice / HashMapListPriceTree.isBetterPrice. -/
def isBetterPrice (isBuy : Bool) (newPrice existingPrice : Int) : Bool :=
  if isBuy then existingPrice < newPrice else newPrice < existingPrice

/-- Read a slot of the direct-address array: the price of the level object
stored there, if the slot is non-nil. -/
def slotsGet : List (Int × Int) → Int → Option Int
  | [], _ => none
  | (i', p) :: rest, i => if i' = i then some p else slotsGet rest i

/-- Write a slot of the direct-address array. -/
def slotsSet : List (Int × Int) → Int → Int → List (Int × Int)
  | [], i, p => [(i, p)]
  | (i', p') :: rest, i, p =>
    if i' = i then (i, p) :: rest else (i', p') :: slotsSet rest i p

/-- Clear a slot of the direct-address array (Go: b.levels[index] = nil). -/
def slotsErase : List (Int × Int) → Int → List (Int × Int)
  | [], _ => []
  | (i', p') :: rest, i => if i' = i then rest else (i', p') :: slotsErase rest i

/-- Splice a level into the bucket chain at its price position (the loop in
Go Bucket.Insert: insert before the first strictly worse level). -/
def chainInsert (isBuy : Bool) (L : PriceLevel) : List PriceLevel → List PriceLevel
  | [] => [L]
  | M :: rest =>
    if isBetterPrice isBuy L.price M.price then L :: M :: rest
    else M :: chainInsert isBuy L rest

/-- Unlink the level with the given price from the bucket chain
(Go Bucket.Remove's pointer surgery). -/
def chainRemove (p : Int) : List PriceLevel → List PriceLevel
  | [] => []
  | M :: rest => if M.price = p then rest else M :: chainRemove p rest

/-- Mutate the level object with the given price in place. -/
def chainModify (p : Int) (f : PriceLevel → PriceLevel) :
    List PriceLevel → List PriceLevel
  | [] => []
  | M :: rest => if M.price = p then f M :: rest else M :: chainModify p f rest

/-- Go: Bucket.Insert(price, level): write the array slot, bump size, splice
into the chain. -/
def Bucket.insert (b : Bucket) (L : PriceLevel) : Bucket :=
  { b with slots := slotsSet b.slots (int64And L.price b.bucketMask) L.price,
           size := b.size + 1,
           chain := chainInsert b.isBuy L b.chain }

/-- Go: Bucket.Remove(price): read the slot, clear it, decrement size,
unlink the stored level object from the chain. -/
def Bucket.remove (b : Bucket) (price : Int) : Bucket :=
  let index := int64And price b.bucketMask
  match slotsGet b.slots index with
  | none => b
  | some p =>
    { b with slots := slotsErase b.slots index, size := b.size - 1,
             chain := chainRemove p b.chain }

/-- Look up a price in a chain of levels. -/
def chainFind (p : Int) : List PriceLevel → Option PriceLevel
  | [] => none
  | L :: rest => if L.price = p then some L else chainFind p rest

/-- Read the level object with given price from the bucket chain. -/
def Bucket.findLevel (b : Bucket) (p : Int) : Option PriceLevel :=
  chainFind p b.chain

/-- The sharded price tree (Go: ShardedPriceTree).  buckets is the ordered
map of buckets in comparator order (best first); bestBucket/bestPrice are
the cached pointers, as the bucket id and the Price field of the level they
reference. -/
structure ShardedPriceTree where
  buckets : List Bucket
  bestBucket : Option Int
  bestPrice : Option Int
  isBuy : Bool
  bucketSize : Int
deriving Repr, DecidableEq

/-- Go: NewShardedPriceTree. -/
def NewShardedPriceTree (isBuy : Bool) (bucketSize : Int) : ShardedPriceTree :=
  { buckets := [], bestBucket := none, bestPrice := none, isBuy := isBuy,
    bucketSize := bucketSize }

/-- Go: ShardedPriceTree.isBetterBucket. -/
def isBetterBucket (isBuy : Bool) (newBucketID existingBucketID : Int) : Bool :=
  if isBuy then existingBucketID < newBucketID else newBucketID < existingBucketID

/-- Ordered-map lookup (Go: spt.buckets.Get). -/
def bucketsGet : List Bucket → Int → Option Bucket
  | [], _ => none
  | b :: rest, id => if b.bucketID = id then some b else bucketsGet rest id

/-- Ordered-map insert (Go: spt.buckets.Put): place by comparator order,
replacing an existing bucket with the same id. -/
def bucketsPut (isBuy : Bool) (b : Bucket) : List Bucket → List Bucket
  | [] => [b]
  | c :: rest =>
    if c.bucketID = b.bucketID then b :: rest
    else if isBetterBucket isBuy b.bucketID c.bucketID then b :: c :: rest
    else c :: bucketsPut isBuy b rest

/-- Ordered-map delete (Go: spt.buckets.Remove). -/
def bucketsRemove (id : Int) : List Bucket → List Bucket
  | [] => []
  | c :: rest => if c.bucketID = id then rest else c :: bucketsRemove id rest

/-- Write back an in-place mutation of a bucket object already in the map. -/
def bucketsSet (b : Bucket) : List Bucket → List Bucket
  | [] => []
  | c :: rest => if c.bucketID = b.bucketID then b :: rest else c :: bucketsSet b rest

/-- Go: ShardedPriceTree.updateBestPriceFromTree: the first node of the
red-black tree is the best bucket; take its bucket-local best level. -/
def updateBestPriceFromTree (t : ShardedPriceTree) : ShardedPriceTree :=
  match t.buckets.head? with
  | none => { t with bestBucket := none, bestPrice := none }
  | some b =>
    { t with bestBucket := some b.bucketID,
             bestPrice := (b.chain.head?).map (fun L => L.price) }

/-- Go: ShardedPriceTree.Remove(price). -/
def ShardedPriceTree.remove (t : ShardedPriceTree) (price : Int) : ShardedPriceTree :=
  let bucketID := Int.tdiv price t.bucketSize
  match bucketsGet t.buckets bucketID with
  | none => t
  | some bucket =>
    let b' := bucket.remove price
    if b'.size = 0 then
      let t' := { t with buckets := bucketsRemove bucketID t.buckets }
      -- Go compares the stale bucket pointer: on live caches this is id equality
      if t.bestBucket = some bucketID then
        updateBestPriceFromTree { t' with bestBucket := none, bestPrice := none }
      else t'
    else
      let t' := { t with buckets := bucketsSet b' t.buckets }
      -- bucket.updateBestPrice() is a no-op in the source
      if t'.bestPrice = some price then updateBestPriceFromTree t' else t'

/-! ### The adapter (orderbook/price_tree_factory.go) -/

/-- Go: ShardedPriceTreeAdapter.Insert(order).  Threads the order heap: the
order's ListElement handle is written through its pointer. -/
def ShardedPriceTreeAdapter.insert (h : Heap) (t : ShardedPriceTree) (oid : String) :
    Heap × ShardedPriceTree :=
  match heapGet h oid with
  | none => (h, t)
  | some o =>
    let bucketID := Int.tdiv o.price t.bucketSize
    let bucket0 :=
      match bucketsGet t.buckets bucketID with
      | some b => b
      | none => NewBucket bucketID t.isBuy t.bucketSize
    let index := int64And o.price bucket0.bucketMask
    -- levelExists: the direct-address slot is non-nil
    let bl :=
      match slotsGet bucket0.slots index with
      | some p => (bucket0, p)
      | none =>
        (bucket0.insert { price := o.price, orders := [], volume := 0 }, o.price)
    let bucket1 := bl.1
    let lvlPrice := bl.2
    -- append to the level FIFO, store the handle, bump the level volume
    let bucket2 := { bucket1 with chain := chainModify lvlPrice (fun L =>
        { L with orders := L.orders ++ [oid],
                 volume := L.volume + o.remainingQuantity }) bucket1.chain }
    let h' := heapSet h oid { o with listElement := true }
    let t1 := { t with buckets := bucketsPut t.isBuy bucket2 t.buckets }
    -- update the global best pointers (bucket pointer equality is id
    -- equality: the cached bucket is live)
    let t2 :=
      match t.bestBucket with
      | none =>
        { t1 with bestBucket := some bucketID,
                  bestPrice := (bucket2.chain.head?).map (fun L => L.price) }
      | some bestID =>
        if isBetterBucket t.isBuy bucketID bestID then
          { t1 with bestBucket := some bucketID,
                    bestPrice := (bucket2.chain.head?).map (fun L => L.price) }
        else if bucketID = bestID then
          { t1 with bestPrice := (bucket2.chain.head?).map (fun L => L.price) }
        else t1
    (h', t2)

/-- Go: ShardedPriceTreeAdapter.Remove(order). -/
def ShardedPriceTreeAdapter.remove (h : Heap) (t : ShardedPriceTree) (oid : String) :
    Heap × ShardedPriceTree :=
  match heapGet h oid with
  | none => (h, t)
  | some o =>
    match bucketsGet t.buckets (Int.tdiv o.price t.bucketSize) with
    | none => (h, t)
    | some bucket =>
      let index := int64And o.price bucket.bucketMask
      match slotsGet bucket.slots index with
      | none => (h, t)
      | some p =>
        -- if order.ListElement != nil: unlink from the FIFO, clear the
        -- handle, decrement the level volume
        let hb :=
          if o.listElement then
            (heapSet h oid { o with listElement := false },
             { bucket with chain := chainModify p (fun L =>
                 { L with orders := L.orders.erase oid,
                          volume := L.volume - o.remainingQuantity }) bucket.chain })
          else (h, bucket)
        let h1 := hb.1
        let bucket1 := hb.2
        let t1 := { t with buckets := bucketsSet bucket1 t.buckets }
        -- if the level's FIFO is now empty, remove the level from the tree
        let fifoLen : Nat := ((bucket1.findLevel p).map (fun L => L.orders.length)).getD 0
        if fifoLen = 0 then (h1, t1.remove o.price) else (h1, t1)

/-- Go: ShardedPriceTreeAdapter.GetBestPrice. -/
def ShardedPriceTreeAdapter.getBestPrice (t : ShardedPriceTree) : Int :=
  match t.bestPrice with
  | none => 0
  | some p => p

/-- Go: ShardedPriceTreeAdapter.GetBestLevel returns the level object the
cached pointer references; resolved through the cached bucket (valid on the
states arising in the engine, where the cache is live). -/
def ShardedPriceTreeAdapter.getBestLevel (t : ShardedPriceTree) : Option PriceLevel :=
  match t.bestPrice with
  | none => none
  | some p =>
    match t.bestBucket with
    | none => none
    | some bid => (bucketsGet t.buckets bid).bind (fun b => b.findLevel p)

/-- Go: ShardedPriceTreeAdapter.GetLevel(price). -/
def ShardedPriceTreeAdapter.getLevel (t : ShardedPriceTree) (price : Int) :
    Option PriceLevel :=
  match bucketsGet t.buckets (Int.tdiv price t.bucketSize) with
  | none => none
  | some bucket =>
    match slotsGet bucket.slots (int64And price bucket.bucketMask) with
    | none => none
    | some p => bucket.findLevel p

/-- Go: ShardedPriceTreeAdapter.IsEmpty. -/
def ShardedPriceTreeAdapter.isEmpty (t : ShardedPriceTree) : Bool :=
  t.buckets.isEmpty

/-! ### The order book (orderbook/orderbook.go) -/

/-- The order book: two ladders plus the id map used for cancel.  The map's
values are order pointers, so the map is represented by its key list; the
orders themselves live in the heap. -/
structure OrderBook where
  symbol : String
  bids : ShardedPriceTree
  asks : ShardedPriceTree
  orders : List String
deriving Repr, DecidableEq

/-- Go: NewOrderBook: sharded trees with bucket size 128; bids descending,
asks ascending. -/
def NewOrderBook (symbol : String) : OrderBook :=
  { symbol := symbol, bids := NewShardedPriceTree true 128,
    asks := NewShardedPriceTree false 128, orders := [] }

/-- Go map assignment ob.orders[order.ID] = order: register the key. -/
def mapRegister (m : List String) (k : String) : List String :=
  if m.contains k then m else k :: m

/-- Go: OrderBook.AddOrder. -/
def OrderBook.addOrder (h : Heap) (ob : OrderBook) (oid : String) : Heap × OrderBook :=
  let ob1 := { ob with orders := mapRegister ob.orders oid }
  match heapGet h oid with
  | none => (h, ob1)
  | some o =>
    if o.side = Side.Buy then
      let ht := ShardedPriceTreeAdapter.insert h ob1.bids oid
      (ht.1, { ob1 with bids := ht.2 })
    else
      let ht := ShardedPriceTreeAdapter.insert h ob1.asks oid
      (ht.1, { ob1 with asks := ht.2 })

/-- Go: OrderBook.CancelOrder: unknown ids are a no-op; otherwise remove
from the side's ladder, erase from the map, and mark the order cancelled. -/
def OrderBook.cancelOrder (h : Heap) (ob : OrderBook) (oid : String) : Heap × OrderBook :=
  if ob.orders.contains oid then
    match heapGet h oid with
    | none => (h, ob)
    | some o =>
      let hob :=
        if o.side = Side.Buy then
          let ht := ShardedPriceTreeAdapter.remove h ob.bids oid
          (ht.1, { ob with bids := ht.2 })
        else
          let ht := ShardedPriceTreeAdapter.remove h ob.asks oid
          (ht.1, { ob with asks := ht.2 })
      let h1 := hob.1
      let ob1 := { hob.2 with orders := hob.2.orders.erase oid }
      -- order.Cancel() through the same pointer (whose ListElement the
      -- remove above may have cleared)
      match heapGet h1 oid with
      | none => (h1, ob1)
      | some o1 => (heapSet h1 oid o1.cancel, ob1)
  else (h, ob)

/-- Go: OrderBook.GetBestBid. -/
def OrderBook.getBestBid (ob : OrderBook) : Int :=
  ShardedPriceTreeAdapter.getBestPrice ob.bids

/-- Go: OrderBook.GetBestAsk. -/
def OrderBook.getBestAsk (ob : OrderBook) : Int :=
  ShardedPriceTreeAdapter.getBestPrice ob.asks

/-- Go: OrderBook.GetBestBuyLevel. -/
def OrderBook.getBestBuyLevel (ob : OrderBook) : Option PriceLevel :=
  ShardedPriceTreeAdapter.getBestLevel ob.bids

/-- Go: OrderBook.GetBestSellLevel. -/
def OrderBook.getBestSellLevel (ob : OrderBook) : Option PriceLevel :=
  ShardedPriceTreeAdapter.getBestLevel ob.asks

/-! ### The matching engine (matching/engine.go) -/

/-- The state owned by one MatchingEngine, together with the heap of order
objects.  tradeSeq is the IDGenerator counter (prefix "T"). -/
structure EngineState where
  symbol : String
  heap : Heap
  book : OrderBook
  tradeSeq : Nat
deriving Repr, DecidableEq

/-- Go: NewMatchingEngine (the matching-relevant state). -/
def NewMatchingEngine (symbol : String) : EngineState :=
  { symbol := symbol, heap := [], book := NewOrderBook symbol, tradeSeq := 0 }

/-- Go: MatchingEngine.executeTrade: fill both orders by the minimum
remaining quantity and emit a trade at the given price. -/
def executeTrade (es : EngineState) (buyOid sellOid : String) (price : Int) :
    EngineState × Trade :=
  let buyOrder := getOrder es.heap buyOid
  let sellOrder := getOrder es.heap sellOid
  let quantity := min buyOrder.remainingQuantity sellOrder.remainingQuantity
  let h1 := heapSet es.heap buyOid (buyOrder.fill quantity)
  let h2 := heapSet h1 sellOid (sellOrder.fill quantity)
  let tid := es.tradeSeq + 1
  let trade := NewTrade ("T" ++ toString tid) buyOrder.symbol price quantity
      buyOrder sellOrder
  ({ es with heap := h2, tradeSeq := tid }, trade)

/-- Apply OrderBook.CancelOrder inside the engine state. -/
def engineCancel (es : EngineState) (oid : String) : EngineState :=
  let hob := OrderBook.cancelOrder es.heap es.book oid
  { es with heap := hob.1, book := hob.2 }

/-- One unbounded matching loop of Go matchBuyOrder, with explicit fuel.
On the well-formed states the engine produces, every iteration either
finishes the incoming order or removes one resting order, so any fuel of at
least (number of resting orders + 2) reproduces the source loop exactly. -/
def matchBuyOrderGo : Nat → EngineState → String → List Trade → EngineState × List Trade
  | 0, es, _, acc => (es, acc)
  | Nat.succ fuel, es, buyOid, acc =>
    let buyOrder := getOrder es.heap buyOid
    if buyOrder.isFilled then (es, acc)
    else
      let bestAsk := es.book.getBestAsk
      if bestAsk = 0 ∨ (buyOrder.otype = OrderType.Limit ∧ buyOrder.price < bestAsk) then
        (es, acc)
      else
        match es.book.getBestSellLevel with
        | none => (es, acc)
        | some bestLevel =>
          match bestLevel.orders.head? with
          | none => (es, acc)  -- bestLevel.Orders.Len() == 0
          | some sellOid =>
            let et := executeTrade es buyOid sellOid bestAsk
            let acc1 := acc ++ [et.2]
            let es2 :=
              if (getOrder et.1.heap sellOid).isFilled then engineCancel et.1 sellOid
              else et.1
            matchBuyOrderGo fuel es2 buyOid acc1

/-- Go: MatchingEngine.matchBuyOrder. -/
def matchBuyOrder (es : EngineState) (buyOid : String) : EngineState × List Trade :=
  matchBuyOrderGo (es.book.orders.length + 2) es buyOid []

/-- One unbounded matching loop of Go matchSellOrder, with explicit fuel. -/
def matchSellOrderGo : Nat → EngineState → String → List Trade → EngineState × List Trade
  | 0, es, _, acc => (es, acc)
  | Nat.succ fuel, es, sellOid, acc =>
    let sellOrder := getOrder es.heap sellOid
    if sellOrder.isFilled then (es, acc)
    else
      let bestBid := es.book.getBestBid
      if bestBid = 0 ∨ (sellOrder.otype = OrderType.Limit ∧ bestBid < sellOrder.price) then
        (es, acc)
      else
        match es.book.getBestBuyLevel with
        | none => (es, acc)
        | some bestLevel =>
          match bestLevel.orders.head? with
          | none => (es, acc)
          | some buyOid =>
            let et := executeTrade es buyOid sellOid bestBid
            let acc1 := acc ++ [et.2]
            let es2 :=
              if (getOrder et.1.heap buyOid).isFilled then engineCancel et.1 buyOid
              else et.1
            matchSellOrderGo fuel es2 sellOid acc1

/-- Go: MatchingEngine.matchSellOrder. -/
def matchSellOrder (es : EngineState) (sellOid : String) : EngineState × List Trade :=
  matchSellOrderGo (es.book.orders.length + 2) es sellOid []

/-- Go: MatchingEngine.processOrder: match, then rest the residual if it is
a non-fully-filled limit order. -/
def processOrder (es : EngineState) (oid : String) : EngineState × List Trade :=
  let o := getOrder es.heap oid
  let et :=
    if o.side = Side.Buy then matchBuyOrder es oid else matchSellOrder es oid
  let es1 := et.1
  let o1 := getOrder es1.heap oid
  let es2 :=
    if ¬ o1.isFilled ∧ o1.otype = OrderType.Limit then
      let hob := OrderBook.addOrder es1.heap es1.book oid
      { es1 with heap := hob.1, book := hob.2 }
    else es1
  (es2, et.2)

/-- The two requests the matching thread serves: an order from the submit
queue, or a cancel id from the cancel channel. -/
inductive Event where
  | submit (o : Order)
  | cancel (oid : String)
deriving Repr, DecidableEq

/-- One iteration of the matching loop for one request.  A submitted order
object is allocated on the heap and processed. -/
def step (es : EngineState) : Event → EngineState × List Trade
  | Event.submit o => processOrder { es with heap := heapSet es.heap o.id o } o.id
  | Event.cancel oid => (engineCancel es oid, [])

/-- Run the matching thread over a request sequence, collecting the emitted
trades in order. -/
def runFrom (es : EngineState) : List Event → EngineState × List Trade
  | [] => (es, [])
  | e :: rest =>
    let r1 := step es e
    let r2 := runFrom r1.1 rest
    (r2.1, r1.2 ++ r2.2)

/-- Run from a fresh engine. -/
def runEvents (symbol : String) (evs : List Event) : EngineState × List Trade :=
  runFrom (NewMatchingEngine symbol) evs

/-! ### The submit path (Go MatchingEngine.SubmitOrder) and the ring-buffer
constructors (matching/trade_ringbuffer_batch_safe.go and the order
ring buffer) -/

/-- Go: MatchingEngine.SubmitOrder publishes the order on the submit ring
buffer; the queue is FIFO, so it is modelled as a list.  There is no
validation and no error return. -/
def SubmitOrder (queue : List Order) (o : Order) : List Order := queue ++ [o]

/-- Observable state of a freshly constructed ring buffer. -/
structure RingBufferState where
  bufLen : Int
  mask : Int
  emptySlots : Nat
  fullSlots : Nat
deriving Repr, DecidableEq

/-- Go: NewRingBufferSemaphoreBatchSafe(size).  none models a panic: the
explicit power-of-two check (size & (size-1) != 0, on wrapping int64
arithmetic), or make([]T, size) rejecting a negative length.  On success the
loop of semreleases leaves the empty-slot semaphore at size. -/
def NewRingBufferSemaphoreBatchSafe (size : Int) : Option RingBufferState :=
  if int64And size (wrap64 (size - 1)) ≠ 0 then none
  else if size < 0 then none
  else some { bufLen := size, mask := size - 1, emptySlots := size.toNat, fullSlots := 0 }

/-- Go: NewTradeRingBufferBatchSafe(size): the same construction for the
trade queue. -/
def NewTradeRingBufferBatchSafe (size : Int) : Option RingBufferState :=
  if int64And size (wrap64 (size - 1)) ≠ 0 then none
  else if size < 0 then none
  else some { bufLen := size, mask := size - 1, emptySlots := size.toNat, fullSlots := 0 }

/-- A value is an exact power of two. -/
def isPowerOfTwo (n : Int) : Prop := ∃ k : Nat, n = 2 ^ k

/-! ### Well-formedness of the book state

These predicates are the inductive invariant maintained by the matching
thread.  They are phrased over decidable atoms so that concrete instances
can be checked by evaluation. -/

/-- The side's strict order on prices and bucket ids: on the buy side
higher is better, on the sell side lower is better. -/
def Better (isBuy : Bool) (a b : Int) : Prop := if isBuy then b < a else a < b

instance (isBuy : Bool) (a b : Int) : Decidable (Better isBuy a b) := by
  unfold Better; split <;> infer_instance

/-- Total remaining quantity of a FIFO of resting orders. -/
def sumRemaining (h : Heap) (oids : List String) : Int :=
  (oids.map (fun oid => (getOrder h oid).remainingQuantity)).sum

/-- The heap order oid is a resting order of a level at the given price on
the given side.  With strict = true the order is strictly open (filled <
quantity, status Pending or PartialFilled); with strict = false it may have
just been filled completely (the transient state inside the matching loop,
before the engine removes it). -/
def OrderRestingS (strict : Bool) (h : Heap) (isBuy : Bool) (price : Int)
    (oid : String) : Prop :=
  (heapGet h oid).isSome = true ∧
  (getOrder h oid).price = price ∧
  (getOrder h oid).side = (if isBuy then Side.Buy else Side.Sell) ∧
  (getOrder h oid).otype = OrderType.Limit ∧
  (getOrder h oid).listElement = true ∧
  0 ≤ (getOrder h oid).filled ∧
  (if strict then
    (getOrder h oid).filled < (getOrder h oid).quantity ∧
    ((getOrder h oid).status = OrderStatus.Pending ∨
      (getOrder h oid).status = OrderStatus.PartialFilled)
  else
    (getOrder h oid).filled ≤ (getOrder h oid).quantity ∧
    ((getOrder h oid).status = OrderStatus.Pending ∨
      (getOrder h oid).status = OrderStatus.PartialFilled ∨
      (getOrder h oid).status = OrderStatus.Filled))

instance (strict h isBuy price oid) :
    Decidable (OrderRestingS strict h isBuy price oid) := by
  unfold OrderRestingS; split <;> infer_instance

/-- Well-formedness of one price level; x is the optional id of the one
order allowed to be in the transient just-filled state. -/
def LevelWFx (h : Heap) (isBuy : Bool) (x : Option String) (L : PriceLevel) : Prop :=
  L.orders ≠ [] ∧ L.orders.Nodup ∧ sumRemaining h L.orders ≤ L.volume ∧
  ∀ oid ∈ L.orders, OrderRestingS (decide (x ≠ some oid)) h isBuy L.price oid

instance (h isBuy x L) : Decidable (LevelWFx h isBuy x L) := by
  unfold LevelWFx; infer_instance

/-- Well-formedness of one bucket: constants, size bookkeeping, chain
sortedness, per-level facts, and consistency of the direct-address slot
array with the chain. -/
def BucketWF (h : Heap) (isBuy : Bool) (x : Option String) (b : Bucket) : Prop :=
  b.isBuy = isBuy ∧ b.bucketSize = 128 ∧ b.bucketMask = 127 ∧
  b.size = (b.chain.length : Int) ∧
  b.chain ≠ [] ∧
  b.chain.Pairwise (fun L M => Better isBuy L.price M.price) ∧
  (∀ L ∈ b.chain, 0 < L.price ∧ Int.tdiv L.price 128 = b.bucketID ∧ LevelWFx h isBuy x L) ∧
  (∀ ip ∈ b.slots, ip.1 = int64And ip.2 127 ∧ ip.2 ∈ b.chain.map PriceLevel.price) ∧
  (∀ L ∈ b.chain, (int64And L.price 127, L.price) ∈ b.slots) ∧
  (b.slots.map Prod.fst).Nodup

instance (h isBuy x b) : Decidable (BucketWF h isBuy x b) := by
  unfold BucketWF; infer_instance

/-- Well-formedness of one sharded ladder: sorted buckets, per-bucket
facts, and the cached best pointers agreeing with the extremal bucket and
its chain head. -/
def TreeWF (h : Heap) (isBuy : Bool) (x : Option String) (t : ShardedPriceTree) : Prop :=
  t.isBuy = isBuy ∧ t.bucketSize = 128 ∧
  t.buckets.Pairwise (fun a b => Better isBuy a.bucketID b.bucketID) ∧
  (∀ b ∈ t.buckets, BucketWF h isBuy x b) ∧
  t.bestBucket = t.buckets.head?.map Bucket.bucketID ∧
  t.bestPrice = t.buckets.head?.bind (fun b => (b.chain.head?).map PriceLevel.price)

instance (h isBuy x t) : Decidable (TreeWF h isBuy x t) := by
  unfold TreeWF; infer_instance

/-- All resting order ids of a ladder, in structure order. -/
def treeIds (t : ShardedPriceTree) : List String :=
  t.buckets.flatMap (fun b => b.chain.flatMap PriceLevel.orders)

/-- All resting order ids of the book. -/
def bookIds (ob : OrderBook) : List String := treeIds ob.bids ++ treeIds ob.asks

/-- All levels of a ladder. -/
def treeLevels (t : ShardedPriceTree) : List PriceLevel := t.buckets.flatMap Bucket.chain

/-- Heap sanity: keys are unique, every object's id is its key, and a
Filled status certifies filled = quantity. -/
def HeapWF (h : Heap) : Prop :=
  (h.map Prod.fst).Nodup ∧
  ∀ p ∈ h, (p.2).id = p.1 ∧
    ((p.2).status = OrderStatus.Filled → (p.2).filled = (p.2).quantity)

instance (h) : Decidable (HeapWF h) := by unfold HeapWF; infer_instance

/-- Well-formedness of the order book: both ladders, global uniqueness of
resting ids, and the id map holding exactly the resting ids. -/
def BookWF (h : Heap) (x : Option String) (ob : OrderBook) : Prop :=
  TreeWF h true x ob.bids ∧ TreeWF h false x ob.asks ∧
  (bookIds ob).Nodup ∧
  ob.orders.Nodup ∧
  (∀ oid ∈ ob.orders, oid ∈ bookIds ob) ∧
  (∀ oid ∈ bookIds ob, oid ∈ ob.orders)

instance (h x ob) : Decidable (BookWF h x ob) := by unfold BookWF; infer_instance

/-- The engine invariant, with an optional exceptional order id in the
transient just-filled state. -/
def InvX (es : EngineState) (x : Option String) : Prop :=
  HeapWF es.heap ∧ BookWF es.heap x es.book

instance (es x) : Decidable (InvX es x) := by unfold InvX; infer_instance

/-- The engine invariant between requests. -/
def Inv (es : EngineState) : Prop := InvX es none

instance (es) : Decidable (Inv es) := by unfold Inv; infer_instance

/-- Facts about the incoming order that the matching loop maintains: it is
on the heap, not linked into any FIFO, a positive-price order if a limit
order, and its fill state is consistent. -/
def IncomingOK (h : Heap) (oid : String) : Prop :=
  (heapGet h oid).isSome = true ∧
  0 ≤ (getOrder h oid).filled ∧
  (getOrder h oid).listElement = false ∧
  ((getOrder h oid).otype = OrderType.Limit → 0 < (getOrder h oid).price) ∧
  ((getOrder h oid).status = OrderStatus.Pending ∨
    (getOrder h oid).status = OrderStatus.PartialFilled ∨
    (getOrder h oid).status = OrderStatus.Filled) ∧
  ((getOrder h oid).status = OrderStatus.Filled →
    (getOrder h oid).quantity ≤ (getOrder h oid).filled)

instance (h oid) : Decidable (IncomingOK h oid) := by unfold IncomingOK; infer_instance

/-- Validity of one request against the current engine state: a submitted
order is a fresh object as produced by NewLimitOrder (fresh id, nothing
filled, Pending, no FIFO handle, positive price if a limit order); cancel
requests are arbitrary. -/
def eventWF (es : EngineState) : Event → Bool
  | Event.submit o =>
    (heapGet es.heap o.id).isNone && decide (o.filled = 0) &&
    decide (o.status = OrderStatus.Pending) && decide (o.listElement = false) &&
    (decide (o.otype ≠ OrderType.Limit) || decide (0 < o.price))
  | Event.cancel _ => true

/-- Validity of a request sequence, threaded through the run. -/
def eventsWF (es : EngineState) : List Event → Bool
  | [] => true
  | e :: rest => eventWF es e && eventsWF (step es e).1 rest

/-! ### Spec-side definitions (from the specification text, for comparison
with the code) and concrete scenario states -/

/-- The submit path seen as a fallible operation, to state the spec's
validation sentence: none models a synchronous typed-error rejection. -/
def submitOrderOpt (queue : List Order) (o : Order) : Option (List Order) :=
  some (SubmitOrder queue o)

/-- Spec sentence of §7: every malformed order (non-positive quantity, or
non-positive price on a limit order) is rejected at submit time. -/
def specRejectsMalformed (submit : List Order → Order → Option (List Order)) : Prop :=
  ∀ queue o, (o.quantity ≤ 0 ∨ (o.otype = OrderType.Limit ∧ o.price ≤ 0)) →
    submit queue o = none

/-- A well-formed but already-filled order (quantity 0): the C10 scenario. -/
def zeroQtyOrder : Order :=
  { id := "x", symbol := "S", userId := "u", side := Side.Buy,
    otype := OrderType.Limit, price := 5, quantity := 0, filled := 0,
    status := OrderStatus.Pending, listElement := false, timestamp := 0 }

/-- An engine holding only the zero-quantity order. -/
def zeroQtyState : EngineState :=
  { symbol := "S", heap := [("x", zeroQtyOrder)], book := NewOrderBook "S",
    tradeSeq := 0 }

/-- A malformed order: negative quantity and negative price. -/
def malformedOrder : Order :=
  { id := "bad", symbol := "S", userId := "u", side := Side.Buy,
    otype := OrderType.Limit, price := -1, quantity := -5, filled := 0,
    status := OrderStatus.Pending, listElement := false, timestamp := 0 }

/-- C6 scenario: sells A, B, C of 10 at 50000 in order, then a buy of 15. -/
def timePriorityEvents : List Event :=
  [Event.submit (NewLimitOrder "A" "S" "u" Side.Sell 50000 10 1),
   Event.submit (NewLimitOrder "B" "S" "u" Side.Sell 50000 10 2),
   Event.submit (NewLimitOrder "C" "S" "u" Side.Sell 50000 10 3),
   Event.submit (NewLimitOrder "D" "S" "u" Side.Buy 50000 15 4)]

/-- C1 scenario: a resting sell of 100 partially filled by a buy of 40. -/
def partialFillEvents : List Event :=
  [Event.submit (NewLimitOrder "s1" "S" "u" Side.Sell 50000 100 1),
   Event.submit (NewLimitOrder "b1" "S" "u" Side.Buy 50000 40 2)]

/-- C2 scenario: a resting sell of 10 fully filled by a buy of 10. -/
def fullFillEvents : List Event :=
  [Event.submit (NewLimitOrder "s1" "S" "u" Side.Sell 10 10 1),
   Event.submit (NewLimitOrder "b1" "S" "u" Side.Buy 10 10 2)]

/-- The engine state after the C2 sell rested and the buy was allocated,
just before the matching loop runs: the state executeTrade acts on. -/
def fullFillMidState : EngineState :=
  let es1 := (step (NewMatchingEngine "S") (Event.submit
    (NewLimitOrder "s1" "S" "u" Side.Sell 10 10 1))).1
  { es1 with heap := heapSet es1.heap "b1" (NewLimitOrder "b1" "S" "u" Side.Buy 10 10 2) }

/-- The mirror of fullFillMidState: the buy rested first and the sell was
allocated, just before the sell-side matching loop runs. -/
def sellFillMidState : EngineState :=
  let es1 := (step (NewMatchingEngine "S") (Event.submit
    (NewLimitOrder "b1" "S" "u" Side.Buy 10 10 1))).1
  { es1 with heap := heapSet es1.heap "s1" (NewLimitOrder "s1" "S" "u" Side.Sell 10 10 2) }

/-- C8 scenario: a market buy submitted to an empty book. -/
def marketOrder : Order :=
  { id := "m1", symbol := "S", userId := "u", side := Side.Buy,
    otype := OrderType.Market, price := 0, quantity := 5, filled := 0,
    status := OrderStatus.Pending, listElement := false, timestamp := 1 }

/-- C7 scenario: a fresh limit buy of 7 at 250. -/
def rtOrder : Order := NewLimitOrder "r1" "S" "u" Side.Buy 250 7 1

/-- C7 scenario: the heap holding only the fresh order. -/
def rtHeap : Heap := [("r1", rtOrder)]

/-- C7 scenario: the empty book the order is added to and cancelled from. -/
def rtBook : OrderBook := NewOrderBook "S"

/-! ### Lemmas: the side order -/

theorem Better.trans {isBuy : Bool} {a b c : Int} (h1 : Better isBuy a b)
    (h2 : Better isBuy b c) : Better isBuy a c := by
  unfold Better at *; split at h1 <;> simp_all <;> omega

theorem Better.total {isBuy : Bool} {a b : Int} (h1 : ¬ Better isBuy a b)
    (h2 : a ≠ b) : Better isBuy b a := by
  unfold Better at *; split at h1 <;> simp_all <;> omega

theorem Better.irrefl {isBuy : Bool} {a : Int} (h : Better isBuy a a) : False := by
  unfold Better at h; split at h <;> omega

theorem Better.ne {isBuy : Bool} {a b : Int} (h : Better isBuy a b) : a ≠ b := by
  rintro rfl; exact h.irrefl

theorem isBetterPrice_iff {isBuy : Bool} {a b : Int} :
    isBetterPrice isBuy a b = true ↔ Better isBuy a b := by
  unfold isBetterPrice Better; split <;> simp

theorem isBetterBucket_iff {isBuy : Bool} {a b : Int} :
    isBetterBucket isBuy a b = true ↔ Better isBuy a b := by
  unfold isBetterBucket Better; split <;> simp

/-! ### Lemmas: the order heap -/

theorem heapGet_set_self (h : Heap) (k : String) (v : Order) :
    heapGet (heapSet h k v) k = some v := by
  induction h with
  | nil => simp [heapSet, heapGet]
  | cons p rest ih =>
    obtain ⟨k', v'⟩ := p
    by_cases hk : k' = k
    · simp [heapSet, hk, heapGet]
    · simp [heapSet, hk, heapGet, ih]

theorem heapGet_set_ne (h : Heap) {k k' : String} (v : Order) (hne : k' ≠ k) :
    heapGet (heapSet h k v) k' = heapGet h k' := by
  induction h with
  | nil => simp [heapSet, heapGet, Ne.symm hne]
  | cons p rest ih =>
    obtain ⟨k1, v1⟩ := p
    by_cases hk : k1 = k
    · subst hk; simp [heapSet, heapGet, Ne.symm hne]
    · simp [heapSet, hk, heapGet, ih]

theorem getOrder_set_self (h : Heap) (k : String) (v : Order) :
    getOrder (heapSet h k v) k = v := by
  simp [getOrder, heapGet_set_self]

theorem getOrder_set_ne (h : Heap) {k k' : String} (v : Order) (hne : k' ≠ k) :
    getOrder (heapSet h k v) k' = getOrder h k' := by
  simp [getOrder, heapGet_set_ne h v hne]

theorem heapGet_isSome_set (h : Heap) (k k' : String) (v : Order)
    (hs : (heapGet h k').isSome = true) : (heapGet (heapSet h k v) k').isSome = true := by
  by_cases hk : k' = k
  · subst hk; simp [heapGet_set_self]
  · rwa [heapGet_set_ne h v hk]

theorem heapSet_map_fst (h : Heap) (k : String) (v : Order) :
    (heapSet h k v).map Prod.fst =
      if k ∈ h.map Prod.fst then h.map Prod.fst else h.map Prod.fst ++ [k] := by
  induction h with
  | nil => simp [heapSet]
  | cons p rest ih =>
    obtain ⟨k1, v1⟩ := p
    by_cases hk : k1 = k
    · subst hk; simp [heapSet]
    · by_cases hmem : k ∈ rest.map Prod.fst
      · simp [heapSet, hk, ih, hmem, Ne.symm hk]
      · simp [heapSet, hk, ih, hmem, Ne.symm hk]

theorem heapSet_mem (h : Heap) (k : String) (v : Order) :
    ∀ p ∈ heapSet h k v, p = (k, v) ∨ p ∈ h := by
  induction h with
  | nil => simp [heapSet]
  | cons q rest ih =>
    obtain ⟨k1, v1⟩ := q
    by_cases hk : k1 = k
    · subst hk; intro p hp
      simp [heapSet] at hp
      rcases hp with rfl | hp
      · exact Or.inl rfl
      · exact Or.inr (List.mem_cons_of_mem _ hp)
    · intro p hp
      simp [heapSet, hk] at hp
      rcases hp with rfl | hp
      · exact Or.inr (List.mem_cons_self _ _)
      · rcases ih p hp with h1 | h1
        · exact Or.inl h1
        · exact Or.inr (List.mem_cons_of_mem _ h1)

theorem heapGet_mem {h : Heap} {k : String} {v : Order} (hg : heapGet h k = some v) :
    (k, v) ∈ h := by
  induction h with
  | nil => simp [heapGet] at hg
  | cons p rest ih =>
    obtain ⟨k1, v1⟩ := p
    by_cases hk : k1 = k
    · subst hk
      simp [heapGet] at hg
      subst hg; exact List.mem_cons_self _ _
    · simp [heapGet, hk] at hg
      exact List.mem_cons_of_mem _ (ih hg)

theorem heapGet_isSome_iff (h : Heap) (k : String) :
    (heapGet h k).isSome = true ↔ k ∈ h.map Prod.fst := by
  induction h with
  | nil => simp [heapGet]
  | cons p rest ih =>
    obtain ⟨k1, v1⟩ := p
    by_cases hk : k1 = k
    · subst hk; simp [heapGet]
    · simp [heapGet, hk, ih, Ne.symm hk]

theorem HeapWF_set {h : Heap} {k : String} {v : Order} (hWF : HeapWF h)
    (hid : v.id = k)
    (hf : v.status = OrderStatus.Filled → v.filled = v.quantity) :
    HeapWF (heapSet h k v) := by
  obtain ⟨hnd, hall⟩ := hWF
  constructor
  · rw [heapSet_map_fst]
    split
    · exact hnd
    · next hmem => simpa [List.nodup_append, hmem] using hnd
  · intro p hp
    rcases heapSet_mem h k v p hp with rfl | hmem
    · exact ⟨hid, hf⟩
    · exact hall p hmem

theorem HeapWF_get {h : Heap} {k : String} {v : Order} (hWF : HeapWF h)
    (hg : heapGet h k = some v) :
    v.id = k ∧ (v.status = OrderStatus.Filled → v.filled = v.quantity) :=
  hWF.2 (k, v) (heapGet_mem hg)

/-! ### Lemmas: the direct-address slot array -/

theorem slotsGet_set_self (s : List (Int × Int)) (i p : Int) :
    slotsGet (slotsSet s i p) i = some p := by
  induction s with
  | nil => simp [slotsSet, slotsGet]
  | cons q rest ih =>
    obtain ⟨i1, p1⟩ := q
    by_cases hi : i1 = i
    · simp [slotsSet, hi, slotsGet]
    · simp [slotsSet, hi, slotsGet, ih]

theorem slotsGet_set_ne (s : List (Int × Int)) {i i' : Int} (p : Int) (hne : i' ≠ i) :
    slotsGet (slotsSet s i p) i' = slotsGet s i' := by
  induction s with
  | nil => simp [slotsSet, slotsGet, Ne.symm hne]
  | cons q rest ih =>
    obtain ⟨i1, p1⟩ := q
    by_cases hi : i1 = i
    · subst hi; simp [slotsSet, slotsGet, Ne.symm hne]
    · simp [slotsSet, hi, slotsGet, ih]

theorem slotsGet_none_iff (s : List (Int × Int)) (i : Int) :
    slotsGet s i = none ↔ i ∉ s.map Prod.fst := by
  induction s with
  | nil => simp [slotsGet]
  | cons q rest ih =>
    obtain ⟨i1, p1⟩ := q
    by_cases hi : i1 = i
    · subst hi; simp [slotsGet]
    · simp [slotsGet, hi, ih, Ne.symm hi]

theorem slotsGet_some_mem {s : List (Int × Int)} {i p : Int}
    (hg : slotsGet s i = some p) : (i, p) ∈ s := by
  induction s with
  | nil => simp [slotsGet] at hg
  | cons q rest ih =>
    obtain ⟨i1, p1⟩ := q
    by_cases hi : i1 = i
    · subst hi; simp [slotsGet] at hg; subst hg; exact List.mem_cons_self _ _
    · simp [slotsGet, hi] at hg
      exact List.mem_cons_of_mem _ (ih hg)

theorem slotsGet_mem_nodup {s : List (Int × Int)} {i p : Int}
    (hnd : (s.map Prod.fst).Nodup) (hmem : (i, p) ∈ s) : slotsGet s i = some p := by
  induction s with
  | nil => simp at hmem
  | cons q rest ih =>
    obtain ⟨i1, p1⟩ := q
    rw [List.map_cons, List.nodup_cons] at hnd
    rcases List.mem_cons.mp hmem with heq | hmem'
    · rw [Prod.mk.injEq] at heq
      obtain ⟨rfl, rfl⟩ := heq
      simp [slotsGet]
    · have hi : i1 ≠ i := by
        rintro rfl
        exact hnd.1 (List.mem_map.mpr ⟨(i1, p), hmem', rfl⟩)
      simp only [slotsGet, hi, if_false]
      exact ih hnd.2 hmem'

theorem slotsSet_fresh (s : List (Int × Int)) (i p : Int)
    (hfresh : i ∉ s.map Prod.fst) : slotsSet s i p = s ++ [(i, p)] := by
  induction s with
  | nil => simp [slotsSet]
  | cons q rest ih =>
    obtain ⟨i1, p1⟩ := q
    rw [List.map_cons, List.mem_cons] at hfresh
    push_neg at hfresh
    simp only [slotsSet, Ne.symm hfresh.1, if_false, List.cons_append, List.cons.injEq,
      true_and]
    exact ih hfresh.2

theorem slotsErase_sublist (s : List (Int × Int)) (i : Int) :
    (slotsErase s i).Sublist s := by
  induction s with
  | nil => simp [slotsErase]
  | cons q rest ih =>
    obtain ⟨i1, p1⟩ := q
    by_cases hi : i1 = i
    · simp [slotsErase, hi]
    · simp only [slotsErase, hi, if_false]
      exact ih.cons₂ _

theorem slotsErase_fresh (s : List (Int × Int)) (i : Int)
    (hfresh : i ∉ s.map Prod.fst) : slotsErase s i = s := by
  induction s with
  | nil => simp [slotsErase]
  | cons q rest ih =>
    obtain ⟨i1, p1⟩ := q
    rw [List.map_cons, List.mem_cons] at hfresh
    push_neg at hfresh
    simp only [slotsErase, Ne.symm hfresh.1, if_false, List.cons.injEq, true_and]
    exact ih hfresh.2

theorem slotsErase_mem_nodup {s : List (Int × Int)} {i : Int}
    (hnd : (s.map Prod.fst).Nodup) (q : Int × Int) :
    (q ∈ slotsErase s i ↔ q ∈ s ∧ q.1 ≠ i) := by
  induction s with
  | nil => simp [slotsErase]
  | cons r rest ih =>
    obtain ⟨i1, p1⟩ := r
    rw [List.map_cons, List.nodup_cons] at hnd
    by_cases hi : i1 = i
    · subst hi
      have hq1 : ∀ q' ∈ rest, (q' : Int × Int).1 ≠ i1 := by
        intro q' hq' he
        exact hnd.1 (List.mem_map.mpr ⟨q', hq', he⟩)
      simp only [slotsErase, if_true, List.mem_cons]
      constructor
      · intro hq
        exact ⟨Or.inr hq, hq1 q hq⟩
      · rintro ⟨rfl | hq, hne⟩
        · exact absurd rfl hne
        · exact hq
    · simp only [slotsErase, hi, if_false, List.mem_cons]
      constructor
      · rintro (rfl | hq)
        · exact ⟨Or.inl rfl, hi⟩
        · have := (ih hnd.2).mp hq
          exact ⟨Or.inr this.1, this.2⟩
      · rintro ⟨rfl | hq, hne⟩
        · exact Or.inl rfl
        · exact Or.inr ((ih hnd.2).mpr ⟨hq, hne⟩)

/-! ### Lemmas: level chains -/

theorem chainFind_some {p : Int} {c : List PriceLevel} {L : PriceLevel}
    (hf : chainFind p c = some L) : L ∈ c ∧ L.price = p := by
  induction c with
  | nil => simp [chainFind] at hf
  | cons M rest ih =>
    by_cases hp : M.price = p
    · simp [chainFind, hp] at hf
      subst hf; exact ⟨List.mem_cons_self _ _, hp⟩
    · simp only [chainFind, hp, if_false] at hf
      exact ⟨List.mem_cons_of_mem _ (ih hf).1, (ih hf).2⟩

theorem chainFind_none_iff (p : Int) (c : List PriceLevel) :
    chainFind p c = none ↔ p ∉ c.map PriceLevel.price := by
  induction c with
  | nil => simp [chainFind]
  | cons M rest ih =>
    by_cases hp : M.price = p
    · simp [chainFind, hp]
    · simp [chainFind, hp, ih, Ne.symm hp]

theorem chainFind_mem {c : List PriceLevel} {L : PriceLevel}
    (hnd : (c.map PriceLevel.price).Nodup) (hmem : L ∈ c) :
    chainFind L.price c = some L := by
  induction c with
  | nil => simp at hmem
  | cons M rest ih =>
    rw [List.map_cons, List.nodup_cons] at hnd
    rcases List.mem_cons.mp hmem with rfl | hmem'
    · simp [chainFind]
    · have hp : M.price ≠ L.price := by
        rintro he
        exact hnd.1 (List.mem_map.mpr ⟨L, hmem', he.symm⟩)
      simp only [chainFind, hp, if_false]
      exact ih hnd.2 hmem'

theorem chainInsert_nil (isBuy : Bool) (L : PriceLevel) : chainInsert isBuy L [] = [L] :=
  rfl

theorem chainInsert_cons_better {isBuy : Bool} {L M : PriceLevel} (rest : List PriceLevel)
    (hb : isBetterPrice isBuy L.price M.price = true) :
    chainInsert isBuy L (M :: rest) = L :: M :: rest := by
  simp [chainInsert, hb]

theorem chainInsert_cons_worse {isBuy : Bool} {L M : PriceLevel} (rest : List PriceLevel)
    (hb : isBetterPrice isBuy L.price M.price = false) :
    chainInsert isBuy L (M :: rest) = M :: chainInsert isBuy L rest := by
  simp [chainInsert, hb]

theorem chainInsert_perm (isBuy : Bool) (L : PriceLevel) (c : List PriceLevel) :
    (chainInsert isBuy L c).Perm (L :: c) := by
  induction c with
  | nil => simp [chainInsert]
  | cons M rest ih =>
    by_cases hb : isBetterPrice isBuy L.price M.price
    · rw [chainInsert_cons_better rest hb]
    · rw [chainInsert_cons_worse rest (by simpa using hb)]
      exact (ih.cons M).trans (List.Perm.swap L M rest)

theorem chainInsert_map_price_perm (isBuy : Bool) (L : PriceLevel) (c : List PriceLevel) :
    ((chainInsert isBuy L c).map PriceLevel.price).Perm
      (L.price :: c.map PriceLevel.price) :=
  (chainInsert_perm isBuy L c).map PriceLevel.price

theorem chainInsert_pairwise {isBuy : Bool} {L : PriceLevel} {c : List PriceLevel}
    (hc : c.Pairwise (fun a b => Better isBuy a.price b.price))
    (hfresh : L.price ∉ c.map PriceLevel.price) :
    (chainInsert isBuy L c).Pairwise (fun a b => Better isBuy a.price b.price) := by
  induction c with
  | nil => simp [chainInsert]
  | cons M rest ih =>
    rw [List.map_cons, List.mem_cons] at hfresh
    push_neg at hfresh
    rw [List.pairwise_cons] at hc
    by_cases hb : isBetterPrice isBuy L.price M.price
    · have hLM : Better isBuy L.price M.price := isBetterPrice_iff.mp hb
      rw [chainInsert_cons_better rest hb, List.pairwise_cons]
      refine ⟨?_, List.pairwise_cons.mpr hc⟩
      intro N hN
      rcases List.mem_cons.mp hN with rfl | hN'
      · exact hLM
      · exact hLM.trans (hc.1 N hN')
    · have hML : Better isBuy M.price L.price :=
        Better.total (fun hx => hb (isBetterPrice_iff.mpr hx)) hfresh.1
      rw [chainInsert_cons_worse rest (by simpa using hb), List.pairwise_cons]
      refine ⟨?_, ih hc.2 hfresh.2⟩
      intro N hN
      rcases List.mem_cons.mp ((chainInsert_perm isBuy L rest).mem_iff.mp hN) with
        rfl | hN'
      · exact hML
      · exact hc.1 N hN'

theorem chainInsert_head (isBuy : Bool) (L : PriceLevel) (c : List PriceLevel) :
    (chainInsert isBuy L c).head? =
      match c.head? with
      | none => some L
      | some M => if isBetterPrice isBuy L.price M.price then some L else some M := by
  cases c with
  | nil => simp [chainInsert]
  | cons M rest =>
    by_cases hb : isBetterPrice isBuy L.price M.price
    · rw [chainInsert_cons_better rest hb]; simp [hb]
    · rw [chainInsert_cons_worse rest (by simpa using hb)]; simp [hb]

theorem chainRemove_sublist (p : Int) (c : List PriceLevel) :
    (chainRemove p c).Sublist c := by
  induction c with
  | nil => simp [chainRemove]
  | cons M rest ih =>
    by_cases hp : M.price = p
    · simp [chainRemove, hp]
    · simp only [chainRemove, hp, if_false]
      exact ih.cons₂ _

theorem chainRemove_fresh (p : Int) (c : List PriceLevel)
    (hfresh : p ∉ c.map PriceLevel.price) : chainRemove p c = c := by
  induction c with
  | nil => simp [chainRemove]
  | cons M rest ih =>
    rw [List.map_cons, List.mem_cons] at hfresh
    push_neg at hfresh
    simp only [chainRemove, Ne.symm hfresh.1, if_false, List.cons.injEq, true_and]
    exact ih hfresh.2

theorem chainRemove_mem_nodup {c : List PriceLevel} {p : Int}
    (hnd : (c.map PriceLevel.price).Nodup) (L : PriceLevel) :
    (L ∈ chainRemove p c ↔ L ∈ c ∧ L.price ≠ p) := by
  induction c with
  | nil => simp [chainRemove]
  | cons M rest ih =>
    rw [List.map_cons, List.nodup_cons] at hnd
    by_cases hp : M.price = p
    · subst hp
      have hq1 : ∀ N ∈ rest, (N : PriceLevel).price ≠ M.price := by
        intro N hN he
        exact hnd.1 (List.mem_map.mpr ⟨N, hN, he⟩)
      simp only [chainRemove, if_true, List.mem_cons]
      constructor
      · intro hL
        exact ⟨Or.inr hL, hq1 L hL⟩
      · rintro ⟨rfl | hL, hne⟩
        · exact absurd rfl hne
        · exact hL
    · simp only [chainRemove, hp, if_false, List.mem_cons]
      constructor
      · rintro (rfl | hL)
        · exact ⟨Or.inl rfl, hp⟩
        · have := (ih hnd.2).mp hL
          exact ⟨Or.inr this.1, this.2⟩
      · rintro ⟨rfl | hL, hne⟩
        · exact Or.inl rfl
        · exact Or.inr ((ih hnd.2).mpr ⟨hL, hne⟩)

theorem chainRemove_split {c : List PriceLevel} {p : Int} {L : PriceLevel}
    (hf : chainFind p c = some L) :
    ∃ pre post, c = pre ++ L :: post ∧ chainRemove p c = pre ++ post ∧
      ∀ M ∈ pre, (M : PriceLevel).price ≠ p := by
  induction c with
  | nil => simp [chainFind] at hf
  | cons M rest ih =>
    by_cases hp : M.price = p
    · simp [chainFind, hp] at hf
      subst hf
      exact ⟨[], rest, by simp, by simp [chainRemove, hp], by simp⟩
    · simp only [chainFind, hp, if_false] at hf
      obtain ⟨pre, post, hc, hr, hpre⟩ := ih hf
      refine ⟨M :: pre, post, by simp [hc], ?_, ?_⟩
      · simp only [chainRemove, hp, if_false, hr, List.cons_append]
      · intro N hN
        rcases List.mem_cons.mp hN with rfl | hN'
        · exact hp
        · exact hpre N hN'

theorem chainModify_fresh (p : Int) (f : PriceLevel → PriceLevel) (c : List PriceLevel)
    (hfresh : p ∉ c.map PriceLevel.price) : chainModify p f c = c := by
  induction c with
  | nil => simp [chainModify]
  | cons M rest ih =>
    rw [List.map_cons, List.mem_cons] at hfresh
    push_neg at hfresh
    simp only [chainModify, Ne.symm hfresh.1, if_false, List.cons.injEq, true_and]
    exact ih hfresh.2

theorem chainModify_split {c : List PriceLevel} {p : Int} {L : PriceLevel}
    (f : PriceLevel → PriceLevel) (hf : chainFind p c = some L) :
    ∃ pre post, c = pre ++ L :: post ∧ chainModify p f c = pre ++ f L :: post ∧
      ∀ M ∈ pre, (M : PriceLevel).price ≠ p := by
  induction c with
  | nil => simp [chainFind] at hf
  | cons M rest ih =>
    by_cases hp : M.price = p
    · simp [chainFind, hp] at hf
      subst hf
      exact ⟨[], rest, by simp, by simp [chainModify, hp], by simp⟩
    · simp only [chainFind, hp, if_false] at hf
      obtain ⟨pre, post, hc, hr, hpre⟩ := ih hf
      refine ⟨M :: pre, post, by simp [hc], ?_, ?_⟩
      · simp only [chainModify, hp, if_false, hr, List.cons_append]
      · intro N hN
        rcases List.mem_cons.mp hN with rfl | hN'
        · exact hp
        · exact hpre N hN'

/-! ### Lemmas: the ordered bucket map -/

theorem bucketsGet_some {bs : List Bucket} {id : Int} {b : Bucket}
    (hg : bucketsGet bs id = some b) : b ∈ bs ∧ b.bucketID = id := by
  induction bs with
  | nil => simp [bucketsGet] at hg
  | cons c rest ih =>
    by_cases hc : c.bucketID = id
    · simp [bucketsGet, hc] at hg
      subst hg; exact ⟨List.mem_cons_self _ _, hc⟩
    · simp only [bucketsGet, hc, if_false] at hg
      exact ⟨List.mem_cons_of_mem _ (ih hg).1, (ih hg).2⟩

theorem bucketsGet_none_iff (bs : List Bucket) (id : Int) :
    bucketsGet bs id = none ↔ id ∉ bs.map Bucket.bucketID := by
  induction bs with
  | nil => simp [bucketsGet]
  | cons c rest ih =>
    by_cases hc : c.bucketID = id
    · simp [bucketsGet, hc]
    · simp [bucketsGet, hc, ih, Ne.symm hc]

theorem bucketsGet_mem {bs : List Bucket} {b : Bucket}
    (hnd : (bs.map Bucket.bucketID).Nodup) (hmem : b ∈ bs) :
    bucketsGet bs b.bucketID = some b := by
  induction bs with
  | nil => simp at hmem
  | cons c rest ih =>
    rw [List.map_cons, List.nodup_cons] at hnd
    rcases List.mem_cons.mp hmem with rfl | hmem'
    · simp [bucketsGet]
    · have hc : c.bucketID ≠ b.bucketID := by
        rintro he
        exact hnd.1 (List.mem_map.mpr ⟨b, hmem', he.symm⟩)
      simp only [bucketsGet, hc, if_false]
      exact ih hnd.2 hmem'

theorem bucketsPut_nil (isBuy : Bool) (b : Bucket) : bucketsPut isBuy b [] = [b] := rfl

theorem bucketsPut_fresh_perm (isBuy : Bool) (b : Bucket) (bs : List Bucket)
    (hfresh : b.bucketID ∉ bs.map Bucket.bucketID) :
    (bucketsPut isBuy b bs).Perm (b :: bs) := by
  induction bs with
  | nil => simp [bucketsPut]
  | cons c rest ih =>
    rw [List.map_cons, List.mem_cons] at hfresh
    push_neg at hfresh
    by_cases hb : isBetterBucket isBuy b.bucketID c.bucketID
    · simp [bucketsPut, Ne.symm hfresh.1, hb]
    · simp only [bucketsPut, Ne.symm hfresh.1, if_false, hb]
      exact ((ih hfresh.2).cons c).trans (List.Perm.swap b c rest)

theorem bucketsPut_fresh_pairwise {isBuy : Bool} {b : Bucket} {bs : List Bucket}
    (hs : bs.Pairwise (fun x y => Better isBuy x.bucketID y.bucketID))
    (hfresh : b.bucketID ∉ bs.map Bucket.bucketID) :
    (bucketsPut isBuy b bs).Pairwise (fun x y => Better isBuy x.bucketID y.bucketID) := by
  induction bs with
  | nil => simp [bucketsPut]
  | cons c rest ih =>
    rw [List.map_cons, List.mem_cons] at hfresh
    push_neg at hfresh
    rw [List.pairwise_cons] at hs
    by_cases hb : isBetterBucket isBuy b.bucketID c.bucketID
    · have hbc : Better isBuy b.bucketID c.bucketID := isBetterBucket_iff.mp hb
      simp only [bucketsPut, Ne.symm hfresh.1, if_false, hb, if_true]
      rw [List.pairwise_cons]
      refine ⟨?_, List.pairwise_cons.mpr hs⟩
      intro d hd
      rcases List.mem_cons.mp hd with rfl | hd'
      · exact hbc
      · exact hbc.trans (hs.1 d hd')
    · have hcb : Better isBuy c.bucketID b.bucketID :=
        Better.total (fun hx => hb (isBetterBucket_iff.mpr hx)) hfresh.1
      simp only [bucketsPut, Ne.symm hfresh.1, if_false, hb, Bool.false_eq_true]
      rw [List.pairwise_cons]
      refine ⟨?_, ih hs.2 hfresh.2⟩
      intro d hd
      rcases List.mem_cons.mp
        ((bucketsPut_fresh_perm isBuy b rest hfresh.2).mem_iff.mp hd) with rfl | hd'
      · exact hcb
      · exact hs.1 d hd'

theorem bucketsPut_fresh_head (isBuy : Bool) (b : Bucket) (bs : List Bucket)
    (hfresh : b.bucketID ∉ bs.map Bucket.bucketID) :
    (bucketsPut isBuy b bs).head? =
      match bs.head? with
      | none => some b
      | some c =>
        if isBetterBucket isBuy b.bucketID c.bucketID then some b else some c := by
  cases bs with
  | nil => simp [bucketsPut]
  | cons c rest =>
    rw [List.map_cons, List.mem_cons] at hfresh
    push_neg at hfresh
    by_cases hb : isBetterBucket isBuy b.bucketID c.bucketID <;>
      simp [bucketsPut, Ne.symm hfresh.1, hb]

theorem bucketsPut_existing {isBuy : Bool} {b : Bucket} {bs : List Bucket}
    (hs : bs.Pairwise (fun x y => Better isBuy x.bucketID y.bucketID))
    (hmem : b.bucketID ∈ bs.map Bucket.bucketID) :
    bucketsPut isBuy b bs = bucketsSet b bs := by
  induction bs with
  | nil => simp at hmem
  | cons c rest ih =>
    rw [List.map_cons, List.mem_cons] at hmem
    rw [List.pairwise_cons] at hs
    by_cases hc : c.bucketID = b.bucketID
    · simp [bucketsPut, bucketsSet, hc]
    · have hmem' : b.bucketID ∈ rest.map Bucket.bucketID := by
        rcases hmem with he | h'
        · exact absurd he.symm hc
        · exact h'
      have hb : ¬ isBetterBucket isBuy b.bucketID c.bucketID = true := by
        intro hx
        obtain ⟨d, hd, hd'⟩ := List.mem_map.mp hmem'
        have := hs.1 d hd
        rw [hd'] at this
        exact ((isBetterBucket_iff.mp hx).trans this).irrefl
      simp only [bucketsPut, bucketsSet, hc, if_false, hb, Bool.false_eq_true]
      rw [ih hs.2 hmem']

theorem bucketsSet_fresh (b : Bucket) (bs : List Bucket)
    (hfresh : b.bucketID ∉ bs.map Bucket.bucketID) : bucketsSet b bs = bs := by
  induction bs with
  | nil => simp [bucketsSet]
  | cons c rest ih =>
    rw [List.map_cons, List.mem_cons] at hfresh
    push_neg at hfresh
    simp only [bucketsSet, Ne.symm hfresh.1, if_false, List.cons.injEq, true_and]
    exact ih hfresh.2

theorem bucketsSet_split {bs : List Bucket} {c : Bucket} (b : Bucket)
    (hg : bucketsGet bs b.bucketID = some c) :
    ∃ pre post, bs = pre ++ c :: post ∧ bucketsSet b bs = pre ++ b :: post ∧
      ∀ d ∈ pre, (d : Bucket).bucketID ≠ b.bucketID := by
  induction bs with
  | nil => simp [bucketsGet] at hg
  | cons d rest ih =>
    by_cases hd : d.bucketID = b.bucketID
    · simp [bucketsGet, hd] at hg
      subst hg
      exact ⟨[], rest, by simp, by simp [bucketsSet, hd], by simp⟩
    · simp only [bucketsGet, hd, if_false] at hg
      obtain ⟨pre, post, hc, hr, hpre⟩ := ih hg
      refine ⟨d :: pre, post, by simp [hc], ?_, ?_⟩
      · simp only [bucketsSet, hd, if_false, hr, List.cons_append]
      · intro e he
        rcases List.mem_cons.mp he with rfl | he'
        · exact hd
        · exact hpre e he'

theorem bucketsRemove_sublist (id : Int) (bs : List Bucket) :
    (bucketsRemove id bs).Sublist bs := by
  induction bs with
  | nil => simp [bucketsRemove]
  | cons c rest ih =>
    by_cases hc : c.bucketID = id
    · simp [bucketsRemove, hc]
    · simp only [bucketsRemove, hc, if_false]
      exact ih.cons₂ _

theorem bucketsRemove_split {bs : List Bucket} {id : Int} {c : Bucket}
    (hg : bucketsGet bs id = some c) :
    ∃ pre post, bs = pre ++ c :: post ∧ bucketsRemove id bs = pre ++ post ∧
      ∀ d ∈ pre, (d : Bucket).bucketID ≠ id := by
  induction bs with
  | nil => simp [bucketsGet] at hg
  | cons d rest ih =>
    by_cases hd : d.bucketID = id
    · simp [bucketsGet, hd] at hg
      subst hg
      exact ⟨[], rest, by simp, by simp [bucketsRemove, hd], by simp⟩
    · simp only [bucketsGet, hd, if_false] at hg
      obtain ⟨pre, post, hc, hr, hpre⟩ := ih hg
      refine ⟨d :: pre, post, by simp [hc], ?_, ?_⟩
      · simp only [bucketsRemove, hd, if_false, hr, List.cons_append]
      · intro e he
        rcases List.mem_cons.mp he with rfl | he'
        · exact hd
        · exact hpre e he'

/-! ### Lemmas: remaining-quantity sums and invariant congruence -/

theorem sumRemaining_nil (h : Heap) : sumRemaining h [] = 0 := rfl

theorem sumRemaining_cons (h : Heap) (oid : String) (oids : List String) :
    sumRemaining h (oid :: oids) =
      (getOrder h oid).remainingQuantity + sumRemaining h oids := by
  simp [sumRemaining]

theorem sumRemaining_append (h : Heap) (a b : List String) :
    sumRemaining h (a ++ b) = sumRemaining h a + sumRemaining h b := by
  simp [sumRemaining]

theorem sumRemaining_congr {h h' : Heap} {oids : List String}
    (hc : ∀ oid ∈ oids, getOrder h' oid = getOrder h oid) :
    sumRemaining h' oids = sumRemaining h oids := by
  unfold sumRemaining
  congr 1
  exact List.map_congr_left (fun oid hm => by rw [hc oid hm])

theorem sumRemaining_set_not_mem {h : Heap} {oids : List String} {k : String}
    (v : Order) (hk : k ∉ oids) :
    sumRemaining (heapSet h k v) oids = sumRemaining h oids :=
  sumRemaining_congr (fun _ hm => getOrder_set_ne h v (fun he => hk (he ▸ hm)))

theorem sumRemaining_set_mem {h : Heap} {oids : List String} {k : String}
    (v : Order) (hnd : oids.Nodup) (hk : k ∈ oids) :
    sumRemaining (heapSet h k v) oids =
      sumRemaining h oids + v.remainingQuantity - (getOrder h k).remainingQuantity := by
  induction oids with
  | nil => simp at hk
  | cons o rest ih =>
    rw [List.nodup_cons] at hnd
    rcases List.mem_cons.mp hk with rfl | hk'
    · rw [sumRemaining_cons, sumRemaining_cons, getOrder_set_self,
        sumRemaining_set_not_mem v hnd.1]
      ring
    · have ho : o ≠ k := by rintro rfl; exact hnd.1 hk'
      rw [sumRemaining_cons, sumRemaining_cons, getOrder_set_ne h v ho, ih hnd.2 hk']
      ring

theorem sumRemaining_erase {h : Heap} {oids : List String} {k : String}
    (hnd : oids.Nodup) (hk : k ∈ oids) :
    sumRemaining h (oids.erase k) =
      sumRemaining h oids - (getOrder h k).remainingQuantity := by
  induction oids with
  | nil => simp at hk
  | cons o rest ih =>
    rw [List.nodup_cons] at hnd
    rcases List.mem_cons.mp hk with rfl | hk'
    · simp [List.erase_cons_head, sumRemaining_cons]
    · have ho : o ≠ k := by rintro rfl; exact hnd.1 hk'
      rw [List.erase_cons_tail (by simpa using ho), sumRemaining_cons,
        sumRemaining_cons, ih hnd.2 hk']
      ring

theorem OrderRestingS_congr {h h' : Heap} {s : Bool} {isBuy : Bool} {p : Int}
    {oid : String} (hc : heapGet h' oid = heapGet h oid) :
    OrderRestingS s h' isBuy p oid ↔ OrderRestingS s h isBuy p oid := by
  unfold OrderRestingS getOrder
  rw [hc]

theorem OrderRestingS_weaken {s : Bool} {h : Heap} {isBuy : Bool} {p : Int}
    {oid : String} (ho : OrderRestingS true h isBuy p oid) :
    OrderRestingS s h isBuy p oid := by
  cases s
  · obtain ⟨h1, h2, h3, h4, h5, h6, h7⟩ := ho
    rw [if_pos rfl] at h7
    exact ⟨h1, h2, h3, h4, h5, h6, by
      rw [if_neg (by simp)]
      exact ⟨le_of_lt h7.1, h7.2.imp id Or.inl⟩⟩
  · exact ho

theorem LevelWFx_congr {h h' : Heap} {isBuy : Bool} {x : Option String}
    {L : PriceLevel} (hc : ∀ oid ∈ L.orders, heapGet h' oid = heapGet h oid)
    (hw : LevelWFx h isBuy x L) : LevelWFx h' isBuy x L := by
  obtain ⟨h1, h2, h3, h4⟩ := hw
  refine ⟨h1, h2, ?_, ?_⟩
  · have he : sumRemaining h' L.orders = sumRemaining h L.orders :=
      sumRemaining_congr (fun oid hm => by unfold getOrder; rw [hc oid hm])
    rw [he]
    exact h3
  · intro oid hm
    exact (OrderRestingS_congr (hc oid hm)).mpr (h4 oid hm)

theorem LevelWFx_weaken {h : Heap} {isBuy : Bool} {x : Option String} {L : PriceLevel}
    (hw : LevelWFx h isBuy none L) : LevelWFx h isBuy x L := by
  obtain ⟨h1, h2, h3, h4⟩ := hw
  refine ⟨h1, h2, h3, fun oid hm => ?_⟩
  have hstrict : OrderRestingS true h isBuy L.price oid := by
    simpa using h4 oid hm
  exact OrderRestingS_weaken hstrict

theorem BucketWF_congr {h h' : Heap} {isBuy : Bool} {x : Option String} {b : Bucket}
    (hc : ∀ oid ∈ b.chain.flatMap PriceLevel.orders, heapGet h' oid = heapGet h oid)
    (hw : BucketWF h isBuy x b) : BucketWF h' isBuy x b := by
  obtain ⟨h1, h2, h3, h4, h5, h6, h7, h8, h9, h10⟩ := hw
  refine ⟨h1, h2, h3, h4, h5, h6, fun L hL => ?_, h8, h9, h10⟩
  obtain ⟨g1, g2, g3⟩ := h7 L hL
  refine ⟨g1, g2, LevelWFx_congr (fun oid hm => ?_) g3⟩
  exact hc oid (List.mem_flatMap.mpr ⟨L, hL, hm⟩)

theorem TreeWF_congr {h h' : Heap} {isBuy : Bool} {x : Option String}
    {t : ShardedPriceTree}
    (hc : ∀ oid ∈ treeIds t, heapGet h' oid = heapGet h oid)
    (hw : TreeWF h isBuy x t) : TreeWF h' isBuy x t := by
  obtain ⟨h1, h2, h3, h4, h5, h6⟩ := hw
  refine ⟨h1, h2, h3, fun b hb => ?_, h5, h6⟩
  refine BucketWF_congr (fun oid hm => ?_) (h4 b hb)
  exact hc oid (List.mem_flatMap.mpr ⟨b, hb, hm⟩)

theorem TreeWF_weaken {h : Heap} {isBuy : Bool} {x : Option String}
    {t : ShardedPriceTree} (hw : TreeWF h isBuy none t) : TreeWF h isBuy x t := by
  obtain ⟨h1, h2, h3, h4, h5, h6⟩ := hw
  refine ⟨h1, h2, h3, fun b hb => ?_, h5, h6⟩
  obtain ⟨g1, g2, g3, g4, g5, g6, g7, g8, g9, g10⟩ := h4 b hb
  exact ⟨g1, g2, g3, g4, g5, g6, fun L hL =>
    ⟨(g7 L hL).1, (g7 L hL).2.1, LevelWFx_weaken (g7 L hL).2.2⟩, g8, g9, g10⟩

theorem InvX_weaken {es : EngineState} {x : Option String} (hw : Inv es) : InvX es x := by
  obtain ⟨h1, h2, h3, h4, h5, h6, h7⟩ := hw
  exact ⟨h1, TreeWF_weaken h2, TreeWF_weaken h3, h4, h5, h6, h7⟩

/-! ### Lemmas: bucket index arithmetic -/

theorem int64And_nonneg_127 (a : Int) (_ha : 0 ≤ a) : int64And a 127 = a % 128 := by
  have h1 : toU64 a = (a % 2 ^ 64).toNat := by unfold toU64; congr 1; omega
  have h2 : toU64 127 = 127 := by unfold toU64; norm_num; rfl
  unfold int64And
  rw [h1, h2]
  have h3 : Nat.land (a % 2 ^ 64).toNat 127 = (a % 2 ^ 64).toNat % 128 := by
    have h := Nat.and_pow_two_sub_one_eq_mod ((a % 2 ^ 64).toNat) 7
    norm_num at h
    exact h
  rw [h3]
  unfold ofU64
  have h4 : (a % 2 ^ 64).toNat % 128 < 2 ^ 63 :=
    lt_of_lt_of_le (Nat.mod_lt _ (by norm_num)) (by norm_num)
  rw [if_pos h4]
  push_cast
  rw [Int.toNat_of_nonneg (Int.emod_nonneg a (by norm_num))]
  omega

theorem price_inj {a b : Int} (ha : 0 ≤ a) (hb : 0 ≤ b)
    (hdiv : Int.tdiv a 128 = Int.tdiv b 128)
    (hand : int64And a 127 = int64And b 127) : a = b := by
  rw [int64And_nonneg_127 a ha, int64And_nonneg_127 b hb] at hand
  rw [Int.tdiv_eq_ediv ha (by norm_num), Int.tdiv_eq_ediv hb (by norm_num)] at hdiv
  omega

theorem better_of_bucket {isBuy : Bool} {a b : Int} (ha : 0 ≤ a) (hb : 0 ≤ b)
    (h : Better isBuy (Int.tdiv a 128) (Int.tdiv b 128)) : Better isBuy a b := by
  rw [Int.tdiv_eq_ediv ha (by norm_num), Int.tdiv_eq_ediv hb (by norm_num)] at h
  unfold Better at *
  rcases isBuy <;> simp only [if_true, if_false, Bool.false_eq_true] at * <;> omega

/-! ### Lemmas: pairwise transfer along equal price lists -/

theorem pairwise_of_map_price_eq {isBuy : Bool} {c1 c2 : List PriceLevel}
    (he : c2.map PriceLevel.price = c1.map PriceLevel.price)
    (hp : c1.Pairwise (fun a b => Better isBuy a.price b.price)) :
    c2.Pairwise (fun a b => Better isBuy a.price b.price) := by
  have h1 : (c1.map PriceLevel.price).Pairwise (Better isBuy) :=
    (List.pairwise_map).mpr hp
  rw [← he] at h1
  exact (List.pairwise_map).mp h1

/-! ### Lemmas: bucket-level effect of Adapter.Insert -/

theorem chain_prices_nodup {isBuy : Bool} {c : List PriceLevel}
    (hp : c.Pairwise (fun a b => Better isBuy a.price b.price)) :
    (c.map PriceLevel.price).Nodup :=
  List.Pairwise.imp (fun hab => Better.ne hab) ((List.pairwise_map).mpr hp)

theorem bucket_ids_nodup {isBuy : Bool} {bs : List Bucket}
    (hp : bs.Pairwise (fun a b => Better isBuy a.bucketID b.bucketID)) :
    (bs.map Bucket.bucketID).Nodup :=
  List.Pairwise.imp (fun hab => Better.ne hab) ((List.pairwise_map).mpr hp)

theorem decide_none_ne (z : String) :
    decide ((none : Option String) ≠ some z) = true := by simp

theorem perm_insert_middle (A B C : List String) (oid : String) :
    (A ++ ((B ++ [oid]) ++ C)).Perm (oid :: (A ++ (B ++ C))) := by
  have step1 : A ++ ((B ++ [oid]) ++ C) = (A ++ B) ++ (oid :: C) := by
    simp [List.append_assoc]
  have step2 : oid :: (A ++ (B ++ C)) = oid :: ((A ++ B) ++ C) := by
    simp [List.append_assoc]
  rw [step1, step2]
  exact List.perm_middle

/-- Appending an order to an existing level of a bucket (the levelExists
branch of Adapter.Insert) keeps the bucket well formed; the slot array, the
price list, the size and the head price are unchanged, and the bucket's id
set gains exactly oid. -/
theorem bucket_append_spec {h : Heap} {isBuy : Bool} {b : Bucket} {o : Order}
    {oid : String} {p : Int} (b2 : Bucket) (h' : Heap)
    (hb : BucketWF h isBuy none b)
    (hg : heapGet h oid = some o)
    (hfresh : oid ∉ b.chain.flatMap PriceLevel.orders)
    (hsg : slotsGet b.slots (int64And o.price 127) = some p)
    (hpos : 0 < o.price)
    (hdiv : Int.tdiv o.price 128 = b.bucketID)
    (hside : o.side = (if isBuy then Side.Buy else Side.Sell))
    (hlim : o.otype = OrderType.Limit)
    (hf0 : 0 ≤ o.filled) (hf1 : o.filled < o.quantity)
    (hstatus : o.status = OrderStatus.Pending ∨ o.status = OrderStatus.PartialFilled)
    (hb2 : b2 = { b with chain := chainModify p (fun L => { L with orders := L.orders ++ [oid], volume := L.volume + o.remainingQuantity }) b.chain })
    (hh' : h' = heapSet h oid { o with listElement := true }) :
    p = o.price ∧
    BucketWF h' isBuy none b2 ∧
    b2.chain.map PriceLevel.price = b.chain.map PriceLevel.price ∧
    (b2.chain.head?).map PriceLevel.price = (b.chain.head?).map PriceLevel.price ∧
    (b2.chain.flatMap PriceLevel.orders).Perm
      (oid :: b.chain.flatMap PriceLevel.orders) ∧
    (∃ L2, chainFind o.price b2.chain = some L2 ∧ oid ∈ L2.orders) := by
  obtain ⟨w1, w2, w3, w4, w5, w6, w7, w8, w9, w10⟩ := hb
  have hmem : (int64And o.price 127, p) ∈ b.slots := slotsGet_some_mem hsg
  obtain ⟨hip, hpc⟩ := w8 _ hmem
  have hip2 : int64And o.price 127 = int64And p 127 := hip
  have hpc2 : p ∈ b.chain.map PriceLevel.price := hpc
  obtain ⟨L, hL, hLp⟩ := List.mem_map.mp hpc2
  obtain ⟨hp0, hpdiv, hLwf⟩ := w7 L hL
  have hpeq : p = o.price := by
    refine price_inj (le_of_lt (hLp ▸ hp0)) (le_of_lt hpos) ?_ ?_
    · rw [← hLp, hpdiv, hdiv]
    · exact hip2.symm
  subst hpeq
  subst hh'
  subst hb2
  have hnd : (b.chain.map PriceLevel.price).Nodup := chain_prices_nodup w6
  have hfindL : chainFind o.price b.chain = some L := by
    rw [← hLp]; exact chainFind_mem hnd hL
  obtain ⟨pre, post, hcsplit, hmsplit, hprene⟩ :=
    chainModify_split (fun M => { M with orders := M.orders ++ [oid], volume := M.volume + o.remainingQuantity }) hfindL
  set fL : PriceLevel := { L with orders := L.orders ++ [oid], volume := L.volume + o.remainingQuantity } with hfL
  have hchain2 : chainModify o.price (fun M => { M with orders := M.orders ++ [oid], volume := M.volume + o.remainingQuantity }) b.chain = pre ++ fL :: post := hmsplit
  have hmapeq : (pre ++ fL :: post).map PriceLevel.price =
      b.chain.map PriceLevel.price := by
    rw [hcsplit]; simp [hfL]
  have hcongr : ∀ z ∈ b.chain.flatMap PriceLevel.orders,
      heapGet (heapSet h oid { o with listElement := true }) z = heapGet h z :=
    fun z hz => heapGet_set_ne h _ (fun he => hfresh (he ▸ hz))
  have hLfifo : oid ∉ L.orders := fun hz => hfresh (List.mem_flatMap.mpr ⟨L, hL, hz⟩)
  obtain ⟨v1, v2, v3, v4⟩ := hLwf
  have hchainmem : ∀ M ∈ pre ++ fL :: post, M = fL ∨ M ∈ b.chain := by
    intro M hM
    rcases List.mem_append.mp hM with hM' | hM'
    · exact Or.inr (by rw [hcsplit]; exact List.mem_append_left _ hM')
    · rcases List.mem_cons.mp hM' with rfl | hM''
      · exact Or.inl rfl
      · refine Or.inr (by rw [hcsplit]; exact List.mem_append_right _ (List.mem_cons_of_mem _ hM''))
  refine ⟨rfl, ?_, ?_, ?_, ?_, ?_⟩
  · -- BucketWF of the modified bucket
    refine ⟨w1, w2, w3, ?_, ?_, ?_, ?_, ?_, ?_, w10⟩
    · show b.size = _
      rw [w4, hchain2, hcsplit]
      simp
    · show chainModify _ _ _ ≠ []
      rw [hchain2]
      simp
    · show List.Pairwise _ (chainModify _ _ _)
      rw [hchain2]
      exact pairwise_of_map_price_eq hmapeq w6
    · -- per-level facts
      show ∀ M ∈ chainModify _ _ _, _
      rw [hchain2]
      intro M hM
      rcases hchainmem M hM with rfl | hMold
      · refine ⟨by rw [hfL]; exact hLp ▸ hp0, ?_, ?_⟩
        · show fL.price.tdiv 128 = b.bucketID
          rw [hfL]
          exact hpdiv
        · refine ⟨by simp [hfL], ?_, ?_, ?_⟩
          · show (L.orders ++ [oid]).Nodup
            exact List.Nodup.append v2 (by simp)
              (by intro z hz1 hz2; simp at hz2; subst hz2; exact hLfifo hz1)
          · show sumRemaining _ (L.orders ++ [oid]) ≤ L.volume + o.remainingQuantity
            rw [sumRemaining_append]
            have he1 : sumRemaining (heapSet h oid { o with listElement := true })
                L.orders = sumRemaining h L.orders :=
              sumRemaining_congr (fun z hz => by
                unfold getOrder
                rw [hcongr z (List.mem_flatMap.mpr ⟨L, hL, hz⟩)])
            rw [he1, sumRemaining_cons, sumRemaining_nil, getOrder_set_self]
            have he2 : ({ o with listElement := true } : Order).remainingQuantity =
                o.remainingQuantity := rfl
            rw [he2]
            omega
          · intro z hz
            rw [decide_none_ne]
            have hz' : z ∈ L.orders ++ [oid] := hz
            rcases List.mem_append.mp hz' with hz1 | hz1
            · have hv := v4 z hz1
              rw [decide_none_ne] at hv
              show OrderRestingS true _ isBuy fL.price z
              have hfp : fL.price = L.price := rfl
              rw [hfp]
              exact (OrderRestingS_congr
                (hcongr z (List.mem_flatMap.mpr ⟨L, hL, hz1⟩))).mpr hv
            · rw [List.mem_singleton] at hz1
              rw [hz1]
              show OrderRestingS true _ isBuy fL.price oid
              have hget : getOrder (heapSet h oid { o with listElement := true }) oid =
                  { o with listElement := true } := getOrder_set_self h oid _
              unfold OrderRestingS
              rw [if_pos rfl, hget]
              exact ⟨by rw [heapGet_set_self]; rfl, hLp.symm, hside, hlim, rfl, hf0,
                hf1, hstatus⟩
      · obtain ⟨u1, u2, u3⟩ := w7 M hMold
        exact ⟨u1, u2, LevelWFx_congr (fun z hz =>
          hcongr z (List.mem_flatMap.mpr ⟨M, hMold, hz⟩)) u3⟩
    · -- slots entries still point into the chain
      intro ip hip'
      obtain ⟨y1, y2⟩ := w8 ip hip'
      refine ⟨y1, ?_⟩
      show ip.2 ∈ (chainModify _ _ _).map PriceLevel.price
      rw [hchain2, hmapeq]
      exact y2
    · -- chain levels still have their slot entries
      show ∀ M ∈ chainModify _ _ _, _
      rw [hchain2]
      intro M hM
      have hMp : M.price ∈ (pre ++ fL :: post).map PriceLevel.price :=
        List.mem_map.mpr ⟨M, hM, rfl⟩
      rw [hmapeq] at hMp
      obtain ⟨N, hN, hNp⟩ := List.mem_map.mp hMp
      have := w9 N hN
      rw [hNp] at this
      exact this
  · show (chainModify _ _ _).map PriceLevel.price = _
    rw [hchain2, hmapeq]
  · -- head price unchanged
    show ((chainModify _ _ _).head?).map PriceLevel.price = _
    rw [hchain2, hcsplit]
    cases pre <;> simp [hfL]
  · -- the id multiset gains exactly oid
    show ((chainModify _ _ _).flatMap PriceLevel.orders).Perm _
    rw [hchain2, hcsplit]
    simp only [List.flatMap_append, List.flatMap_cons]
    exact perm_insert_middle _ _ _ _
  · -- looking up the level finds oid
    have hnd2 : ((pre ++ fL :: post).map PriceLevel.price).Nodup := by
      rw [hmapeq]; exact hnd
    have hfLmem : fL ∈ pre ++ fL :: post :=
      List.mem_append_right _ (List.mem_cons_self _ _)
    have hfind2 : chainFind fL.price (pre ++ fL :: post) = some fL :=
      chainFind_mem hnd2 hfLmem
    have hfLp : fL.price = o.price := hLp
    refine ⟨fL, ?_, ?_⟩
    · show chainFind o.price (chainModify _ _ _) = some fL
      rw [hchain2, ← hfLp]
      exact hfind2
    · show oid ∈ L.orders ++ [oid]
      exact List.mem_append_right _ (List.mem_singleton.mpr rfl)

/-- Creating a new level in a bucket (the slot-empty branch of
Adapter.Insert, Bucket.Insert followed by the FIFO append) keeps the bucket
well formed; the price set gains o.price, the id set gains oid. -/
theorem bucket_newlevel_spec {h : Heap} {isBuy : Bool} {b : Bucket} {o : Order}
    {oid : String} (b2 : Bucket) (h' : Heap)
    (hb : BucketWF h isBuy none b)
    (hg : heapGet h oid = some o)
    (hfresh : oid ∉ b.chain.flatMap PriceLevel.orders)
    (hsg : slotsGet b.slots (int64And o.price 127) = none)
    (hpos : 0 < o.price)
    (hdiv : Int.tdiv o.price 128 = b.bucketID)
    (hside : o.side = (if isBuy then Side.Buy else Side.Sell))
    (hlim : o.otype = OrderType.Limit)
    (hf0 : 0 ≤ o.filled) (hf1 : o.filled < o.quantity)
    (hstatus : o.status = OrderStatus.Pending ∨ o.status = OrderStatus.PartialFilled)
    (hb2 : b2 = { b with slots := slotsSet b.slots (int64And o.price 127) o.price, size := b.size + 1, chain := chainModify o.price (fun M => { M with orders := M.orders ++ [oid], volume := M.volume + o.remainingQuantity }) (chainInsert isBuy { price := o.price, orders := [], volume := 0 } b.chain) })
    (hh' : h' = heapSet h oid { o with listElement := true }) :
    BucketWF h' isBuy none b2 ∧
    (b2.chain.map PriceLevel.price).Perm (o.price :: b.chain.map PriceLevel.price) ∧
    (b2.chain.flatMap PriceLevel.orders).Perm
      (oid :: b.chain.flatMap PriceLevel.orders) ∧
    (∃ L2, chainFind o.price b2.chain = some L2 ∧ oid ∈ L2.orders) := by
  obtain ⟨w1, w2, w3, w4, w5, w6, w7, w8, w9, w10⟩ := hb
  subst hh'
  subst hb2
  have hnd : (b.chain.map PriceLevel.price).Nodup := chain_prices_nodup w6
  have hindfresh : int64And o.price 127 ∉ b.slots.map Prod.fst :=
    (slotsGet_none_iff _ _).mp hsg
  have hpfresh : o.price ∉ b.chain.map PriceLevel.price := by
    intro hmem
    obtain ⟨L, hL, hLp⟩ := List.mem_map.mp hmem
    have := w9 L hL
    rw [hLp] at this
    exact hindfresh (List.mem_map.mpr ⟨_, this, rfl⟩)
  set L0 : PriceLevel := { price := o.price, orders := [], volume := 0 } with hL0
  have hc1pair : (chainInsert isBuy L0 b.chain).Pairwise
      (fun a b => Better isBuy a.price b.price) := chainInsert_pairwise w6 hpfresh
  have hc1perm : ((chainInsert isBuy L0 b.chain).map PriceLevel.price).Perm
      (o.price :: b.chain.map PriceLevel.price) :=
    chainInsert_map_price_perm isBuy L0 b.chain
  have hc1nd : ((chainInsert isBuy L0 b.chain).map PriceLevel.price).Nodup :=
    hc1perm.nodup_iff.mpr (List.nodup_cons.mpr ⟨hpfresh, hnd⟩)
  have hL0mem : L0 ∈ chainInsert isBuy L0 b.chain :=
    (chainInsert_perm isBuy L0 b.chain).mem_iff.mpr (List.mem_cons_self _ _)
  have hfind0 : chainFind o.price (chainInsert isBuy L0 b.chain) = some L0 :=
    chainFind_mem hc1nd hL0mem
  obtain ⟨pre, post, hcsplit, hmsplit, hprene⟩ :=
    chainModify_split (fun M => { M with orders := M.orders ++ [oid], volume := M.volume + o.remainingQuantity }) hfind0
  set fL : PriceLevel := { price := o.price, orders := [oid], volume := 0 + o.remainingQuantity } with hfL
  have hfLeq : ({ L0 with orders := L0.orders ++ [oid], volume := L0.volume + o.remainingQuantity } : PriceLevel) = fL := rfl
  rw [hfLeq] at hmsplit
  have hmapeq : (pre ++ fL :: post).map PriceLevel.price =
      (chainInsert isBuy L0 b.chain).map PriceLevel.price := by
    rw [hcsplit]
    simp [hfL, hL0]
  have hlen1 : (pre ++ fL :: post).length = b.chain.length + 1 := by
    have h1 : (pre ++ L0 :: post).length = b.chain.length + 1 := by
      rw [← hcsplit]
      exact (chainInsert_perm isBuy L0 b.chain).length_eq.trans (by simp)
    simpa using h1
  have hcongr : ∀ z ∈ b.chain.flatMap PriceLevel.orders,
      heapGet (heapSet h oid { o with listElement := true }) z = heapGet h z :=
    fun z hz => heapGet_set_ne h _ (fun he => hfresh (he ▸ hz))
  have hchainmem : ∀ M ∈ pre ++ fL :: post, M = fL ∨ M ∈ b.chain := by
    intro M hM
    rcases List.mem_append.mp hM with hM' | hM'
    · have hMc : M ∈ chainInsert isBuy L0 b.chain := by
        rw [hcsplit]; exact List.mem_append_left _ hM'
      rcases List.mem_cons.mp ((chainInsert_perm isBuy L0 b.chain).mem_iff.mp hMc) with
        rfl | hh
      · exact absurd rfl (hprene L0 hM')
      · exact Or.inr hh
    · rcases List.mem_cons.mp hM' with rfl | hM''
      · exact Or.inl rfl
      · have hMc : M ∈ chainInsert isBuy L0 b.chain := by
          rw [hcsplit]
          exact List.mem_append_right _ (List.mem_cons_of_mem _ hM'')
        rcases List.mem_cons.mp ((chainInsert_perm isBuy L0 b.chain).mem_iff.mp hMc) with
          rfl | hh
        · exfalso
          have hndpre : ((pre ++ L0 :: post).map PriceLevel.price).Nodup := by
            rw [← hcsplit]; exact hc1nd
          simp only [List.map_append, List.map_cons] at hndpre
          have hnd3 := (List.nodup_append.mp hndpre).2.1
          rw [List.nodup_cons] at hnd3
          exact hnd3.1 (List.mem_map.mpr ⟨L0, hM'', rfl⟩)
        · exact Or.inr hh
  refine ⟨?_, ?_, ?_, ?_⟩
  · -- BucketWF
    refine ⟨w1, w2, w3, ?_, ?_, ?_, ?_, ?_, ?_, ?_⟩
    · show b.size + 1 = _
      rw [w4, hmsplit]
      rw [hlen1]
      push_cast
      ring
    · show chainModify _ _ _ ≠ []
      rw [hmsplit]
      simp
    · show List.Pairwise _ (chainModify _ _ _)
      rw [hmsplit]
      exact pairwise_of_map_price_eq hmapeq hc1pair
    · show ∀ M ∈ chainModify _ _ _, _
      rw [hmsplit]
      intro M hM
      rcases hchainmem M hM with rfl | hMold
      · refine ⟨hpos, by rw [hfL]; exact hdiv, ?_⟩
        refine ⟨by simp [hfL], by simp [hfL], ?_, ?_⟩
        · show sumRemaining _ [oid] ≤ 0 + o.remainingQuantity
          rw [show ([oid] : List String) = oid :: [] from rfl, sumRemaining_cons,
            sumRemaining_nil, getOrder_set_self]
          have he2 : ({ o with listElement := true } : Order).remainingQuantity =
              o.remainingQuantity := rfl
          rw [he2]
          omega
        · intro z hz
          rw [decide_none_ne]
          have hz1 : z = oid := by
            have hz2 : z ∈ [oid] := hz
            simpa using hz2
          rw [hz1]
          show OrderRestingS true _ isBuy fL.price oid
          have hget : getOrder (heapSet h oid { o with listElement := true }) oid =
              { o with listElement := true } := getOrder_set_self h oid _
          unfold OrderRestingS
          rw [if_pos rfl, hget]
          exact ⟨by rw [heapGet_set_self]; rfl, rfl, hside, hlim, rfl, hf0,
            hf1, hstatus⟩
      · obtain ⟨u1, u2, u3⟩ := w7 M hMold
        exact ⟨u1, u2, LevelWFx_congr (fun z hz =>
          hcongr z (List.mem_flatMap.mpr ⟨M, hMold, hz⟩)) u3⟩
    · -- slots entries point into the chain
      intro ip hip'
      rw [slotsSet_fresh b.slots _ _ hindfresh] at hip'
      rcases List.mem_append.mp hip' with hold | hnew
      · obtain ⟨y1, y2⟩ := w8 ip hold
        refine ⟨y1, ?_⟩
        show ip.2 ∈ (chainModify _ _ _).map PriceLevel.price
        rw [hmsplit, hmapeq]
        exact hc1perm.mem_iff.mpr (List.mem_cons_of_mem _ y2)
      · rw [List.mem_singleton] at hnew
        subst hnew
        refine ⟨rfl, ?_⟩
        show o.price ∈ (chainModify _ _ _).map PriceLevel.price
        rw [hmsplit, hmapeq]
        exact hc1perm.mem_iff.mpr (List.mem_cons_self _ _)
    · -- chain levels have slot entries
      show ∀ M ∈ chainModify _ _ _, _
      rw [hmsplit]
      intro M hM
      rw [slotsSet_fresh b.slots _ _ hindfresh]
      rcases hchainmem M hM with rfl | hMold
      · refine List.mem_append_right _ ?_
        rw [hfL]
        simp
      · exact List.mem_append_left _ (w9 M hMold)
    · -- slot keys nodup
      show ((slotsSet b.slots _ _).map Prod.fst).Nodup
      rw [slotsSet_fresh b.slots _ _ hindfresh]
      simp only [List.map_append, List.map_cons, List.map_nil]
      rw [List.nodup_append]
      refine ⟨w10, by simp, ?_⟩
      intro a ha hb'
      simp at hb'
      subst hb'
      exact hindfresh ha
  · show ((chainModify _ _ _).map PriceLevel.price).Perm _
    rw [hmsplit, hmapeq]
    exact hc1perm
  · show ((chainModify _ _ _).flatMap PriceLevel.orders).Perm _
    have p1 : ((pre ++ fL :: post).flatMap PriceLevel.orders).Perm
        (oid :: (pre ++ L0 :: post).flatMap PriceLevel.orders) := by
      simp only [List.flatMap_append, List.flatMap_cons]
      exact perm_insert_middle _ [] _ _
    have p2 : ((pre ++ L0 :: post).flatMap PriceLevel.orders).Perm
        (b.chain.flatMap PriceLevel.orders) := by
      rw [← hcsplit]
      refine ((chainInsert_perm isBuy L0 b.chain).flatMap_right PriceLevel.orders).trans ?_
      simp only [List.flatMap_cons]
      simp
    rw [hmsplit]
    exact p1.trans (List.Perm.cons oid p2)
  · have hnd2 : ((pre ++ fL :: post).map PriceLevel.price).Nodup := by
      rw [hmapeq]; exact hc1nd
    have hfLmem : fL ∈ pre ++ fL :: post :=
      List.mem_append_right _ (List.mem_cons_self _ _)
    have hfind2 : chainFind fL.price (pre ++ fL :: post) = some fL :=
      chainFind_mem hnd2 hfLmem
    refine ⟨fL, ?_, by rw [hfL]; simp⟩
    show chainFind o.price (chainModify _ _ _) = some fL
    rw [hmsplit]
    exact hfind2

theorem Better.asymm {isBuy : Bool} {a b : Int} (h : Better isBuy a b) :
    ¬ Better isBuy b a := fun h' => (h.trans h').irrefl

theorem pairwise_replace_same_id {isBuy : Bool} {pre post : List Bucket} {c b2 : Bucket}
    (hpw : (pre ++ c :: post).Pairwise (fun x y => Better isBuy x.bucketID y.bucketID))
    (hid : b2.bucketID = c.bucketID) :
    (pre ++ b2 :: post).Pairwise (fun x y => Better isBuy x.bucketID y.bucketID) := by
  rw [List.pairwise_append] at hpw ⊢
  obtain ⟨hp1, hp2, hp3⟩ := hpw
  rw [List.pairwise_cons] at hp2 ⊢
  refine ⟨hp1, ⟨?_, hp2.2⟩, ?_⟩
  · intro d hd
    rw [hid]
    exact hp2.1 d hd
  · intro a ha d hd
    rcases List.mem_cons.mp hd with rfl | hd'
    · rw [hid]
      exact hp3 a ha c (List.mem_cons_self _ _)
    · exact hp3 a ha d (List.mem_cons_of_mem _ hd')

theorem treeIds_mk (bs : List Bucket) (bb bp : Option Int) (ib : Bool) (bsz : Int) :
    treeIds { buckets := bs, bestBucket := bb, bestPrice := bp, isBuy := ib, bucketSize := bsz } = bs.flatMap (fun b => b.chain.flatMap PriceLevel.orders) :=
  rfl

theorem perm_flat_replace (A B C X : List String) (oid : String)
    (hX : X.Perm (oid :: B)) :
    (A ++ (X ++ C)).Perm (oid :: (A ++ (B ++ C))) := by
  have h1 : (A ++ (X ++ C)).Perm (A ++ ((oid :: B) ++ C)) :=
    List.Perm.append_left A (hX.append_right C)
  refine h1.trans ?_
  have h2 : A ++ ((oid :: B) ++ C) = A ++ (oid :: (B ++ C)) := by simp
  rw [h2]
  exact List.perm_middle

/-- Effect of Adapter.Insert on a well-formed ladder, for an order as the
engine inserts them (fresh id, positive price, matching side, strictly
open limit order): the ladder stays well formed, the heap mutation is the
ListElement write, the resting ids gain exactly oid, and the order is found
in the level at its price. -/
theorem head_price_of_map_eq {c1 c2 : List PriceLevel}
    (he : c2.map PriceLevel.price = c1.map PriceLevel.price) :
    (c2.head?).map PriceLevel.price = (c1.head?).map PriceLevel.price := by
  rw [← List.head?_map, ← List.head?_map, he]

theorem chainRemove_append (p : Int) (pre post : List PriceLevel) (M : PriceLevel)
    (hM : M.price = p) (hpre : ∀ N ∈ pre, (N : PriceLevel).price ≠ p) :
    chainRemove p (pre ++ M :: post) = pre ++ post := by
  induction pre with
  | nil => simp [chainRemove, hM]
  | cons N rest ih =>
    have hN : N.price ≠ p := hpre N (List.mem_cons_self _ _)
    simp only [List.cons_append, chainRemove, hN, if_false]
    show N :: chainRemove p (rest ++ M :: post) = N :: (rest ++ post)
    rw [ih (fun Q hQ => hpre Q (List.mem_cons_of_mem _ hQ))]

theorem updateBest_spec {h : Heap} {isBuy : Bool} {t0 : ShardedPriceTree}
    (h1 : t0.isBuy = isBuy) (h2 : t0.bucketSize = 128)
    (h3 : t0.buckets.Pairwise (fun a b => Better isBuy a.bucketID b.bucketID))
    (h4 : ∀ b ∈ t0.buckets, BucketWF h isBuy none b) :
    TreeWF h isBuy none (updateBestPriceFromTree t0) := by
  unfold updateBestPriceFromTree
  cases hd : t0.buckets.head? with
  | none =>
    refine ⟨h1, h2, h3, h4, ?_, ?_⟩
    · show (none : Option Int) = _
      rw [show ({ t0 with bestBucket := none, bestPrice := none } : ShardedPriceTree).buckets = t0.buckets from rfl, hd]
      rfl
    · show (none : Option Int) = _
      rw [show ({ t0 with bestBucket := none, bestPrice := none } : ShardedPriceTree).buckets = t0.buckets from rfl, hd]
      rfl
  | some b =>
    refine ⟨h1, h2, h3, h4, ?_, ?_⟩
    · show some b.bucketID = _
      rw [show ({ t0 with bestBucket := some b.bucketID, bestPrice := (b.chain.head?).map (fun L => L.price) } : ShardedPriceTree).buckets = t0.buckets from rfl, hd]
      rfl
    · show (b.chain.head?).map (fun L => L.price) = _
      rw [show ({ t0 with bestBucket := some b.bucketID, bestPrice := (b.chain.head?).map (fun L => L.price) } : ShardedPriceTree).buckets = t0.buckets from rfl, hd]
      rfl

theorem bucket_shrink_spec {h : Heap} {isBuy : Bool} {x : Option String} {b : Bucket}
    {o : Order} {oid : String} {L : PriceLevel} (b2 : Bucket) (h' : Heap)
    (hb : BucketWF h isBuy x b)
    (hg : heapGet h oid = some o)
    (hfind : chainFind o.price b.chain = some L)
    (hoid : oid ∈ L.orders)
    (hx : x = none ∨ x = some oid)
    (hb2 : b2 = { b with chain := chainModify o.price (fun M => { M with orders := M.orders.erase oid, volume := M.volume - o.remainingQuantity }) b.chain })
    (hh' : h' = heapSet h oid { o with listElement := false }) :
    b2.chain.map PriceLevel.price = b.chain.map PriceLevel.price ∧
    (b.chain.flatMap PriceLevel.orders).Perm
      (oid :: b2.chain.flatMap PriceLevel.orders) ∧
    (∃ L2, chainFind o.price b2.chain = some L2 ∧
      L2.orders = L.orders.erase oid ∧ L2.price = L.price) ∧
    (L.orders.erase oid ≠ [] → BucketWF h' isBuy none b2) := by
  obtain ⟨w1, w2, w3, w4, w5, w6, w7, w8, w9, w10⟩ := hb
  obtain ⟨hLmem, hLp⟩ := chainFind_some hfind
  obtain ⟨hp0, hpdiv, hLwf⟩ := w7 L hLmem
  obtain ⟨v1, v2, v3, v4⟩ := hLwf
  subst hh'
  subst hb2
  have hnd : (b.chain.map PriceLevel.price).Nodup := chain_prices_nodup w6
  obtain ⟨pre, post, hcsplit, hmsplit, hprene⟩ :=
    chainModify_split (fun M => { M with orders := M.orders.erase oid, volume := M.volume - o.remainingQuantity }) hfind
  set fL : PriceLevel := { L with orders := L.orders.erase oid, volume := L.volume - o.remainingQuantity } with hfL
  have hchain2 : chainModify o.price (fun M => { M with orders := M.orders.erase oid, volume := M.volume - o.remainingQuantity }) b.chain = pre ++ fL :: post := hmsplit
  have hmapeq : (pre ++ fL :: post).map PriceLevel.price =
      b.chain.map PriceLevel.price := by
    rw [hcsplit]; simp [hfL]
  have hgo : getOrder h oid = o := by unfold getOrder; rw [hg]; rfl
  have honlyL : ∀ M ∈ b.chain, oid ∈ M.orders → M = L := by
    intro M hM hoM
    obtain ⟨u1, u2, u3⟩ := w7 M hM
    obtain ⟨z1, z2, z3, z4⟩ := u3
    have hA := (z4 oid hoM).2.1
    have hB := (v4 oid hoid).2.1
    have hMp : M.price = L.price := by rw [← hA, hB]
    have hc1 : chainFind M.price b.chain = some M := chainFind_mem hnd hM
    have hc2 : chainFind L.price b.chain = some L := chainFind_mem hnd hLmem
    rw [hMp, hc2] at hc1
    exact (Option.some_injective _ hc1).symm
  have hcongr : ∀ z, z ≠ oid →
      heapGet (heapSet h oid { o with listElement := false }) z = heapGet h z :=
    fun z hz => heapGet_set_ne h _ hz
  have hdec : ∀ z, z ≠ oid → decide (x ≠ some z) = true := by
    intro z hz
    rcases hx with rfl | rfl
    · exact decide_none_ne z
    · rw [decide_eq_true_iff]
      intro he
      exact hz (Option.some_injective _ he).symm
  have hfifo_sub : ∀ z ∈ L.orders.erase oid, z ∈ L.orders ∧ z ≠ oid := by
    intro z hz
    have hz' := (List.Nodup.mem_erase_iff v2).mp hz
    exact ⟨hz'.2, hz'.1⟩
  have hchain_nodup : b.chain.Nodup := List.Nodup.of_map _ hnd
  have hLnm : L ∉ pre ++ post := by
    rw [hcsplit] at hchain_nodup
    have hmid := (List.nodup_middle).mp hchain_nodup
    exact (List.nodup_cons.mp hmid).1
  have hnotin : ∀ M, M ∈ pre ++ post → oid ∉ M.orders := by
    intro M hM hoM
    have hMchain : M ∈ b.chain := by
      rw [hcsplit]
      rcases List.mem_append.mp hM with h' | h'
      · exact List.mem_append_left _ h'
      · exact List.mem_append_right _ (List.mem_cons_of_mem _ h')
    have hML := honlyL M hMchain hoM
    subst hML
    exact hLnm hM
  have hold : ∀ M, M ∈ pre ++ post → 0 < M.price ∧ Int.tdiv M.price 128 = b.bucketID ∧
      LevelWFx (heapSet h oid { o with listElement := false }) isBuy none M := by
    intro M hM2
    have hMchain : M ∈ b.chain := by
      rw [hcsplit]
      rcases List.mem_append.mp hM2 with h' | h'
      · exact List.mem_append_left _ h'
      · exact List.mem_append_right _ (List.mem_cons_of_mem _ h')
    obtain ⟨u1, u2, u3⟩ := w7 M hMchain
    obtain ⟨z1, z2, z3, z4⟩ := u3
    have hcon : ∀ z ∈ M.orders,
        heapGet (heapSet h oid { o with listElement := false }) z = heapGet h z := by
      intro z hz
      refine hcongr z ?_
      intro he
      subst he
      exact hnotin M hM2 hz
    refine ⟨u1, u2, z1, z2, ?_, ?_⟩
    · have he : sumRemaining (heapSet h oid { o with listElement := false }) M.orders
          = sumRemaining h M.orders :=
        sumRemaining_congr (fun z hz => by unfold getOrder; rw [hcon z hz])
      rw [he]
      exact z3
    · intro z hz
      rw [decide_none_ne]
      have hzo : z ≠ oid := fun he => hnotin M hM2 (he ▸ hz)
      have hv := z4 z hz
      rw [hdec z hzo] at hv
      exact (OrderRestingS_congr (hcon z hz)).mpr hv
  refine ⟨?_, ?_, ?_, ?_⟩
  · show (chainModify _ _ _).map PriceLevel.price = _
    rw [hchain2]
    exact hmapeq
  · show (b.chain.flatMap PriceLevel.orders).Perm
      (oid :: (chainModify _ _ _).flatMap PriceLevel.orders)
    rw [hchain2, hcsplit]
    simp only [List.flatMap_append, List.flatMap_cons]
    exact perm_flat_replace _ _ _ _ _ (List.perm_cons_erase hoid)
  · refine ⟨fL, ?_, rfl, rfl⟩
    show chainFind o.price (chainModify _ _ _) = some fL
    rw [hchain2]
    have hnd2 : ((pre ++ fL :: post).map PriceLevel.price).Nodup := by
      rw [hmapeq]; exact hnd
    have hcf : chainFind fL.price (pre ++ fL :: post) = some fL :=
      chainFind_mem hnd2 (List.mem_append_right _ (List.mem_cons_self _ _))
    have hfp : fL.price = o.price := hLp
    rw [hfp] at hcf
    exact hcf
  · intro hne
    refine ⟨w1, w2, w3, ?_, ?_, ?_, ?_, ?_, ?_, w10⟩
    · show b.size = ((chainModify _ _ _).length : Int)
      rw [hchain2, w4, hcsplit]
      simp
    · show chainModify _ _ _ ≠ []
      rw [hchain2]
      simp
    · show List.Pairwise _ (chainModify _ _ _)
      rw [hchain2]
      exact pairwise_of_map_price_eq hmapeq w6
    · show ∀ M ∈ chainModify _ _ _, _
      rw [hchain2]
      intro M hM
      rcases List.mem_append.mp hM with hM' | hM'
      · exact hold M (List.mem_append_left _ hM')
      · rcases List.mem_cons.mp hM' with rfl | hM''
        · refine ⟨hp0, hpdiv, ?_⟩
          refine ⟨hne, List.Nodup.erase _ v2, ?_, ?_⟩
          · show sumRemaining _ (L.orders.erase oid) ≤ L.volume - o.remainingQuantity
            have hcon2 : sumRemaining (heapSet h oid { o with listElement := false })
                (L.orders.erase oid) = sumRemaining h (L.orders.erase oid) :=
              sumRemaining_congr (fun z hz => by
                unfold getOrder
                rw [hcongr z (hfifo_sub z hz).2])
            rw [hcon2, sumRemaining_erase v2 hoid, hgo]
            exact Int.sub_le_sub_right v3 _
          · intro z hz
            rw [decide_none_ne]
            obtain ⟨hzL, hzo⟩ := hfifo_sub z hz
            have hv := v4 z hzL
            rw [hdec z hzo] at hv
            show OrderRestingS true _ isBuy fL.price z
            have hfp : fL.price = L.price := rfl
            rw [hfp]
            exact (OrderRestingS_congr (hcongr z hzo)).mpr hv
        · exact hold M (List.mem_append_right _ hM'')
    · intro ip hip'
      obtain ⟨y1, y2⟩ := w8 ip hip'
      refine ⟨y1, ?_⟩
      show ip.2 ∈ (chainModify _ _ _).map PriceLevel.price
      rw [hchain2, hmapeq]
      exact y2
    · show ∀ M ∈ chainModify _ _ _, _
      rw [hchain2]
      intro M hM
      have hMp : M.price ∈ (pre ++ fL :: post).map PriceLevel.price :=
        List.mem_map.mpr ⟨M, hM, rfl⟩
      rw [hmapeq] at hMp
      obtain ⟨N, hN, hNp⟩ := List.mem_map.mp hMp
      have hw9 := w9 N hN
      rw [hNp] at hw9
      exact hw9

theorem bucket_drop_spec {h : Heap} {isBuy : Bool} {x : Option String} {b : Bucket}
    {o : Order} {oid : String} {L : PriceLevel} (h' : Heap)
    (hb : BucketWF h isBuy x b)
    (hg : heapGet h oid = some o)
    (hfind : chainFind o.price b.chain = some L)
    (horders : L.orders = [oid])
    (hx : x = none ∨ x = some oid)
    (hh' : h' = heapSet h oid { o with listElement := false }) :
    ∃ pre post, b.chain = pre ++ L :: post ∧
      Bucket.remove { b with chain := chainModify o.price (fun M => { M with orders := M.orders.erase oid, volume := M.volume - o.remainingQuantity }) b.chain } o.price =
        { b with slots := slotsErase b.slots (int64And o.price 127), size := b.size - 1, chain := pre ++ post } ∧
      (∀ M ∈ pre, (M : PriceLevel).price ≠ o.price) ∧
      (b.chain.flatMap PriceLevel.orders).Perm
        (oid :: (pre ++ post).flatMap PriceLevel.orders) ∧
      (pre ++ post ≠ [] → BucketWF h' isBuy none
        { b with slots := slotsErase b.slots (int64And o.price 127), size := b.size - 1, chain := pre ++ post }) := by
  obtain ⟨w1, w2, w3, w4, w5, w6, w7, w8, w9, w10⟩ := hb
  obtain ⟨hLmem, hLp⟩ := chainFind_some hfind
  obtain ⟨hp0, hpdiv, hLwf⟩ := w7 L hLmem
  obtain ⟨v1, v2, v3, v4⟩ := hLwf
  subst hh'
  have hnd : (b.chain.map PriceLevel.price).Nodup := chain_prices_nodup w6
  obtain ⟨pre, post, hcsplit, hmsplit, hprene⟩ :=
    chainModify_split (fun M => { M with orders := M.orders.erase oid, volume := M.volume - o.remainingQuantity }) hfind
  set fL : PriceLevel := { L with orders := L.orders.erase oid, volume := L.volume - o.remainingQuantity } with hfL
  have hgo : getOrder h oid = o := by unfold getOrder; rw [hg]; rfl
  have honlyL : ∀ M ∈ b.chain, oid ∈ M.orders → M = L := by
    intro M hM hoM
    obtain ⟨u1, u2, u3⟩ := w7 M hM
    obtain ⟨z1, z2, z3, z4⟩ := u3
    have hA := (z4 oid hoM).2.1
    have hB := (v4 oid (by rw [horders]; exact List.mem_singleton_self _)).2.1
    have hMp : M.price = L.price := by rw [← hA, hB]
    have hc1 : chainFind M.price b.chain = some M := chainFind_mem hnd hM
    have hc2 : chainFind L.price b.chain = some L := chainFind_mem hnd hLmem
    rw [hMp, hc2] at hc1
    exact (Option.some_injective _ hc1).symm
  have hcongr : ∀ z, z ≠ oid →
      heapGet (heapSet h oid { o with listElement := false }) z = heapGet h z :=
    fun z hz => heapGet_set_ne h _ hz
  have hdec : ∀ z, z ≠ oid → decide (x ≠ some z) = true := by
    intro z hz
    rcases hx with rfl | rfl
    · exact decide_none_ne z
    · rw [decide_eq_true_iff]
      intro he
      exact hz (Option.some_injective _ he).symm
  have hchain_nodup : b.chain.Nodup := List.Nodup.of_map _ hnd
  have hLnm : L ∉ pre ++ post := by
    rw [hcsplit] at hchain_nodup
    have hmid := (List.nodup_middle).mp hchain_nodup
    exact (List.nodup_cons.mp hmid).1
  have hnotin : ∀ M, M ∈ pre ++ post → oid ∉ M.orders := by
    intro M hM hoM
    have hMchain : M ∈ b.chain := by
      rw [hcsplit]
      rcases List.mem_append.mp hM with h' | h'
      · exact List.mem_append_left _ h'
      · exact List.mem_append_right _ (List.mem_cons_of_mem _ h')
    have hML := honlyL M hMchain hoM
    subst hML
    exact hLnm hM
  have hLpnm : L.price ∉ (pre ++ post).map PriceLevel.price := by
    intro hmem
    obtain ⟨M, hM, hMp⟩ := List.mem_map.mp hmem
    have hMchain : M ∈ b.chain := by
      rw [hcsplit]
      rcases List.mem_append.mp hM with h' | h'
      · exact List.mem_append_left _ h'
      · exact List.mem_append_right _ (List.mem_cons_of_mem _ h')
    have hc1 : chainFind M.price b.chain = some M := chainFind_mem hnd hMchain
    have hc2 : chainFind L.price b.chain = some L := chainFind_mem hnd hLmem
    rw [hMp, hc2] at hc1
    have hML : M = L := Option.some_injective _ hc1.symm
    subst hML
    exact hLnm hM
  have hmem_chain : ∀ M, M ∈ pre ++ post → M ∈ b.chain := by
    intro M hM
    rw [hcsplit]
    rcases List.mem_append.mp hM with h' | h'
    · exact List.mem_append_left _ h'
    · exact List.mem_append_right _ (List.mem_cons_of_mem _ h')
  have hsg127 : slotsGet b.slots (int64And o.price 127) = some L.price := by
    rw [← hLp]
    exact slotsGet_mem_nodup w10 (w9 L hLmem)
  have hrem : chainRemove L.price (chainModify o.price (fun M => { M with orders := M.orders.erase oid, volume := M.volume - o.remainingQuantity }) b.chain) = pre ++ post := by
    rw [hmsplit]
    refine chainRemove_append L.price pre post fL rfl ?_
    intro N hN
    rw [hLp]
    exact hprene N hN
  refine ⟨pre, post, hcsplit, ?_, ?_, ?_, ?_⟩
  · unfold Bucket.remove
    simp only [w3, hsg127, hrem]
  · intro M hM
    rw [← hLp]
    intro he
    exact hLpnm (by rw [← he]; exact List.mem_map.mpr ⟨M, List.mem_append_left _ hM, rfl⟩)
  · rw [hcsplit]
    simp only [List.flatMap_append, List.flatMap_cons, horders]
    have hpm := perm_insert_middle (pre.flatMap PriceLevel.orders) []
      (post.flatMap PriceLevel.orders) oid
    simpa using hpm
  · intro hne
    refine ⟨w1, w2, w3, ?_, hne, ?_, ?_, ?_, ?_, ?_⟩
    · show b.size - 1 = _
      rw [w4, hcsplit]
      simp only [List.length_append, List.length_cons]
      push_cast
      ring
    · show List.Pairwise _ (pre ++ post)
      have hsub : (pre ++ post).Sublist (pre ++ L :: post) :=
        List.Sublist.append_left (List.sublist_cons_self _ _) _
      rw [hcsplit] at w6
      exact w6.sublist hsub
    · intro M hM
      obtain ⟨u1, u2, u3⟩ := w7 M (hmem_chain M hM)
      obtain ⟨z1, z2, z3, z4⟩ := u3
      have hcon : ∀ z ∈ M.orders,
          heapGet (heapSet h oid { o with listElement := false }) z = heapGet h z := by
        intro z hz
        refine hcongr z ?_
        intro he
        subst he
        exact hnotin M hM hz
      refine ⟨u1, u2, z1, z2, ?_, ?_⟩
      · have he : sumRemaining (heapSet h oid { o with listElement := false }) M.orders
            = sumRemaining h M.orders :=
          sumRemaining_congr (fun z hz => by unfold getOrder; rw [hcon z hz])
        rw [he]
        exact z3
      · intro z hz
        rw [decide_none_ne]
        have hzo : z ≠ oid := fun he => hnotin M hM (he ▸ hz)
        have hv := z4 z hz
        rw [hdec z hzo] at hv
        exact (OrderRestingS_congr (hcon z hz)).mpr hv
    · intro ip hip'
      have hip2 := (slotsErase_mem_nodup w10 ip).mp hip'
      obtain ⟨y1, y2⟩ := w8 ip hip2.1
      refine ⟨y1, ?_⟩
      have hipL : ip.2 ≠ L.price := by
        intro he
        refine hip2.2 ?_
        rw [y1, he, ← hLp]
      rw [hcsplit] at y2
      simp only [List.map_append, List.map_cons, List.mem_append, List.mem_cons] at y2
      show ip.2 ∈ (pre ++ post).map PriceLevel.price
      simp only [List.map_append, List.mem_append]
      rcases y2 with hy | hy
      · exact Or.inl hy
      · rcases hy with hy | hy
        · exact absurd hy hipL
        · exact Or.inr hy
    · intro M hM
      have hw9 := w9 M (hmem_chain M hM)
      refine (slotsErase_mem_nodup w10 _).mpr ⟨hw9, ?_⟩
      show int64And M.price 127 ≠ int64And o.price 127
      intro he
      obtain ⟨u1, u2, u3⟩ := w7 M (hmem_chain M hM)
      have hMeq : M.price = o.price := by
        refine price_inj (le_of_lt u1) (le_of_lt (hLp ▸ hp0)) ?_ he
        rw [u2, ← hpdiv, hLp]
      have hMpm : M.price ∈ (pre ++ post).map PriceLevel.price :=
        List.mem_map.mpr ⟨M, hM, rfl⟩
      rw [hMeq, ← hLp] at hMpm
      exact hLpnm hMpm
    · show ((slotsErase b.slots (int64And o.price 127)).map Prod.fst).Nodup
      exact w10.sublist ((slotsErase_sublist _ _).map _)

theorem bucketsRemove_append (id : Int) (pre post : List Bucket) (c : Bucket)
    (hc : c.bucketID = id) (hpre : ∀ d ∈ pre, (d : Bucket).bucketID ≠ id) :
    bucketsRemove id (pre ++ c :: post) = pre ++ post := by
  induction pre with
  | nil => simp [bucketsRemove, hc]
  | cons d rest ih =>
    have hd : d.bucketID ≠ id := hpre d (List.mem_cons_self _ _)
    simp only [List.cons_append, bucketsRemove, hd, if_false]
    show d :: bucketsRemove id (rest ++ c :: post) = d :: (rest ++ post)
    rw [ih (fun e he => hpre e (List.mem_cons_of_mem _ he))]

theorem bucketsSet_append (pre post : List Bucket) (c b : Bucket)
    (hc : c.bucketID = b.bucketID) (hpre : ∀ d ∈ pre, (d : Bucket).bucketID ≠ b.bucketID) :
    bucketsSet b (pre ++ c :: post) = pre ++ b :: post := by
  induction pre with
  | nil => simp [bucketsSet, hc]
  | cons d rest ih =>
    have hd : d.bucketID ≠ b.bucketID := hpre d (List.mem_cons_self _ _)
    simp only [List.cons_append, bucketsSet, hd, if_false]
    show d :: bucketsSet b (rest ++ c :: post) = d :: (rest ++ b :: post)
    rw [ih (fun e he => hpre e (List.mem_cons_of_mem _ he))]

theorem BucketWF_drop_x {h : Heap} {isBuy : Bool} {x : Option String} {b : Bucket}
    (hw : BucketWF h isBuy x b)
    (habs : ∀ z ∈ b.chain.flatMap PriceLevel.orders, x ≠ some z) :
    BucketWF h isBuy none b := by
  obtain ⟨h1, h2, h3, h4, h5, h6, h7, h8, h9, h10⟩ := hw
  refine ⟨h1, h2, h3, h4, h5, h6, fun L hL => ?_, h8, h9, h10⟩
  obtain ⟨g1, g2, g3⟩ := h7 L hL
  obtain ⟨z1, z2, z3, z4⟩ := g3
  refine ⟨g1, g2, z1, z2, z3, ?_⟩
  intro z hz
  rw [decide_none_ne]
  have hv := z4 z hz
  have hd : decide (x ≠ some z) = true := by
    rw [decide_eq_true_iff]
    exact habs z (List.mem_flatMap.mpr ⟨L, hL, hz⟩)
  rw [hd] at hv
  exact hv

theorem treeIds_updateBest (t0 : ShardedPriceTree) :
    treeIds (updateBestPriceFromTree t0) = treeIds t0 := by
  unfold updateBestPriceFromTree
  cases hd : t0.buckets.head? <;> rfl

theorem adapterRemove_spec {h : Heap} {isBuy : Bool} {x : Option String}
    {t : ShardedPriceTree} {oid : String} {o : Order}
    (hw : TreeWF h isBuy x t)
    (hg : heapGet h oid = some o)
    (hle : o.listElement = true)
    (hmem : oid ∈ treeIds t)
    (hx : x = none ∨ x = some oid) :
    (ShardedPriceTreeAdapter.remove h t oid).1 =
      heapSet h oid { o with listElement := false } ∧
    TreeWF (heapSet h oid { o with listElement := false }) isBuy none
      (ShardedPriceTreeAdapter.remove h t oid).2 ∧
    (oid :: treeIds (ShardedPriceTreeAdapter.remove h t oid).2).Perm (treeIds t) := by
  obtain ⟨q1, q2, q3, q4, q5, q6⟩ := hw
  obtain ⟨b, hbmem, hzb⟩ := List.mem_flatMap.mp hmem
  obtain ⟨L, hLmem, hoidL⟩ := List.mem_flatMap.mp hzb
  obtain ⟨w1, w2, w3, w4, w5, w6, w7, w8, w9, w10⟩ := q4 b hbmem
  obtain ⟨hp0, hpdiv, hLwf⟩ := w7 L hLmem
  obtain ⟨v1, v2, v3, v4⟩ := hLwf
  have hgo : getOrder h oid = o := by unfold getOrder; rw [hg]; rfl
  have hprice : o.price = L.price := by
    have hv := (v4 oid hoidL).2.1
    rw [hgo] at hv
    exact hv
  have hnd : (b.chain.map PriceLevel.price).Nodup := chain_prices_nodup w6
  have hbnd : (t.buckets.map Bucket.bucketID).Nodup := bucket_ids_nodup q3
  have hfind : chainFind o.price b.chain = some L := by
    rw [hprice]
    exact chainFind_mem hnd hLmem
  have hdiv : Int.tdiv o.price t.bucketSize = b.bucketID := by
    rw [q2, hprice]
    exact hpdiv
  have hbg : bucketsGet t.buckets (Int.tdiv o.price t.bucketSize) = some b := by
    rw [hdiv]
    exact bucketsGet_mem hbnd hbmem
  have hslotm : slotsGet b.slots (int64And o.price b.bucketMask) = some o.price := by
    rw [w3, hprice]
    exact slotsGet_mem_nodup w10 (w9 L hLmem)
  have hnotinbb : ∀ bb ∈ t.buckets, bb ≠ b → oid ∉ bb.chain.flatMap PriceLevel.orders := by
    intro bb hbb hne hmm
    obtain ⟨M, hM, hoM⟩ := List.mem_flatMap.mp hmm
    obtain ⟨u1, u2, u3⟩ := (q4 bb hbb).2.2.2.2.2.2.1 M hM
    have hA := (u3.2.2.2 oid hoM).2.1
    rw [hgo] at hA
    have hMp : M.price = L.price := by rw [← hA, hprice]
    have hid : bb.bucketID = b.bucketID := by
      rw [← u2, hMp, ← hpdiv]
    have hc1 : bucketsGet t.buckets bb.bucketID = some bb := bucketsGet_mem hbnd hbb
    have hc2 : bucketsGet t.buckets b.bucketID = some b := bucketsGet_mem hbnd hbmem
    rw [hid, hc2] at hc1
    exact hne (Option.some_injective _ hc1.symm)
  have hcongrOther : ∀ bb ∈ t.buckets, bb ≠ b → ∀ z ∈ bb.chain.flatMap PriceLevel.orders,
      heapGet (heapSet h oid { o with listElement := false }) z = heapGet h z := by
    intro bb hbb hne z hz
    refine heapGet_set_ne h _ ?_
    intro he
    subst he
    exact hnotinbb bb hbb hne hz
  have hbval_nodup : t.buckets.Nodup := List.Nodup.of_map _ hbnd
  have habs : ∀ bb ∈ t.buckets, bb ≠ b →
      ∀ z ∈ bb.chain.flatMap PriceLevel.orders, x ≠ some z := by
    intro bb hbb hne z hz he
    rcases hx with rfl | rfl
    · exact Option.noConfusion he
    · have hz' : oid = z := Option.some_injective _ he
      subst hz'
      exact hnotinbb bb hbb hne hz
  obtain ⟨hsmap, hsperm, hsfindx, hswf⟩ :=
    bucket_shrink_spec _ _ (q4 b hbmem) hg hfind hoidL hx rfl rfl
  obtain ⟨L2, hsfind0, hsorders, hsprice⟩ := hsfindx
  have hsfind : chainFind o.price (chainModify o.price (fun M => { M with orders := M.orders.erase oid, volume := M.volume - o.remainingQuantity }) b.chain) = some L2 := hsfind0
  have hsmap2 : (chainModify o.price (fun M => { M with orders := M.orders.erase oid, volume := M.volume - o.remainingQuantity }) b.chain).map PriceLevel.price = b.chain.map PriceLevel.price := hsmap
  have hsperm2 : (b.chain.flatMap PriceLevel.orders).Perm
      (oid :: (chainModify o.price (fun M => { M with orders := M.orders.erase oid, volume := M.volume - o.remainingQuantity }) b.chain).flatMap PriceLevel.orders) := hsperm
  by_cases herase : L.orders.erase oid = []
  · -- the FIFO empties: the level is removed from the tree
    have hlenz : (L.orders.erase oid).length = 0 := by rw [herase]; rfl
    have horders : L.orders = [oid] := by
      have hp := List.perm_cons_erase hoidL
      rw [herase] at hp
      cases hLo : L.orders with
      | nil => rw [hLo] at hoidL; simp at hoidL
      | cons a as =>
        rw [hLo] at hp
        have hlen := hp.length_eq
        simp at hlen
        subst hlen
        have ha : a ∈ ([oid] : List String) := hp.subset (List.mem_cons_self _ _)
        simp at ha
        rw [ha]
    obtain ⟨preC, postC, hcsplit, hbrem, hprene2, hdperm, hdwf⟩ :=
      bucket_drop_spec _ (q4 b hbmem) hg hfind horders hx rfl
    set b2 : Bucket := { b with chain := chainModify o.price (fun M => { M with orders := M.orders.erase oid, volume := M.volume - o.remainingQuantity }) b.chain } with hb2def
    set b3 : Bucket := { b with slots := slotsErase b.slots (int64And o.price 127), size := b.size - 1, chain := preC ++ postC } with hb3def
    have hbrem2 : Bucket.remove b2 o.price = b3 := hbrem
    have hget2 : bucketsGet t.buckets b2.bucketID = some b := bucketsGet_mem hbnd hbmem
    obtain ⟨pre, post, hbsplit, hsetsplit, hprene⟩ := bucketsSet_split b2 hget2
    have hb2id : b2.bucketID = b.bucketID := rfl
    have hb3id : b3.bucketID = b.bucketID := rfl
    have q3' : (pre ++ b :: post).Pairwise
        (fun a c => Better isBuy a.bucketID c.bucketID) := hbsplit ▸ q3
    have hpw2 : (pre ++ b2 :: post).Pairwise
        (fun a c => Better isBuy a.bucketID c.bucketID) :=
      pairwise_replace_same_id q3' hb2id
    have hpw3 : (pre ++ b3 :: post).Pairwise
        (fun a c => Better isBuy a.bucketID c.bucketID) :=
      pairwise_replace_same_id q3' hb3id
    have hnd2 : ((pre ++ b2 :: post).map Bucket.bucketID).Nodup := bucket_ids_nodup hpw2
    have hget3 : bucketsGet (pre ++ b2 :: post) b2.bucketID = some b2 :=
      bucketsGet_mem hnd2 (List.mem_append_right _ (List.mem_cons_self _ _))
    have hgetT : bucketsGet (pre ++ b2 :: post) (Int.tdiv o.price t.bucketSize)
        = some b2 := by
      rw [hdiv]
      exact hget3
    have hsetlit : bucketsSet { b with chain := chainModify o.price (fun M => { M with orders := M.orders.erase oid, volume := M.volume - o.remainingQuantity }) b.chain } t.buckets = pre ++ b2 :: post := hsetsplit
    have hbval2 : (pre ++ b :: post).Nodup := hbsplit ▸ hbval_nodup
    have hbnm : b ∉ pre ++ post := (List.nodup_cons.mp ((List.nodup_middle).mp hbval2)).1
    have hmem_of_pp : ∀ bb, bb ∈ pre ++ post → bb ∈ t.buckets ∧ bb ≠ b := by
      intro bb hbb
      constructor
      · rw [hbsplit]
        rcases List.mem_append.mp hbb with h' | h'
        · exact List.mem_append_left _ h'
        · exact List.mem_append_right _ (List.mem_cons_of_mem _ h')
      · intro he
        subst he
        exact hbnm hbb
    have hwf_other : ∀ bb ∈ t.buckets, bb ≠ b →
        BucketWF (heapSet h oid { o with listElement := false }) isBuy none bb :=
      fun bb hbb hne => BucketWF_congr (hcongrOther bb hbb hne)
        (BucketWF_drop_x (q4 bb hbb) (habs bb hbb hne))
    have hwfallPP : ∀ bb ∈ pre ++ post,
        BucketWF (heapSet h oid { o with listElement := false }) isBuy none bb := by
      intro bb hbb
      obtain ⟨hm', hne⟩ := hmem_of_pp bb hbb
      exact hwf_other bb hm' hne
    have hpwPP : (pre ++ post).Pairwise
        (fun a c => Better isBuy a.bucketID c.bucketID) :=
      q3'.sublist (List.Sublist.append_left (List.sublist_cons_self _ _) _)
    have hsizeEq : b3.size = ((preC ++ postC).length : Int) := by
      show b.size - 1 = _
      rw [w4, hcsplit]
      simp only [List.length_append, List.length_cons]
      push_cast
      ring
    by_cases hPC : preC ++ postC = []
    · -- the bucket is empty afterwards and is removed
      have hsz0 : b3.size = 0 := by rw [hsizeEq, hPC]; rfl
      have hremB : bucketsRemove (Int.tdiv o.price t.bucketSize) (pre ++ b2 :: post)
          = pre ++ post := by
        rw [hdiv]
        exact bucketsRemove_append _ _ _ b2 hb2id hprene
      have hX : (b.chain.flatMap PriceLevel.orders).Perm (oid :: ([] : List String)) := by
        rw [hPC] at hdperm
        exact hdperm
      have hpermA : (oid :: (pre ++ post).flatMap
            (fun bb => bb.chain.flatMap PriceLevel.orders)).Perm
          ((pre ++ b :: post).flatMap (fun bb => bb.chain.flatMap PriceLevel.orders)) := by
        simp only [List.flatMap_append, List.flatMap_cons]
        exact (perm_flat_replace _ _ _ _ _ hX).symm
      cases hbl : t.buckets with
      | nil => rw [hbl] at hbmem; simp at hbmem
      | cons H rest =>
      rw [hbl] at q5 q6
      simp only [List.head?_cons, Option.map_some', Option.some_bind] at q5 q6
      rw [hbl] at hbmem
      by_cases hbH : b = H
      · -- removing the best bucket: full recompute
        have hcond : t.bestBucket = some (Int.tdiv o.price t.bucketSize) := by
          rw [q5, hdiv, hbH]
        have hpre : pre = [] := by
          cases hpp : pre with
          | nil => rfl
          | cons P ps =>
            rw [hpp] at hbsplit
            rw [hbl] at hbsplit
            simp only [List.cons_append] at hbsplit
            injection hbsplit with hHP hrest2
            refine absurd ?_ (hprene P (by rw [hpp]; exact List.mem_cons_self P ps))
            rw [← hHP, ← hbH, ← hb2id]
        refine ⟨?_, ?_, ?_⟩
        · simp only [ShardedPriceTreeAdapter.remove, hg, hbg, hslotm, hle,
            eq_self_iff_true, if_true, Bucket.findLevel, hsfind, Option.map_some',
            Option.getD_some, hsorders, hlenz]
        · simp only [ShardedPriceTreeAdapter.remove, hg, hbg, hslotm, hle,
            eq_self_iff_true, if_true, Bucket.findLevel, hsfind, Option.map_some',
            Option.getD_some, hsorders, hlenz, ShardedPriceTree.remove, hsetlit,
            hgetT, hbrem2, hsz0, hremB]
          rw [if_pos hcond]
          refine updateBest_spec q1 q2 ?_ ?_
          · exact hpwPP
          · exact hwfallPP
        · simp only [ShardedPriceTreeAdapter.remove, hg, hbg, hslotm, hle,
            eq_self_iff_true, if_true, Bucket.findLevel, hsfind, Option.map_some',
            Option.getD_some, hsorders, hlenz, ShardedPriceTree.remove, hsetlit,
            hgetT, hbrem2, hsz0, hremB]
          rw [if_pos hcond, treeIds_updateBest]
          show (oid :: (pre ++ post).flatMap
              (fun bb => bb.chain.flatMap PriceLevel.orders)).Perm (treeIds t)
          have hrhs : treeIds t = (pre ++ b :: post).flatMap
              (fun bb => bb.chain.flatMap PriceLevel.orders) := by
            unfold treeIds
            rw [hbsplit]
          rw [hrhs]
          exact hpermA
      · -- removing a non-best bucket: cached best untouched
        have hcond : ¬ (t.bestBucket = some (Int.tdiv o.price t.bucketSize)) := by
          intro he
          rw [q5, hdiv] at he
          have hid : H.bucketID = b.bucketID := Option.some_injective _ he
          have hc1 : bucketsGet t.buckets H.bucketID = some H :=
            bucketsGet_mem hbnd (by rw [hbl]; exact List.mem_cons_self _ _)
          have hc2 : bucketsGet t.buckets b.bucketID = some b := bucketsGet_mem hbnd (by rw [hbl]; exact hbmem)
          rw [hid, hc2] at hc1
          exact hbH (Option.some_injective _ hc1)
        obtain ⟨ps, hps⟩ : ∃ ps, pre = H :: ps := by
          cases hpp : pre with
          | nil =>
            rw [hpp] at hbsplit
            rw [hbl] at hbsplit
            simp only [List.nil_append] at hbsplit
            injection hbsplit with hHb hrest2
            exact absurd hHb.symm hbH
          | cons P ps =>
            rw [hpp] at hbsplit
            rw [hbl] at hbsplit
            simp only [List.cons_append] at hbsplit
            injection hbsplit with hHP hrest2
            exact ⟨ps, by rw [hHP]⟩
        refine ⟨?_, ?_, ?_⟩
        · simp only [ShardedPriceTreeAdapter.remove, hg, hbg, hslotm, hle,
            eq_self_iff_true, if_true, Bucket.findLevel, hsfind, Option.map_some',
            Option.getD_some, hsorders, hlenz]
        · simp only [ShardedPriceTreeAdapter.remove, hg, hbg, hslotm, hle,
            eq_self_iff_true, if_true, Bucket.findLevel, hsfind, Option.map_some',
            Option.getD_some, hsorders, hlenz, ShardedPriceTree.remove, hsetlit,
            hgetT, hbrem2, hsz0, hremB, q5, q6]
          rw [if_neg ?hc]
          case hc =>
            rw [← q5]
            exact hcond
          refine ⟨q1, q2, hpwPP, hwfallPP, ?_, ?_⟩
          · rw [hps]
            simp only [List.cons_append, List.head?_cons, Option.map_some']
          · rw [hps]
            simp only [List.cons_append, List.head?_cons, Option.some_bind]
        · simp only [ShardedPriceTreeAdapter.remove, hg, hbg, hslotm, hle,
            eq_self_iff_true, if_true, Bucket.findLevel, hsfind, Option.map_some',
            Option.getD_some, hsorders, hlenz, ShardedPriceTree.remove, hsetlit,
            hgetT, hbrem2, hsz0, hremB]
          rw [if_neg hcond]
          show (oid :: (pre ++ post).flatMap
              (fun bb => bb.chain.flatMap PriceLevel.orders)).Perm (treeIds t)
          have hrhs : treeIds t = (pre ++ b :: post).flatMap
              (fun bb => bb.chain.flatMap PriceLevel.orders) := by
            unfold treeIds
            rw [hbsplit]
          rw [hrhs]
          exact hpermA
    · -- the bucket still holds other levels
      have hszne : ¬ (b3.size = 0) := by
        rw [hsizeEq]
        intro he
        refine hPC (List.eq_nil_of_length_eq_zero ?_)
        exact_mod_cast he
      have hsetB : bucketsSet b3 (pre ++ b2 :: post) = pre ++ b3 :: post :=
        bucketsSet_append pre post b2 b3 rfl hprene
      have hdperm3 : (b.chain.flatMap PriceLevel.orders).Perm
          (oid :: b3.chain.flatMap PriceLevel.orders) := hdperm
      have hpermB : (oid :: (pre ++ b3 :: post).flatMap
            (fun bb => bb.chain.flatMap PriceLevel.orders)).Perm
          ((pre ++ b :: post).flatMap (fun bb => bb.chain.flatMap PriceLevel.orders)) := by
        simp only [List.flatMap_append, List.flatMap_cons]
        have hdperm4 : (b.chain.flatMap PriceLevel.orders).Perm
            (oid :: (preC.flatMap PriceLevel.orders ++ postC.flatMap PriceLevel.orders)) := by
          simpa [List.flatMap_append] using hdperm
        exact (perm_flat_replace _ _ _ _ _ hdperm4).symm
      have hwf3 : BucketWF (heapSet h oid { o with listElement := false }) isBuy none b3 :=
        hdwf hPC
      have hwfall3 : ∀ bb ∈ pre ++ b3 :: post,
          BucketWF (heapSet h oid { o with listElement := false }) isBuy none bb := by
        intro bb hbb
        rcases List.mem_append.mp hbb with hbb' | hbb'
        · obtain ⟨hm', hne⟩ := hmem_of_pp bb (List.mem_append_left _ hbb')
          exact hwf_other bb hm' hne
        · rcases List.mem_cons.mp hbb' with rfl | hbb''
          · exact hwf3
          · obtain ⟨hm', hne⟩ := hmem_of_pp bb (List.mem_append_right _ hbb'')
            exact hwf_other bb hm' hne
      have hrhs : treeIds t = (pre ++ b :: post).flatMap
          (fun bb => bb.chain.flatMap PriceLevel.orders) := by
        unfold treeIds
        rw [hbsplit]
      cases hbl : t.buckets with
      | nil => rw [hbl] at hbmem; simp at hbmem
      | cons H rest =>
      rw [hbl] at q5 q6
      simp only [List.head?_cons, Option.map_some', Option.some_bind] at q5 q6
      rw [hbl] at hbmem
      by_cases hbH : b = H
      · have hpre : pre = [] := by
          cases hpp : pre with
          | nil => rfl
          | cons P ps =>
            rw [hpp] at hbsplit
            rw [hbl] at hbsplit
            simp only [List.cons_append] at hbsplit
            injection hbsplit with hHP hrest2
            refine absurd ?_ (hprene P (by rw [hpp]; exact List.mem_cons_self P ps))
            rw [← hHP, ← hbH, ← hb2id]
        by_cases hpc0 : preC = []
        · -- the removed level was the cached best price: recompute
          have hcond : t.bestPrice = some o.price := by
            rw [q6, ← hbH, hcsplit, hpc0]
            simp only [List.nil_append, List.head?_cons, Option.map_some']
            rw [hprice]
          refine ⟨?_, ?_, ?_⟩
          · simp only [ShardedPriceTreeAdapter.remove, hg, hbg, hslotm, hle,
              eq_self_iff_true, if_true, Bucket.findLevel, hsfind, Option.map_some',
              Option.getD_some, hsorders, hlenz]
          · simp only [ShardedPriceTreeAdapter.remove, hg, hbg, hslotm, hle,
              eq_self_iff_true, if_true, Bucket.findLevel, hsfind, Option.map_some',
              Option.getD_some, hsorders, hlenz, ShardedPriceTree.remove, hsetlit,
              hgetT, hbrem2, hsetB]
            rw [if_neg hszne, if_pos hcond]
            exact updateBest_spec q1 q2 hpw3 hwfall3
          · simp only [ShardedPriceTreeAdapter.remove, hg, hbg, hslotm, hle,
              eq_self_iff_true, if_true, Bucket.findLevel, hsfind, Option.map_some',
              Option.getD_some, hsorders, hlenz, ShardedPriceTree.remove, hsetlit,
              hgetT, hbrem2, hsetB]
            rw [if_neg hszne, if_pos hcond, treeIds_updateBest]
            show (oid :: (pre ++ b3 :: post).flatMap
                (fun bb => bb.chain.flatMap PriceLevel.orders)).Perm (treeIds t)
            rw [hrhs]
            exact hpermB
        · -- the removed level was not the bucket head
          obtain ⟨P, tC, hpcC⟩ : ∃ P tC, preC = P :: tC := by
            cases hpp : preC with
            | nil => exact absurd hpp hpc0
            | cons P tC => exact ⟨P, tC, rfl⟩
          have hcond : ¬ (t.bestPrice = some o.price) := by
            intro he
            rw [q6, ← hbH, hcsplit, hpcC] at he
            simp only [List.cons_append, List.head?_cons, Option.map_some'] at he
            exact hprene2 P (by rw [hpcC]; exact List.mem_cons_self _ _)
              (Option.some_injective _ he)
          refine ⟨?_, ?_, ?_⟩
          · simp only [ShardedPriceTreeAdapter.remove, hg, hbg, hslotm, hle,
              eq_self_iff_true, if_true, Bucket.findLevel, hsfind, Option.map_some',
              Option.getD_some, hsorders, hlenz]
          · simp only [ShardedPriceTreeAdapter.remove, hg, hbg, hslotm, hle,
              eq_self_iff_true, if_true, Bucket.findLevel, hsfind, Option.map_some',
              Option.getD_some, hsorders, hlenz, ShardedPriceTree.remove, hsetlit,
              hgetT, hbrem2, hsetB]
            rw [if_neg hszne, if_neg hcond]
            subst hpre
            refine ⟨q1, q2, ?_, ?_, ?_, ?_⟩
            · simpa using hpw3
            · intro bb hbb
              refine hwfall3 bb ?_
              simpa using hbb
            · rw [q5]
              simp only [List.nil_append, List.head?_cons, Option.map_some']
              rw [hb3id, hbH]
            · rw [q6]
              simp only [List.nil_append, List.head?_cons, Option.some_bind, hb3def]
              rw [← hbH, hcsplit, hpcC]
              simp only [List.cons_append, List.head?_cons, Option.map_some']
          · simp only [ShardedPriceTreeAdapter.remove, hg, hbg, hslotm, hle,
              eq_self_iff_true, if_true, Bucket.findLevel, hsfind, Option.map_some',
              Option.getD_some, hsorders, hlenz, ShardedPriceTree.remove, hsetlit,
              hgetT, hbrem2, hsetB]
            rw [if_neg hszne, if_neg hcond]
            show (oid :: (pre ++ b3 :: post).flatMap
                (fun bb => bb.chain.flatMap PriceLevel.orders)).Perm (treeIds t)
            rw [hrhs]
            exact hpermB
      · -- a non-best bucket shrank: the cached best price is elsewhere
        obtain ⟨ps, hps⟩ : ∃ ps, pre = H :: ps := by
          cases hpp : pre with
          | nil =>
            rw [hpp] at hbsplit
            rw [hbl] at hbsplit
            simp only [List.nil_append] at hbsplit
            injection hbsplit with hHb hrest2
            exact absurd hHb.symm hbH
          | cons P ps =>
            rw [hpp] at hbsplit
            rw [hbl] at hbsplit
            simp only [List.cons_append] at hbsplit
            injection hbsplit with hHP hrest2
            exact ⟨ps, by rw [hHP]⟩
        have hcond : ¬ (t.bestPrice = some o.price) := by
          intro he
          rw [q6] at he
          have hHmem : H ∈ t.buckets := by rw [hbl]; exact List.mem_cons_self _ _
          have hHbwf := q4 H hHmem
          cases hHC : H.chain with
          | nil => exact hHbwf.2.2.2.2.1 hHC
          | cons M tl =>
            rw [hHC] at he
            simp only [List.head?_cons, Option.map_some'] at he
            have hMp : M.price = o.price := Option.some_injective _ he
            have hMmem : M ∈ H.chain := by rw [hHC]; exact List.mem_cons_self _ _
            obtain ⟨u1, u2, u3⟩ := hHbwf.2.2.2.2.2.2.1 M hMmem
            have hid : H.bucketID = b.bucketID := by
              rw [← u2, hMp, hprice]
              exact hpdiv
            have hc1 : bucketsGet t.buckets H.bucketID = some H := bucketsGet_mem hbnd hHmem
            have hc2 : bucketsGet t.buckets b.bucketID = some b :=
              bucketsGet_mem hbnd (by rw [hbl]; exact hbmem)
            rw [hid, hc2] at hc1
            exact hbH (Option.some_injective _ hc1)
        refine ⟨?_, ?_, ?_⟩
        · simp only [ShardedPriceTreeAdapter.remove, hg, hbg, hslotm, hle,
            eq_self_iff_true, if_true, Bucket.findLevel, hsfind, Option.map_some',
            Option.getD_some, hsorders, hlenz]
        · simp only [ShardedPriceTreeAdapter.remove, hg, hbg, hslotm, hle,
            eq_self_iff_true, if_true, Bucket.findLevel, hsfind, Option.map_some',
            Option.getD_some, hsorders, hlenz, ShardedPriceTree.remove, hsetlit,
            hgetT, hbrem2, hsetB]
          rw [if_neg hszne, if_neg hcond]
          refine ⟨q1, q2, hpw3, hwfall3, ?_, ?_⟩
          · rw [q5, hps]
            simp only [List.cons_append, List.head?_cons, Option.map_some']
          · rw [q6, hps]
            simp only [List.cons_append, List.head?_cons, Option.some_bind]
        · simp only [ShardedPriceTreeAdapter.remove, hg, hbg, hslotm, hle,
            eq_self_iff_true, if_true, Bucket.findLevel, hsfind, Option.map_some',
            Option.getD_some, hsorders, hlenz, ShardedPriceTree.remove, hsetlit,
            hgetT, hbrem2, hsetB]
          rw [if_neg hszne, if_neg hcond]
          show (oid :: (pre ++ b3 :: post).flatMap
              (fun bb => bb.chain.flatMap PriceLevel.orders)).Perm (treeIds t)
          rw [hrhs]
          exact hpermB
  · -- the level still has other orders: only the level object shrinks
    have hlen0 : ¬ ((L.orders.erase oid).length = 0) :=
      fun hz => herase (List.eq_nil_of_length_eq_zero hz)
    set b2 : Bucket := { b with chain := chainModify o.price (fun M => { M with orders := M.orders.erase oid, volume := M.volume - o.remainingQuantity }) b.chain } with hb2def
    have hget2 : bucketsGet t.buckets b2.bucketID = some b := bucketsGet_mem hbnd hbmem
    obtain ⟨pre, post, hbsplit, hsetsplit, hprene⟩ := bucketsSet_split b2 hget2
    have hb2id : b2.bucketID = b.bucketID := rfl
    have q3' : (pre ++ b :: post).Pairwise
        (fun a c => Better isBuy a.bucketID c.bucketID) := hbsplit ▸ q3
    have hpw2 : (pre ++ b2 :: post).Pairwise
        (fun a c => Better isBuy a.bucketID c.bucketID) :=
      pairwise_replace_same_id q3' hb2id
    have hbwf2 : BucketWF (heapSet h oid { o with listElement := false }) isBuy none b2 :=
      hswf herase
    have hbval2 : (pre ++ b :: post).Nodup := hbsplit ▸ hbval_nodup
    have hbnm : b ∉ pre ++ post := (List.nodup_cons.mp ((List.nodup_middle).mp hbval2)).1
    have hbwfall : ∀ bb ∈ pre ++ b2 :: post,
        BucketWF (heapSet h oid { o with listElement := false }) isBuy none bb := by
      intro bb hbb
      rcases List.mem_append.mp hbb with hbb' | hbb'
      · have hm' : bb ∈ t.buckets := by rw [hbsplit]; exact List.mem_append_left _ hbb'
        have hne : bb ≠ b := fun he => hbnm (he ▸ List.mem_append_left _ hbb')
        exact BucketWF_congr (hcongrOther bb hm' hne) (BucketWF_drop_x (q4 bb hm') (habs bb hm' hne))
      · rcases List.mem_cons.mp hbb' with rfl | hbb''
        · exact hbwf2
        · have hm' : bb ∈ t.buckets := by
            rw [hbsplit]
            exact List.mem_append_right _ (List.mem_cons_of_mem _ hbb'')
          have hne : bb ≠ b := fun he => hbnm (he ▸ List.mem_append_right _ hbb'')
          exact BucketWF_congr (hcongrOther bb hm' hne) (BucketWF_drop_x (q4 bb hm') (habs bb hm' hne))
    have hidsperm : (oid :: (pre ++ b2 :: post).flatMap
          (fun bb => bb.chain.flatMap PriceLevel.orders)).Perm
        ((pre ++ b :: post).flatMap (fun bb => bb.chain.flatMap PriceLevel.orders)) := by
      simp only [List.flatMap_append, List.flatMap_cons]
      exact (perm_flat_replace _ _ _ _ _ hsperm2).symm
    cases hbl : t.buckets with
    | nil => rw [hbl] at hbmem; simp at hbmem
    | cons H rest =>
    rw [hbl] at q5 q6
    simp only [List.head?_cons, Option.map_some', Option.some_bind] at q5 q6
    rw [hbl] at hbmem
    by_cases hbH : b = H
    · have hpre : pre = [] := by
        cases hpp : pre with
        | nil => rfl
        | cons P ps =>
          rw [hpp] at hbsplit
          rw [hbl] at hbsplit
          simp only [List.cons_append] at hbsplit
          injection hbsplit with hHP hrest
          refine absurd ?_ (hprene P (by rw [hpp]; exact List.mem_cons_self P ps))
          rw [← hHP, ← hbH, ← hb2id]
      subst hpre
      have hsetsplit2 : bucketsSet b2 t.buckets = b2 :: post := by
        rw [hsetsplit]; simp
      refine ⟨?_, ?_, ?_⟩
      · simp only [ShardedPriceTreeAdapter.remove, hg, hbg, hslotm, hle,
          eq_self_iff_true, if_true, Bucket.findLevel, hsfind, Option.map_some',
          Option.getD_some, hsorders]
        rw [if_neg hlen0]
      · simp only [ShardedPriceTreeAdapter.remove, hg, hbg, hslotm, hle,
          eq_self_iff_true, if_true, Bucket.findLevel, hsfind, Option.map_some',
          Option.getD_some, hsorders, q5, q6]
        rw [if_neg hlen0]
        rw [← hb2def, hsetsplit2]
        refine ⟨q1, q2, ?_, ?_, ?_, ?_⟩
        · simpa using hpw2
        · intro bb hbb
          refine hbwfall bb ?_
          simpa using hbb
        · simp only [List.head?_cons, Option.map_some']
          rw [hb2id, hbH]
        · simp only [List.head?_cons, Option.some_bind]
          have hh := head_price_of_map_eq hsmap2
          rw [← hbH]
          exact hh.symm
      · simp only [ShardedPriceTreeAdapter.remove, hg, hbg, hslotm, hle,
          eq_self_iff_true, if_true, Bucket.findLevel, hsfind, Option.map_some',
          Option.getD_some, hsorders]
        rw [if_neg hlen0]
        rw [← hb2def, hsetsplit2]
        show (oid :: ((b2 :: post).flatMap
            (fun bb => bb.chain.flatMap PriceLevel.orders))).Perm (treeIds t)
        have hrhs : treeIds t = ([] ++ b :: post).flatMap
            (fun bb => bb.chain.flatMap PriceLevel.orders) := by
          unfold treeIds
          rw [hbsplit]
        rw [hrhs]
        simpa using hidsperm
    · have hbr : b ∈ rest := by
        rcases List.mem_cons.mp hbmem with h' | h'
        · exact absurd h' hbH
        · exact h'
      obtain ⟨ps, hps⟩ : ∃ ps, pre = H :: ps := by
        cases hpp : pre with
        | nil =>
          rw [hpp] at hbsplit
          rw [hbl] at hbsplit
          simp only [List.nil_append] at hbsplit
          injection hbsplit with hHb hrest
          exact absurd hHb.symm hbH
        | cons P ps =>
          rw [hpp] at hbsplit
          rw [hbl] at hbsplit
          simp only [List.cons_append] at hbsplit
          injection hbsplit with hHP hrest
          exact ⟨ps, by rw [hHP]⟩
      refine ⟨?_, ?_, ?_⟩
      · simp only [ShardedPriceTreeAdapter.remove, hg, hbg, hslotm, hle,
          eq_self_iff_true, if_true, Bucket.findLevel, hsfind, Option.map_some',
          Option.getD_some, hsorders]
        rw [if_neg hlen0]
      · simp only [ShardedPriceTreeAdapter.remove, hg, hbg, hslotm, hle,
          eq_self_iff_true, if_true, Bucket.findLevel, hsfind, Option.map_some',
          Option.getD_some, hsorders, q5, q6]
        rw [if_neg hlen0]
        rw [← hb2def, hsetsplit]
        refine ⟨q1, q2, hpw2, hbwfall, ?_, ?_⟩
        · rw [hps]
          simp only [List.cons_append, List.head?_cons, Option.map_some']
        · rw [hps]
          simp only [List.cons_append, List.head?_cons, Option.some_bind]
      · simp only [ShardedPriceTreeAdapter.remove, hg, hbg, hslotm, hle,
          eq_self_iff_true, if_true, Bucket.findLevel, hsfind, Option.map_some',
          Option.getD_some, hsorders]
        rw [if_neg hlen0]
        rw [← hb2def, hsetsplit]
        show (oid :: ((pre ++ b2 :: post).flatMap
            (fun bb => bb.chain.flatMap PriceLevel.orders))).Perm (treeIds t)
        have hrhs : treeIds t = (pre ++ b :: post).flatMap
            (fun bb => bb.chain.flatMap PriceLevel.orders) := by
          unfold treeIds
          rw [hbsplit]
        rw [hrhs]
        exact hidsperm

theorem adapterInsert_spec {h : Heap} {isBuy : Bool} {t : ShardedPriceTree}
    {oid : String} {o : Order}
    (hw : TreeWF h isBuy none t)
    (hg : heapGet h oid = some o)
    (hpos : 0 < o.price)
    (hside : o.side = (if isBuy then Side.Buy else Side.Sell))
    (hlim : o.otype = OrderType.Limit)
    (hf0 : 0 ≤ o.filled) (hf1 : o.filled < o.quantity)
    (hstatus : o.status = OrderStatus.Pending ∨ o.status = OrderStatus.PartialFilled)
    (hfresh : oid ∉ treeIds t) :
    (ShardedPriceTreeAdapter.insert h t oid).1 =
      heapSet h oid { o with listElement := true } ∧
    TreeWF (heapSet h oid { o with listElement := true }) isBuy none
      (ShardedPriceTreeAdapter.insert h t oid).2 ∧
    (treeIds (ShardedPriceTreeAdapter.insert h t oid).2).Perm (oid :: treeIds t) ∧
    (∃ L2, ShardedPriceTreeAdapter.getLevel (ShardedPriceTreeAdapter.insert h t oid).2
        o.price = some L2 ∧ oid ∈ L2.orders) := by
  obtain ⟨q1, q2, q3, q4, q5, q6⟩ := hw
  have hbnd : (t.buckets.map Bucket.bucketID).Nodup := bucket_ids_nodup q3
  have hcongrAll : ∀ bb ∈ t.buckets, ∀ z ∈ bb.chain.flatMap PriceLevel.orders,
      heapGet (heapSet h oid { o with listElement := true }) z = heapGet h z := by
    intro bb hbb z hz
    refine heapGet_set_ne h _ (fun he => hfresh ?_)
    subst he
    exact List.mem_flatMap.mpr ⟨bb, hbb, hz⟩
  cases hbg : bucketsGet t.buckets (Int.tdiv o.price t.bucketSize) with
  | some b =>
    obtain ⟨hbmem, hbid⟩ := bucketsGet_some hbg
    have hbwf := q4 b hbmem
    have hmask : b.bucketMask = 127 := hbwf.2.2.1
    have hdiv : Int.tdiv o.price 128 = b.bucketID := by rw [← q2, hbid]
    have hfreshb : oid ∉ b.chain.flatMap PriceLevel.orders := fun hz =>
      hfresh (List.mem_flatMap.mpr ⟨b, hbmem, hz⟩)
    -- the head bucket exists
    cases hbl : t.buckets with
    | nil => rw [hbl] at hbmem; simp at hbmem
    | cons H rest =>
    rw [hbl] at q5 q6
    simp only [List.head?_cons, Option.map_some', Option.some_bind] at q5 q6
    rw [hbl] at hbmem
    cases hsg0 : slotsGet b.slots (int64And o.price b.bucketMask) with
    | some p =>
      -- existing level: append to its FIFO
      have hsg : slotsGet b.slots (int64And o.price 127) = some p := by
        rw [← hmask]; exact hsg0
      obtain ⟨hpeq, hbwf2, hmap2, hhead2, hperm2, hlvl2⟩ :=
        bucket_append_spec _ _ hbwf hg hfreshb hsg hpos hdiv hside hlim hf0 hf1
          hstatus rfl rfl
      subst hpeq
      set b2 : Bucket := { b with chain := chainModify o.price (fun L => { L with orders := L.orders ++ [oid], volume := L.volume + o.remainingQuantity }) b.chain } with hb2def
      have hb2id : b2.bucketID = b.bucketID := rfl
      have hmemid : b2.bucketID ∈ t.buckets.map Bucket.bucketID := by
        rw [hb2id]
        exact List.mem_map.mpr ⟨b, by rw [hbl]; exact hbmem, rfl⟩
      have hputeq : bucketsPut t.isBuy b2 t.buckets = bucketsSet b2 t.buckets :=
        bucketsPut_existing (by rw [q1]; exact q3) hmemid
      have hget2 : bucketsGet t.buckets b2.bucketID = some b := by
        rw [hb2id, hbid]
        exact hbg
      obtain ⟨pre, post, hbsplit, hsetsplit, hprene⟩ := bucketsSet_split b2 hget2
      have q3' : (pre ++ b :: post).Pairwise
          (fun x y => Better isBuy x.bucketID y.bucketID) := hbsplit ▸ q3
      have hpw2 : (pre ++ b2 :: post).Pairwise
          (fun x y => Better isBuy x.bucketID y.bucketID) :=
        pairwise_replace_same_id q3' hb2id
      have hnd2 : ((pre ++ b2 :: post).map Bucket.bucketID).Nodup := bucket_ids_nodup hpw2
      have hb2mem : b2 ∈ pre ++ b2 :: post :=
        List.mem_append_right _ (List.mem_cons_self _ _)
      have hget3 : bucketsGet (pre ++ b2 :: post) b2.bucketID = some b2 :=
        bucketsGet_mem hnd2 hb2mem
      have hbwfall : ∀ bb ∈ pre ++ b2 :: post,
          BucketWF (heapSet h oid { o with listElement := true }) isBuy none bb := by
        intro bb hbb
        rcases List.mem_append.mp hbb with hbb' | hbb'
        · have hmem' : bb ∈ t.buckets := by
            rw [hbsplit]; exact List.mem_append_left _ hbb'
          exact BucketWF_congr (hcongrAll bb hmem') (q4 bb hmem')
        · rcases List.mem_cons.mp hbb' with rfl | hbb''
          · exact hbwf2
          · have hmem' : bb ∈ t.buckets := by
              rw [hbsplit]
              exact List.mem_append_right _ (List.mem_cons_of_mem _ hbb'')
            exact BucketWF_congr (hcongrAll bb hmem') (q4 bb hmem')
      have hidsperm : ((pre ++ b2 :: post).flatMap
            (fun bb => bb.chain.flatMap PriceLevel.orders)).Perm
          (oid :: (pre ++ b :: post).flatMap
            (fun bb => bb.chain.flatMap PriceLevel.orders)) := by
        simp only [List.flatMap_append, List.flatMap_cons]
        exact perm_flat_replace _ _ _ _ _ hperm2
      have hglvl : ∀ tX : ShardedPriceTree, tX.buckets = pre ++ b2 :: post →
          tX.bucketSize = t.bucketSize →
          ∃ L2, ShardedPriceTreeAdapter.getLevel tX o.price = some L2 ∧
            oid ∈ L2.orders := by
        intro tX htX1 htX2
        obtain ⟨L2, hL2f, hL2m⟩ := hlvl2
        refine ⟨L2, ?_, hL2m⟩
        have he1 : Int.tdiv o.price t.bucketSize = b2.bucketID := by
          rw [hb2id]; exact hbid.symm
        have hm2 : b2.bucketMask = 127 := hmask
        have hs2 : b2.slots = b.slots := rfl
        unfold ShardedPriceTreeAdapter.getLevel
        rw [htX1, htX2, he1]
        simp only [hget3, hm2, hs2, hmask, hsg, Bucket.findLevel]
        exact hL2f
      have hnb : ¬ (isBetterBucket t.isBuy (Int.tdiv o.price t.bucketSize)
          H.bucketID = true) := by
        intro hx
        rw [q1] at hx
        have hbet := isBetterBucket_iff.mp hx
        rw [← hbid] at hbet
        rcases List.mem_cons.mp hbmem with rfl | hbr
        · exact hbet.irrefl
        · rw [hbl, List.pairwise_cons] at q3
          exact (q3.1 b hbr).asymm hbet
      by_cases hbH : b = H
      · -- the modified bucket is the cached best bucket
        have heqid : Int.tdiv o.price t.bucketSize = H.bucketID := by
          rw [← hbH]; exact hbid.symm
        have hpre : pre = [] := by
          cases hpp : pre with
          | nil => rfl
          | cons P ps =>
            rw [hpp] at hbsplit
            rw [hbl] at hbsplit
            simp only [List.cons_append] at hbsplit
            injection hbsplit with hHP hrest
            refine absurd ?_ (hprene P (by rw [hpp]; exact List.mem_cons_self P ps))
            rw [← hHP, ← hbH, ← hb2id]
        subst hpre
        have hsetsplit2 : bucketsSet b2 t.buckets = b2 :: post := by
          rw [hsetsplit]; simp
        refine ⟨?_, ?_, ?_, ?_⟩
        · simp only [ShardedPriceTreeAdapter.insert, hg, hbg, hsg0]
        · simp only [ShardedPriceTreeAdapter.insert, hg, hbg, hsg0, q5]
          rw [if_neg hnb, if_pos heqid]
          rw [← hb2def, hputeq, hsetsplit2]
          refine ⟨q1, q2, ?_, ?_, ?_, ?_⟩
          · have := hpw2
            simpa using this
          · intro bb hbb
            refine hbwfall bb ?_
            simpa using hbb
          · simp only [List.head?_cons, Option.map_some']
            rw [hb2id, hbH]
          · simp only [List.head?_cons, Option.some_bind]
        · simp only [ShardedPriceTreeAdapter.insert, hg, hbg, hsg0, q5]
          rw [if_neg hnb, if_pos heqid]
          rw [← hb2def, hputeq, hsetsplit2]
          show ((b2 :: post).flatMap (fun bb => bb.chain.flatMap PriceLevel.orders)).Perm
            (oid :: treeIds t)
          have hrhs : treeIds t = ([] ++ b :: post).flatMap
              (fun bb => bb.chain.flatMap PriceLevel.orders) := by
            unfold treeIds
            rw [hbsplit]
          rw [hrhs]
          simpa using hidsperm
        · simp only [ShardedPriceTreeAdapter.insert, hg, hbg, hsg0, q5]
          rw [if_neg hnb, if_pos heqid]
          refine hglvl _ ?_ rfl
          show bucketsPut t.isBuy _ t.buckets = [] ++ b2 :: post
          rw [← hb2def, hputeq, hsetsplit]
      · -- the modified bucket is not the head
        have hbr : b ∈ rest := by
          rcases List.mem_cons.mp hbmem with h' | h'
          · exact absurd h' hbH
          · exact h'
        have hneid : ¬ (Int.tdiv o.price t.bucketSize = H.bucketID) := by
          intro he
          have hideq : b.bucketID = H.bucketID := by rw [hbid, he]
          rw [hbl, List.map_cons, List.nodup_cons] at hbnd
          exact hbnd.1 (List.mem_map.mpr ⟨b, hbr, hideq⟩)
        obtain ⟨ps, hps⟩ : ∃ ps, pre = H :: ps := by
          cases hpp : pre with
          | nil =>
            rw [hpp] at hbsplit
            rw [hbl] at hbsplit
            simp only [List.nil_append] at hbsplit
            injection hbsplit with hHb hrest
            exact absurd hHb.symm hbH
          | cons P ps =>
            rw [hpp] at hbsplit
            rw [hbl] at hbsplit
            simp only [List.cons_append] at hbsplit
            injection hbsplit with hHP hrest
            exact ⟨ps, by rw [hHP]⟩
        refine ⟨?_, ?_, ?_, ?_⟩
        · simp only [ShardedPriceTreeAdapter.insert, hg, hbg, hsg0]
        · simp only [ShardedPriceTreeAdapter.insert, hg, hbg, hsg0, q5]
          rw [if_neg hnb, if_neg hneid]
          rw [← hb2def, hputeq, hsetsplit]
          refine ⟨q1, q2, hpw2, hbwfall, ?_, ?_⟩
          · rw [hps]
            simp only [List.cons_append, List.head?_cons, Option.map_some']
          · rw [hps, q6]
            simp only [List.cons_append, List.head?_cons, Option.some_bind]
        · simp only [ShardedPriceTreeAdapter.insert, hg, hbg, hsg0, q5]
          rw [if_neg hnb, if_neg hneid]
          rw [← hb2def, hputeq, hsetsplit]
          show ((pre ++ b2 :: post).flatMap
              (fun bb => bb.chain.flatMap PriceLevel.orders)).Perm (oid :: treeIds t)
          have hrhs : treeIds t = (pre ++ b :: post).flatMap
              (fun bb => bb.chain.flatMap PriceLevel.orders) := by
            unfold treeIds
            rw [hbsplit]
          rw [hrhs]
          exact hidsperm
        · simp only [ShardedPriceTreeAdapter.insert, hg, hbg, hsg0, q5]
          rw [if_neg hnb, if_neg hneid]
          refine hglvl _ ?_ rfl
          show bucketsPut t.isBuy _ t.buckets = pre ++ b2 :: post
          rw [← hb2def, hputeq, hsetsplit]
    | none =>
      -- new level: allocate it, insert into the bucket, then append
      have hsg : slotsGet b.slots (int64And o.price 127) = none := by
        rw [← hmask]; exact hsg0
      have hbisbuy : b.isBuy = isBuy := hbwf.1
      set b2 : Bucket := { b with slots := slotsSet b.slots (int64And o.price b.bucketMask) o.price, size := b.size + 1, chain := chainModify o.price (fun L => { L with orders := L.orders ++ [oid], volume := L.volume + o.remainingQuantity }) (chainInsert b.isBuy { price := o.price, orders := [], volume := 0 } b.chain) } with hb2def
      have hb2pf : b2 = { b with slots := slotsSet b.slots (int64And o.price 127) o.price, size := b.size + 1, chain := chainModify o.price (fun L => { L with orders := L.orders ++ [oid], volume := L.volume + o.remainingQuantity }) (chainInsert isBuy { price := o.price, orders := [], volume := 0 } b.chain) } := by
        rw [hb2def, hmask, hbisbuy]
      obtain ⟨hbwf2, hmap2, hperm2, hlvl2⟩ :=
        bucket_newlevel_spec b2 _ hbwf hg hfreshb hsg hpos hdiv hside hlim hf0 hf1
          hstatus hb2pf rfl
      have hb2id : b2.bucketID = b.bucketID := rfl
      have hmemid : b2.bucketID ∈ t.buckets.map Bucket.bucketID := by
        rw [hb2id]
        exact List.mem_map.mpr ⟨b, by rw [hbl]; exact hbmem, rfl⟩
      have hputeq : bucketsPut t.isBuy b2 t.buckets = bucketsSet b2 t.buckets :=
        bucketsPut_existing (by rw [q1]; exact q3) hmemid
      have hget2 : bucketsGet t.buckets b2.bucketID = some b := by
        rw [hb2id, hbid]
        exact hbg
      obtain ⟨pre, post, hbsplit, hsetsplit, hprene⟩ := bucketsSet_split b2 hget2
      have q3' : (pre ++ b :: post).Pairwise
          (fun x y => Better isBuy x.bucketID y.bucketID) := hbsplit ▸ q3
      have hpw2 : (pre ++ b2 :: post).Pairwise
          (fun x y => Better isBuy x.bucketID y.bucketID) :=
        pairwise_replace_same_id q3' hb2id
      have hnd2 : ((pre ++ b2 :: post).map Bucket.bucketID).Nodup := bucket_ids_nodup hpw2
      have hb2mem : b2 ∈ pre ++ b2 :: post :=
        List.mem_append_right _ (List.mem_cons_self _ _)
      have hget3 : bucketsGet (pre ++ b2 :: post) b2.bucketID = some b2 :=
        bucketsGet_mem hnd2 hb2mem
      have hbwfall : ∀ bb ∈ pre ++ b2 :: post,
          BucketWF (heapSet h oid { o with listElement := true }) isBuy none bb := by
        intro bb hbb
        rcases List.mem_append.mp hbb with hbb' | hbb'
        · have hmem' : bb ∈ t.buckets := by
            rw [hbsplit]; exact List.mem_append_left _ hbb'
          exact BucketWF_congr (hcongrAll bb hmem') (q4 bb hmem')
        · rcases List.mem_cons.mp hbb' with rfl | hbb''
          · exact hbwf2
          · have hmem' : bb ∈ t.buckets := by
              rw [hbsplit]
              exact List.mem_append_right _ (List.mem_cons_of_mem _ hbb'')
            exact BucketWF_congr (hcongrAll bb hmem') (q4 bb hmem')
      have hidsperm : ((pre ++ b2 :: post).flatMap
            (fun bb => bb.chain.flatMap PriceLevel.orders)).Perm
          (oid :: (pre ++ b :: post).flatMap
            (fun bb => bb.chain.flatMap PriceLevel.orders)) := by
        simp only [List.flatMap_append, List.flatMap_cons]
        exact perm_flat_replace _ _ _ _ _ hperm2
      have hglvl : ∀ tX : ShardedPriceTree, tX.buckets = pre ++ b2 :: post →
          tX.bucketSize = t.bucketSize →
          ∃ L2, ShardedPriceTreeAdapter.getLevel tX o.price = some L2 ∧
            oid ∈ L2.orders := by
        intro tX htX1 htX2
        obtain ⟨L2, hL2f, hL2m⟩ := hlvl2
        refine ⟨L2, ?_, hL2m⟩
        have he1 : Int.tdiv o.price t.bucketSize = b2.bucketID := by
          rw [hb2id]; exact hbid.symm
        unfold ShardedPriceTreeAdapter.getLevel
        rw [htX1, htX2, he1]
        simp only [hget3, hmask, Bucket.findLevel, slotsGet_set_self]
        exact hL2f
      have hnb : ¬ (isBetterBucket t.isBuy (Int.tdiv o.price t.bucketSize)
          H.bucketID = true) := by
        intro hx
        rw [q1] at hx
        have hbet := isBetterBucket_iff.mp hx
        rw [← hbid] at hbet
        rcases List.mem_cons.mp hbmem with rfl | hbr
        · exact hbet.irrefl
        · rw [hbl, List.pairwise_cons] at q3
          exact (q3.1 b hbr).asymm hbet
      by_cases hbH : b = H
      · have heqid : Int.tdiv o.price t.bucketSize = H.bucketID := by
          rw [← hbH]; exact hbid.symm
        have hpre : pre = [] := by
          cases hpp : pre with
          | nil => rfl
          | cons P ps =>
            rw [hpp] at hbsplit
            rw [hbl] at hbsplit
            simp only [List.cons_append] at hbsplit
            injection hbsplit with hHP hrest
            refine absurd ?_ (hprene P (by rw [hpp]; exact List.mem_cons_self P ps))
            rw [← hHP, ← hbH, ← hb2id]
        subst hpre
        have hsetsplit2 : bucketsSet b2 t.buckets = b2 :: post := by
          rw [hsetsplit]; simp
        refine ⟨?_, ?_, ?_, ?_⟩
        · simp only [ShardedPriceTreeAdapter.insert, hg, hbg, hsg0]
        · simp only [ShardedPriceTreeAdapter.insert, Bucket.insert, hg, hbg, hsg0, q5]
          rw [if_neg hnb, if_pos heqid]
          rw [← hb2def, hputeq, hsetsplit2]
          refine ⟨q1, q2, ?_, ?_, ?_, ?_⟩
          · have := hpw2
            simpa using this
          · intro bb hbb
            refine hbwfall bb ?_
            simpa using hbb
          · simp only [List.head?_cons, Option.map_some']
            rw [hb2id, hbH]
          · simp only [List.head?_cons, Option.some_bind]
        · simp only [ShardedPriceTreeAdapter.insert, Bucket.insert, hg, hbg, hsg0, q5]
          rw [if_neg hnb, if_pos heqid]
          rw [← hb2def, hputeq, hsetsplit2]
          show ((b2 :: post).flatMap (fun bb => bb.chain.flatMap PriceLevel.orders)).Perm
            (oid :: treeIds t)
          have hrhs : treeIds t = ([] ++ b :: post).flatMap
              (fun bb => bb.chain.flatMap PriceLevel.orders) := by
            unfold treeIds
            rw [hbsplit]
          rw [hrhs]
          simpa using hidsperm
        · simp only [ShardedPriceTreeAdapter.insert, Bucket.insert, hg, hbg, hsg0, q5]
          rw [if_neg hnb, if_pos heqid]
          refine hglvl _ ?_ rfl
          show bucketsPut t.isBuy _ t.buckets = [] ++ b2 :: post
          rw [← hb2def, hputeq, hsetsplit]
      · have hbr : b ∈ rest := by
          rcases List.mem_cons.mp hbmem with h' | h'
          · exact absurd h' hbH
          · exact h'
        have hneid : ¬ (Int.tdiv o.price t.bucketSize = H.bucketID) := by
          intro he
          have hideq : b.bucketID = H.bucketID := by rw [hbid, he]
          rw [hbl, List.map_cons, List.nodup_cons] at hbnd
          exact hbnd.1 (List.mem_map.mpr ⟨b, hbr, hideq⟩)
        obtain ⟨ps, hps⟩ : ∃ ps, pre = H :: ps := by
          cases hpp : pre with
          | nil =>
            rw [hpp] at hbsplit
            rw [hbl] at hbsplit
            simp only [List.nil_append] at hbsplit
            injection hbsplit with hHb hrest
            exact absurd hHb.symm hbH
          | cons P ps =>
            rw [hpp] at hbsplit
            rw [hbl] at hbsplit
            simp only [List.cons_append] at hbsplit
            injection hbsplit with hHP hrest
            exact ⟨ps, by rw [hHP]⟩
        refine ⟨?_, ?_, ?_, ?_⟩
        · simp only [ShardedPriceTreeAdapter.insert, hg, hbg, hsg0]
        · simp only [ShardedPriceTreeAdapter.insert, Bucket.insert, hg, hbg, hsg0, q5]
          rw [if_neg hnb, if_neg hneid]
          rw [← hb2def, hputeq, hsetsplit]
          refine ⟨q1, q2, hpw2, hbwfall, ?_, ?_⟩
          · rw [hps]
            simp only [List.cons_append, List.head?_cons, Option.map_some']
          · rw [hps, q6]
            simp only [List.cons_append, List.head?_cons, Option.some_bind]
        · simp only [ShardedPriceTreeAdapter.insert, Bucket.insert, hg, hbg, hsg0, q5]
          rw [if_neg hnb, if_neg hneid]
          rw [← hb2def, hputeq, hsetsplit]
          show ((pre ++ b2 :: post).flatMap
              (fun bb => bb.chain.flatMap PriceLevel.orders)).Perm (oid :: treeIds t)
          have hrhs : treeIds t = (pre ++ b :: post).flatMap
              (fun bb => bb.chain.flatMap PriceLevel.orders) := by
            unfold treeIds
            rw [hbsplit]
          rw [hrhs]
          exact hidsperm
        · simp only [ShardedPriceTreeAdapter.insert, Bucket.insert, hg, hbg, hsg0, q5]
          rw [if_neg hnb, if_neg hneid]
          refine hglvl _ ?_ rfl
          show bucketsPut t.isBuy _ t.buckets = pre ++ b2 :: post
          rw [← hb2def, hputeq, hsetsplit]
  | none =>
    -- fresh bucket: NewBucket, a singleton level, then the best update
    set fL : PriceLevel := { price := o.price, orders := [oid], volume := o.remainingQuantity } with hfLdef
    set b2 : Bucket := { bucketID := Int.tdiv o.price 128, slots := [(int64And o.price 127, o.price)], chain := [fL], size := 1, isBuy := isBuy, bucketSize := 128, bucketMask := 127 } with hb2def
    have hbg2 : bucketsGet t.buckets (Int.tdiv o.price 128) = none := by
      rw [← q2]; exact hbg
    have hm128 : (128 : Int) - 1 = 127 := by norm_num
    have hgo : getOrder (heapSet h oid { o with listElement := true }) oid
        = { o with listElement := true } := by
      simp [getOrder, heapGet_set_self]
    have hors : OrderRestingS true (heapSet h oid { o with listElement := true })
        isBuy o.price oid := by
      refine ⟨?_, ?_, ?_, ?_, ?_, ?_, ?_, ?_⟩
      · rw [heapGet_set_self]; rfl
      · rw [hgo]
      · rw [hgo]; exact hside
      · rw [hgo]; exact hlim
      · rw [hgo]
      · rw [hgo]; exact hf0
      · rw [hgo]; exact hf1
      · rw [hgo]; exact hstatus
    have hlwf : LevelWFx (heapSet h oid { o with listElement := true }) isBuy none fL := by
      refine ⟨by simp [hfLdef], by simp [hfLdef], ?_, ?_⟩
      · rw [hfLdef]
        show sumRemaining _ [oid] ≤ o.remainingQuantity
        unfold sumRemaining
        simp [hgo, Order.remainingQuantity]
      · intro z hz
        have hz' : z = oid := by rw [hfLdef] at hz; simpa using hz
        subst hz'
        have hp : fL.price = o.price := by rw [hfLdef]
        rw [hp]
        exact hors
    have hb2wf : BucketWF (heapSet h oid { o with listElement := true }) isBuy none b2 := by
      refine ⟨rfl, rfl, rfl, by simp [hb2def], by simp [hb2def], by simp [hb2def], ?_, ?_, ?_, by simp [hb2def]⟩
      · intro L hL
        have hL' : L = fL := by rw [hb2def] at hL; simpa using hL
        subst hL'
        refine ⟨by rw [hfLdef]; exact hpos, by rw [hfLdef, hb2def], hlwf⟩
      · intro ip hip
        have hip' : ip = (int64And o.price 127, o.price) := by
          rw [hb2def] at hip; simpa using hip
        subst hip'
        exact ⟨rfl, by simp [hb2def, hfLdef]⟩
      · intro L hL
        have hL' : L = fL := by rw [hb2def] at hL; simpa using hL
        subst hL'
        simp [hb2def, hfLdef]
    have hBfresh2 : b2.bucketID ∉ t.buckets.map Bucket.bucketID := by
      have h0 := (bucketsGet_none_iff _ _).mp hbg
      rw [q2] at h0
      exact h0
    have hput_pw : (bucketsPut isBuy b2 t.buckets).Pairwise
        (fun x y => Better isBuy x.bucketID y.bucketID) :=
      bucketsPut_fresh_pairwise q3 hBfresh2
    have hput_perm : (bucketsPut isBuy b2 t.buckets).Perm (b2 :: t.buckets) :=
      bucketsPut_fresh_perm isBuy b2 t.buckets hBfresh2
    have hput_head := bucketsPut_fresh_head isBuy b2 t.buckets hBfresh2
    have hput_wfall : ∀ bb ∈ bucketsPut isBuy b2 t.buckets,
        BucketWF (heapSet h oid { o with listElement := true }) isBuy none bb := by
      intro bb hbb
      rcases List.mem_cons.mp (hput_perm.mem_iff.mp hbb) with rfl | hmem
      · exact hb2wf
      · exact BucketWF_congr (hcongrAll bb hmem) (q4 bb hmem)
    have hids : ((bucketsPut isBuy b2 t.buckets).flatMap
          (fun bb => bb.chain.flatMap PriceLevel.orders)).Perm (oid :: treeIds t) := by
      have h1 : ((bucketsPut isBuy b2 t.buckets).flatMap
            (fun bb => bb.chain.flatMap PriceLevel.orders)).Perm
          ((b2 :: t.buckets).flatMap (fun bb => bb.chain.flatMap PriceLevel.orders)) :=
        List.Perm.flatMap_right _ hput_perm
      refine h1.trans ?_
      have h2 : b2.chain.flatMap PriceLevel.orders = [oid] := by simp [hb2def, hfLdef]
      simp only [List.flatMap_cons, h2, treeIds]
      exact List.Perm.refl _
    have hglvlC : ∀ tX : ShardedPriceTree, tX.buckets = bucketsPut isBuy b2 t.buckets →
        tX.bucketSize = t.bucketSize →
        ∃ L2, ShardedPriceTreeAdapter.getLevel tX o.price = some L2 ∧ oid ∈ L2.orders := by
      intro tX htX1 htX2
      refine ⟨fL, ?_, by simp [hfLdef]⟩
      have hget3 : bucketsGet (bucketsPut isBuy b2 t.buckets) b2.bucketID = some b2 :=
        bucketsGet_mem (bucket_ids_nodup hput_pw)
          (hput_perm.mem_iff.mpr (List.mem_cons_self _ _))
      have he1 : Int.tdiv o.price t.bucketSize = b2.bucketID := by rw [q2, hb2def]
      unfold ShardedPriceTreeAdapter.getLevel
      rw [htX1, htX2, he1]
      simp only [hget3]
      simp [hb2def, hfLdef, slotsGet, Bucket.findLevel, chainFind]
    cases hbl : t.buckets with
    | nil =>
      have q5' : t.bestBucket = none := by rw [q5, hbl]; rfl
      refine ⟨?_, ?_, ?_, ?_⟩
      · simp only [ShardedPriceTreeAdapter.insert, hg, hbg]
      · simp only [ShardedPriceTreeAdapter.insert, hg, hbg, NewBucket, Bucket.insert, slotsGet, slotsSet, chainInsert, chainModify, q1, q2, hbg2, hm128, eq_self_iff_true, if_true, List.nil_append, zero_add, q5', hbl, bucketsGet, bucketsPut]
        rw [← hfLdef, ← hb2def]
        refine ⟨rfl, rfl, ?_, ?_, ?_, ?_⟩
        · simp
        · intro bb hbb
          have hbb' : bb = b2 := by simpa using hbb
          subst hbb'
          exact hb2wf
        · simp [hb2def]
        · simp [hb2def, hfLdef]
      · simp only [ShardedPriceTreeAdapter.insert, hg, hbg, NewBucket, Bucket.insert, slotsGet, slotsSet, chainInsert, chainModify, q1, q2, hbg2, hm128, eq_self_iff_true, if_true, List.nil_append, zero_add, q5']
        rw [← hfLdef, ← hb2def]
        show ((bucketsPut isBuy b2 t.buckets).flatMap
            (fun bb => bb.chain.flatMap PriceLevel.orders)).Perm (oid :: treeIds t)
        exact hids
      · simp only [ShardedPriceTreeAdapter.insert, hg, hbg, NewBucket, Bucket.insert, slotsGet, slotsSet, chainInsert, chainModify, q1, q2, hbg2, hm128, eq_self_iff_true, if_true, List.nil_append, zero_add, q5']
        rw [← hfLdef, ← hb2def]
        exact hglvlC _ rfl q2.symm
    | cons H rest =>
      have q5' : t.bestBucket = some H.bucketID := by rw [q5, hbl]; rfl
      have q6' : t.bestPrice = Option.map PriceLevel.price H.chain.head? := by
        rw [q6, hbl]; rfl
      have hneH : ¬ (Int.tdiv o.price 128 = H.bucketID) := by
        intro he
        have hm : H.bucketID ∈ t.buckets.map Bucket.bucketID := by
          rw [hbl]; exact List.mem_map.mpr ⟨H, List.mem_cons_self _ _, rfl⟩
        rw [← he] at hm
        exact hBfresh2 hm
      by_cases hbb : isBetterBucket isBuy (Int.tdiv o.price 128) H.bucketID = true
      · have hbb2 : isBetterBucket isBuy b2.bucketID H.bucketID = true := hbb
        have hhead : (bucketsPut isBuy b2 t.buckets).head? = some b2 := by
          rw [hput_head, hbl]
          simp only [List.head?_cons]
          rw [if_pos hbb2]
        refine ⟨?_, ?_, ?_, ?_⟩
        · simp only [ShardedPriceTreeAdapter.insert, hg, hbg]
        · simp only [ShardedPriceTreeAdapter.insert, hg, hbg, NewBucket, Bucket.insert, slotsGet, slotsSet, chainInsert, chainModify, q1, q2, hbg2, hm128, eq_self_iff_true, if_true, List.nil_append, zero_add, q5']
          rw [if_pos hbb]
          rw [← hfLdef, ← hb2def]
          refine ⟨rfl, rfl, hput_pw, hput_wfall, ?_, ?_⟩
          · show some (Int.tdiv o.price 128)
                = Option.map Bucket.bucketID (bucketsPut isBuy b2 t.buckets).head?
            rw [hhead]
            rfl
          · show Option.map (fun L => L.price) (List.head? [fL])
                = ((bucketsPut isBuy b2 t.buckets).head?).bind
                  (fun b => Option.map PriceLevel.price b.chain.head?)
            rw [hhead]
            simp [hb2def, hfLdef]
        · simp only [ShardedPriceTreeAdapter.insert, hg, hbg, NewBucket, Bucket.insert, slotsGet, slotsSet, chainInsert, chainModify, q1, q2, hbg2, hm128, eq_self_iff_true, if_true, List.nil_append, zero_add, q5']
          rw [if_pos hbb]
          rw [← hfLdef, ← hb2def]
          show ((bucketsPut isBuy b2 t.buckets).flatMap
              (fun bb => bb.chain.flatMap PriceLevel.orders)).Perm (oid :: treeIds t)
          exact hids
        · simp only [ShardedPriceTreeAdapter.insert, hg, hbg, NewBucket, Bucket.insert, slotsGet, slotsSet, chainInsert, chainModify, q1, q2, hbg2, hm128, eq_self_iff_true, if_true, List.nil_append, zero_add, q5']
          rw [if_pos hbb]
          rw [← hfLdef, ← hb2def]
          exact hglvlC _ rfl q2.symm
      · have hbb2 : ¬ (isBetterBucket isBuy b2.bucketID H.bucketID = true) := hbb
        have hhead : (bucketsPut isBuy b2 t.buckets).head? = some H := by
          rw [hput_head, hbl]
          simp only [List.head?_cons]
          rw [if_neg hbb2]
        refine ⟨?_, ?_, ?_, ?_⟩
        · simp only [ShardedPriceTreeAdapter.insert, hg, hbg]
        · simp only [ShardedPriceTreeAdapter.insert, hg, hbg, NewBucket, Bucket.insert, slotsGet, slotsSet, chainInsert, chainModify, q1, q2, hbg2, hm128, eq_self_iff_true, if_true, List.nil_append, zero_add, q5', q6']
          rw [if_neg hbb, if_neg hneH]
          rw [← hfLdef, ← hb2def]
          refine ⟨rfl, rfl, hput_pw, hput_wfall, ?_, ?_⟩
          · show some H.bucketID
                = Option.map Bucket.bucketID (bucketsPut isBuy b2 t.buckets).head?
            rw [hhead]
            rfl
          · show Option.map PriceLevel.price H.chain.head?
                = ((bucketsPut isBuy b2 t.buckets).head?).bind
                  (fun b => Option.map PriceLevel.price b.chain.head?)
            rw [hhead]
            simp only [Option.some_bind]
        · simp only [ShardedPriceTreeAdapter.insert, hg, hbg, NewBucket, Bucket.insert, slotsGet, slotsSet, chainInsert, chainModify, q1, q2, hbg2, hm128, eq_self_iff_true, if_true, List.nil_append, zero_add, q5']
          rw [if_neg hbb, if_neg hneH]
          rw [← hfLdef, ← hb2def]
          show ((bucketsPut isBuy b2 t.buckets).flatMap
              (fun bb => bb.chain.flatMap PriceLevel.orders)).Perm (oid :: treeIds t)
          exact hids
        · simp only [ShardedPriceTreeAdapter.insert, hg, hbg, NewBucket, Bucket.insert, slotsGet, slotsSet, chainInsert, chainModify, q1, q2, hbg2, hm128, eq_self_iff_true, if_true, List.nil_append, zero_add, q5']
          rw [if_neg hbb, if_neg hneH]
          rw [← hfLdef, ← hb2def]
          exact hglvlC _ rfl q2.symm

theorem bucket_flat_nodup {h : Heap} {isBuy : Bool} {x : Option String} {b : Bucket}
    (hb : BucketWF h isBuy x b) : (b.chain.flatMap PriceLevel.orders).Nodup := by
  obtain ⟨w1, w2, w3, w4, w5, w6, w7, w8, w9, w10⟩ := hb
  rw [List.nodup_flatMap]
  constructor
  · intro L hL
    exact ((w7 L hL).2.2).2.1
  · refine List.Pairwise.imp_of_mem ?_ w6
    intro L M hL hM hLM z hzL hzM
    have h1 := ((w7 L hL).2.2).2.2.2 z hzL
    have h2 := ((w7 M hM).2.2).2.2.2 z hzM
    have hp : L.price = M.price := by rw [← h1.2.1, h2.2.1]
    rw [hp] at hLM
    exact hLM.irrefl

theorem treeIds_nodup {h : Heap} {isBuy : Bool} {x : Option String}
    {t : ShardedPriceTree} (hw : TreeWF h isBuy x t) : (treeIds t).Nodup := by
  obtain ⟨q1, q2, q3, q4, q5, q6⟩ := hw
  unfold treeIds
  rw [List.nodup_flatMap]
  constructor
  · intro b hb
    exact bucket_flat_nodup (q4 b hb)
  · refine List.Pairwise.imp_of_mem ?_ q3
    intro a b ha hb hab z hza hzb
    obtain ⟨L, hL, hzL⟩ := List.mem_flatMap.mp hza
    obtain ⟨M, hM, hzM⟩ := List.mem_flatMap.mp hzb
    obtain ⟨u1, u2, u3⟩ := ((q4 a ha).2.2.2.2.2.2.1) L hL
    obtain ⟨v1, v2, v3⟩ := ((q4 b hb).2.2.2.2.2.2.1) M hM
    have h1 := (u3.2.2.2 z hzL).2.1
    have h2 := (v3.2.2.2 z hzM).2.1
    have hp : L.price = M.price := by rw [← h1, h2]
    have hid : a.bucketID = b.bucketID := by rw [← u2, ← v2, hp]
    rw [hid] at hab
    exact hab.irrefl

theorem rest_not_mem {h : Heap} {ib : Bool} {tr : ShardedPriceTree} {oid : String}
    {o : Order} (htw : TreeWF h ib none tr) (hg : heapGet h oid = some o)
    (hle : o.listElement = false) : oid ∉ treeIds tr := by
  intro hmm
  obtain ⟨b, hb, hzb⟩ := List.mem_flatMap.mp hmm
  obtain ⟨L, hL, hzL⟩ := List.mem_flatMap.mp hzb
  obtain ⟨u1, u2, u3⟩ := (htw.2.2.2.1 b hb).2.2.2.2.2.2.1 L hL
  have hv := (u3.2.2.2 oid hzL).2.2.2.2.1
  have hgo : getOrder h oid = o := by unfold getOrder; rw [hg]; rfl
  rw [hgo] at hv
  rw [hle] at hv
  exact Bool.false_ne_true hv

theorem addOrder_spec {h : Heap} {ob : OrderBook} {oid : String} {o : Order}
    (hH : HeapWF h)
    (hB : BookWF h none ob)
    (hg : heapGet h oid = some o)
    (hle : o.listElement = false)
    (hlim : o.otype = OrderType.Limit)
    (hpos : 0 < o.price)
    (hf0 : 0 ≤ o.filled) (hf1 : o.filled < o.quantity)
    (hstatus : o.status = OrderStatus.Pending ∨ o.status = OrderStatus.PartialFilled) :
    (OrderBook.addOrder h ob oid).1 = heapSet h oid { o with listElement := true } ∧
    HeapWF (OrderBook.addOrder h ob oid).1 ∧
    BookWF (OrderBook.addOrder h ob oid).1 none (OrderBook.addOrder h ob oid).2 ∧
    (bookIds (OrderBook.addOrder h ob oid).2).Perm (oid :: bookIds ob) ∧
    (∃ L2, (if o.side = Side.Buy
        then ShardedPriceTreeAdapter.getLevel (OrderBook.addOrder h ob oid).2.bids o.price
        else ShardedPriceTreeAdapter.getLevel (OrderBook.addOrder h ob oid).2.asks o.price)
      = some L2 ∧ oid ∈ L2.orders) := by
  obtain ⟨hbids, hasks, hbnd, hond, hcorr1, hcorr2⟩ := hB
  have hfreshB : oid ∉ treeIds ob.bids := rest_not_mem hbids hg hle
  have hfreshA : oid ∉ treeIds ob.asks := rest_not_mem hasks hg hle
  have hnotbook : oid ∉ bookIds ob := by
    intro hmm
    rcases List.mem_append.mp hmm with h' | h'
    · exact hfreshB h'
    · exact hfreshA h'
  have hnotord : oid ∉ ob.orders := fun hmm => hnotbook (hcorr1 oid hmm)
  have hreg : mapRegister ob.orders oid = oid :: ob.orders := by
    unfold mapRegister
    simp [hnotord]
  have hHout : HeapWF (heapSet h oid { o with listElement := true }) := by
    refine HeapWF_set hH ?_ ?_
    · exact (HeapWF_get hH hg).1
    · intro hs
      rcases hstatus with h' | h' <;> rw [h'] at hs <;> exact absurd hs (by decide)
  by_cases hsd : o.side = Side.Buy
  · obtain ⟨hI1, hI2, hI3, hI4⟩ := @adapterInsert_spec _ true _ _ _ hbids hg hpos
      (by rw [hsd]; rfl) hlim hf0 hf1 hstatus hfreshB
    have hasks2 : TreeWF (heapSet h oid { o with listElement := true }) false none ob.asks :=
      TreeWF_congr (fun z hz => heapGet_set_ne h _ (fun he => hfreshA (he ▸ hz))) hasks
    refine ⟨?_, ?_, ?_, ?_, ?_⟩
    · simp only [OrderBook.addOrder, hg]
      rw [if_pos hsd]
      exact hI1
    · simp only [OrderBook.addOrder, hg]
      rw [if_pos hsd, hI1]
      exact hHout
    · simp only [OrderBook.addOrder, hg]
      rw [if_pos hsd, hI1]
      refine ⟨hI2, hasks2, ?_, ?_, ?_, ?_⟩
      · show ((treeIds (ShardedPriceTreeAdapter.insert h ob.bids oid).2)
            ++ treeIds ob.asks).Nodup
        refine ((hI3.append_right (treeIds ob.asks)).nodup_iff).mpr ?_
        show (oid :: (treeIds ob.bids ++ treeIds ob.asks)).Nodup
        exact List.nodup_cons.mpr ⟨hnotbook, hbnd⟩
      · show (mapRegister ob.orders oid).Nodup
        rw [hreg]
        exact List.nodup_cons.mpr ⟨hnotord, hond⟩
      · intro z hz
        rw [hreg] at hz
        show z ∈ treeIds (ShardedPriceTreeAdapter.insert h ob.bids oid).2 ++ treeIds ob.asks
        have hiff := (hI3.append_right (treeIds ob.asks)).mem_iff (a := z)
        rcases List.mem_cons.mp hz with rfl | hz'
        · exact hiff.mpr (List.mem_cons_self _ _)
        · exact hiff.mpr (List.mem_cons_of_mem _ (hcorr1 z hz'))
      · intro z hz
        rw [hreg]
        have hiff := (hI3.append_right (treeIds ob.asks)).mem_iff (a := z)
        have hz2 := hiff.mp hz
        rcases List.mem_cons.mp hz2 with rfl | hz'
        · exact List.mem_cons_self _ _
        · exact List.mem_cons_of_mem _ (hcorr2 z hz')
    · simp only [OrderBook.addOrder, hg]
      rw [if_pos hsd]
      show ((treeIds (ShardedPriceTreeAdapter.insert h ob.bids oid).2)
          ++ treeIds ob.asks).Perm (oid :: bookIds ob)
      exact (hI3.append_right (treeIds ob.asks)).trans (List.Perm.refl _)
    · rw [if_pos hsd]
      simp only [OrderBook.addOrder, hg]
      rw [if_pos hsd]
      exact hI4
  · have hsell : o.side = Side.Sell := by
      cases hv : o.side
      · exact absurd hv hsd
      · rfl
    obtain ⟨hI1, hI2, hI3, hI4⟩ := @adapterInsert_spec _ false _ _ _ hasks hg hpos
      (by rw [hsell]; rfl) hlim hf0 hf1 hstatus hfreshA
    have hbids2 : TreeWF (heapSet h oid { o with listElement := true }) true none ob.bids :=
      TreeWF_congr (fun z hz => heapGet_set_ne h _ (fun he => hfreshB (he ▸ hz))) hbids
    have hpermA : (treeIds ob.bids
          ++ treeIds (ShardedPriceTreeAdapter.insert h ob.asks oid).2).Perm
        (oid :: bookIds ob) := by
      refine ((hI3.append_left (treeIds ob.bids)).trans ?_)
      show (treeIds ob.bids ++ (oid :: treeIds ob.asks)).Perm (oid :: bookIds ob)
      unfold bookIds
      exact List.perm_middle
    refine ⟨?_, ?_, ?_, ?_, ?_⟩
    · simp only [OrderBook.addOrder, hg]
      rw [if_neg hsd]
      exact hI1
    · simp only [OrderBook.addOrder, hg]
      rw [if_neg hsd, hI1]
      exact hHout
    · simp only [OrderBook.addOrder, hg]
      rw [if_neg hsd, hI1]
      refine ⟨hbids2, hI2, ?_, ?_, ?_, ?_⟩
      · show (treeIds ob.bids
            ++ treeIds (ShardedPriceTreeAdapter.insert h ob.asks oid).2).Nodup
        refine (hpermA.nodup_iff).mpr ?_
        exact List.nodup_cons.mpr ⟨hnotbook, hbnd⟩
      · show (mapRegister ob.orders oid).Nodup
        rw [hreg]
        exact List.nodup_cons.mpr ⟨hnotord, hond⟩
      · intro z hz
        rw [hreg] at hz
        have hiff := hpermA.mem_iff (a := z)
        rcases List.mem_cons.mp hz with rfl | hz'
        · exact hiff.mpr (List.mem_cons_self _ _)
        · exact hiff.mpr (List.mem_cons_of_mem _ (hcorr1 z hz'))
      · intro z hz
        rw [hreg]
        have hiff := hpermA.mem_iff (a := z)
        have hz2 := hiff.mp hz
        rcases List.mem_cons.mp hz2 with rfl | hz'
        · exact List.mem_cons_self _ _
        · exact List.mem_cons_of_mem _ (hcorr2 z hz')
    · simp only [OrderBook.addOrder, hg]
      rw [if_neg hsd]
      exact hpermA
    · rw [if_neg hsd]
      simp only [OrderBook.addOrder, hg]
      rw [if_neg hsd]
      exact hI4

theorem TreeWF_drop_x {h : Heap} {isBuy : Bool} {x : Option String}
    {t : ShardedPriceTree} (hw : TreeWF h isBuy x t)
    (habs : ∀ z ∈ treeIds t, x ≠ some z) : TreeWF h isBuy none t := by
  obtain ⟨q1, q2, q3, q4, q5, q6⟩ := hw
  refine ⟨q1, q2, q3, fun b hb => ?_, q5, q6⟩
  refine BucketWF_drop_x (q4 b hb) ?_
  intro z hz
  exact habs z (List.mem_flatMap.mpr ⟨b, hb, hz⟩)

theorem cancelOrder_noop {h : Heap} {ob : OrderBook} {oid : String}
    (hc : oid ∉ ob.orders) : OrderBook.cancelOrder h ob oid = (h, ob) := by
  have hcq : ob.orders.contains oid = false := by simp [hc]
  unfold OrderBook.cancelOrder
  rw [hcq]
  simp

theorem cancelOrder_spec {h : Heap} {ob : OrderBook} {oid : String} {x : Option String}
    (hH : HeapWF h)
    (hB : BookWF h x ob)
    (hx : x = none ∨ x = some oid)
    (hc : oid ∈ ob.orders) :
    HeapWF (OrderBook.cancelOrder h ob oid).1 ∧
    BookWF (OrderBook.cancelOrder h ob oid).1 none (OrderBook.cancelOrder h ob oid).2 ∧
    (oid :: bookIds (OrderBook.cancelOrder h ob oid).2).Perm (bookIds ob) ∧
    (getOrder (OrderBook.cancelOrder h ob oid).1 oid).status = OrderStatus.Cancelled ∧
    (∀ z, z ≠ oid → heapGet (OrderBook.cancelOrder h ob oid).1 z = heapGet h z) := by
  obtain ⟨hbids, hasks, hbnd, hond, hcorr1, hcorr2⟩ := hB
  have hcq : ob.orders.contains oid = true := by simp [hc]
  have hbook : oid ∈ bookIds ob := hcorr1 oid hc
  have hnodB : (treeIds ob.bids).Nodup := treeIds_nodup hbids
  have hnodA : (treeIds ob.asks).Nodup := treeIds_nodup hasks
  rcases List.mem_append.mp hbook with hmemB | hmemA
  · -- resting on the bid side
    obtain ⟨b, hb, hzb⟩ := List.mem_flatMap.mp hmemB
    obtain ⟨L, hL, hzL⟩ := List.mem_flatMap.mp hzb
    obtain ⟨u1, u2, u3⟩ := (hbids.2.2.2.1 b hb).2.2.2.2.2.2.1 L hL
    have hors := u3.2.2.2 oid hzL
    have hgs : (heapGet h oid).isSome = true := hors.1
    obtain ⟨o, hg⟩ := Option.isSome_iff_exists.mp hgs
    have hgo : getOrder h oid = o := by unfold getOrder; rw [hg]; rfl
    have hle : o.listElement = true := by
      have hv := hors.2.2.2.2.1
      rw [hgo] at hv
      exact hv
    have hsd : o.side = Side.Buy := by
      have hv := hors.2.2.1
      rw [hgo] at hv
      simpa using hv
    have hnotA : oid ∉ treeIds ob.asks := by
      intro hmm
      obtain ⟨b2, hb2, hz2⟩ := List.mem_flatMap.mp hmm
      obtain ⟨M, hM, hzM⟩ := List.mem_flatMap.mp hz2
      obtain ⟨v1, v2, v3⟩ := (hasks.2.2.2.1 b2 hb2).2.2.2.2.2.2.1 M hM
      have hv := (v3.2.2.2 oid hzM).2.2.1
      rw [hgo, hsd] at hv
      simp at hv
    obtain ⟨hR1, hR2, hR3⟩ := adapterRemove_spec hbids hg hle hmemB hx
    have hnotB2 : oid ∉ treeIds (ShardedPriceTreeAdapter.remove h ob.bids oid).2 := by
      have hnd2 : (oid :: treeIds (ShardedPriceTreeAdapter.remove h ob.bids oid).2).Nodup :=
        (hR3.nodup_iff).mpr hnodB
      exact (List.nodup_cons.mp hnd2).1
    have hasksx : TreeWF h false none ob.asks := by
      refine TreeWF_drop_x hasks ?_
      intro z hz he
      rcases hx with rfl | rfl
      · exact Option.noConfusion he
      · have hz' : oid = z := Option.some_injective _ he
        subst hz'
        exact hnotA hz
    have hfin : HeapWF (heapSet (heapSet h oid { o with listElement := false }) oid
        ({ o with listElement := false } : Order).cancel) := by
      refine HeapWF_set ?_ ?_ ?_
      · refine HeapWF_set hH ?_ ?_
        · exact (HeapWF_get hH hg).1
        · intro hs
          exact (HeapWF_get hH hg).2 hs
      · exact (HeapWF_get hH hg).1
      · intro hs
        exact absurd hs (by simp [Order.cancel])
    have hcongr2 : ∀ z, z ≠ oid →
        heapGet (heapSet (heapSet h oid { o with listElement := false }) oid
          ({ o with listElement := false } : Order).cancel) z = heapGet h z := by
      intro z hz
      rw [heapGet_set_ne _ _ hz, heapGet_set_ne _ _ hz]
    refine ⟨?_, ?_, ?_, ?_, ?_⟩
    · simp only [OrderBook.cancelOrder, hcq, eq_self_iff_true, if_true, hg]
      rw [if_pos hsd]
      simp only [hR1, heapGet_set_self]
      exact hfin
    · simp only [OrderBook.cancelOrder, hcq, eq_self_iff_true, if_true, hg]
      rw [if_pos hsd]
      simp only [hR1, heapGet_set_self]
      refine ⟨?_, ?_, ?_, ?_, ?_, ?_⟩
      · refine TreeWF_congr (fun z hz => ?_) hR2
        refine heapGet_set_ne _ _ (fun he => ?_)
        subst he
        exact hnotB2 hz
      · refine TreeWF_congr (fun z hz => hcongr2 z (fun he => ?_)) hasksx
        subst he
        exact hnotA hz
      · show ((treeIds (ShardedPriceTreeAdapter.remove h ob.bids oid).2)
            ++ treeIds ob.asks).Nodup
        have hperm := hR3.append_right (treeIds ob.asks)
        have hig : (bookIds ob).Nodup := hbnd
        have := (hperm.nodup_iff).mpr hig
        exact (List.nodup_cons.mp this).2
      · show (ob.orders.erase oid).Nodup
        exact hond.erase _
      · intro z hz
        have hz2 := (hond.mem_erase_iff).mp hz
        have hzb2 := hcorr1 z hz2.2
        show z ∈ treeIds (ShardedPriceTreeAdapter.remove h ob.bids oid).2
          ++ treeIds ob.asks
        have hperm := hR3.append_right (treeIds ob.asks)
        have hz3 : z ∈ oid :: (treeIds (ShardedPriceTreeAdapter.remove h ob.bids oid).2
            ++ treeIds ob.asks) := (hperm.mem_iff).mpr hzb2
        rcases List.mem_cons.mp hz3 with rfl | hz4
        · exact absurd rfl hz2.1
        · exact hz4
      · intro z hz
        have hperm := hR3.append_right (treeIds ob.asks)
        have hz2 : z ∈ bookIds ob := (hperm.mem_iff).mp (List.mem_cons_of_mem _ hz)
        have hz3 : z ∈ ob.orders := hcorr2 z hz2
        show z ∈ ob.orders.erase oid
        refine (hond.mem_erase_iff).mpr ⟨?_, hz3⟩
        intro he
        subst he
        have hig : (bookIds ob).Nodup := hbnd
        have hnd3 := (hperm.nodup_iff).mpr hig
        exact (List.nodup_cons.mp hnd3).1 hz
    · simp only [OrderBook.cancelOrder, hcq, eq_self_iff_true, if_true, hg]
      rw [if_pos hsd]
      simp only [hR1, heapGet_set_self]
      show (oid :: (treeIds (ShardedPriceTreeAdapter.remove h ob.bids oid).2
          ++ treeIds ob.asks)).Perm (bookIds ob)
      exact hR3.append_right (treeIds ob.asks)
    · simp only [OrderBook.cancelOrder, hcq, eq_self_iff_true, if_true, hg]
      rw [if_pos hsd]
      simp only [hR1, heapGet_set_self]
      show (getOrder (heapSet _ oid _) oid).status = _
      rw [getOrder_set_self]
      rfl
    · simp only [OrderBook.cancelOrder, hcq, eq_self_iff_true, if_true, hg]
      rw [if_pos hsd]
      simp only [hR1, heapGet_set_self]
      intro z hz
      exact hcongr2 z hz
  · -- resting on the ask side
    obtain ⟨b, hb, hzb⟩ := List.mem_flatMap.mp hmemA
    obtain ⟨L, hL, hzL⟩ := List.mem_flatMap.mp hzb
    obtain ⟨u1, u2, u3⟩ := (hasks.2.2.2.1 b hb).2.2.2.2.2.2.1 L hL
    have hors := u3.2.2.2 oid hzL
    have hgs : (heapGet h oid).isSome = true := hors.1
    obtain ⟨o, hg⟩ := Option.isSome_iff_exists.mp hgs
    have hgo : getOrder h oid = o := by unfold getOrder; rw [hg]; rfl
    have hle : o.listElement = true := by
      have hv := hors.2.2.2.2.1
      rw [hgo] at hv
      exact hv
    have hsd : o.side = Side.Sell := by
      have hv := hors.2.2.1
      rw [hgo] at hv
      simpa using hv
    have hsdne : ¬ (o.side = Side.Buy) := by
      rw [hsd]
      exact fun he => Side.noConfusion he
    have hnotB : oid ∉ treeIds ob.bids := by
      intro hmm
      obtain ⟨b2, hb2, hz2⟩ := List.mem_flatMap.mp hmm
      obtain ⟨M, hM, hzM⟩ := List.mem_flatMap.mp hz2
      obtain ⟨v1, v2, v3⟩ := (hbids.2.2.2.1 b2 hb2).2.2.2.2.2.2.1 M hM
      have hv := (v3.2.2.2 oid hzM).2.2.1
      rw [hgo, hsd] at hv
      simp at hv
    obtain ⟨hR1, hR2, hR3⟩ := adapterRemove_spec hasks hg hle hmemA hx
    have hnotA2 : oid ∉ treeIds (ShardedPriceTreeAdapter.remove h ob.asks oid).2 := by
      have hnd2 : (oid :: treeIds (ShardedPriceTreeAdapter.remove h ob.asks oid).2).Nodup :=
        (hR3.nodup_iff).mpr hnodA
      exact (List.nodup_cons.mp hnd2).1
    have hbidsx : TreeWF h true none ob.bids := by
      refine TreeWF_drop_x hbids ?_
      intro z hz he
      rcases hx with rfl | rfl
      · exact Option.noConfusion he
      · have hz' : oid = z := Option.some_injective _ he
        subst hz'
        exact hnotB hz
    have hfin : HeapWF (heapSet (heapSet h oid { o with listElement := false }) oid
        ({ o with listElement := false } : Order).cancel) := by
      refine HeapWF_set ?_ ?_ ?_
      · refine HeapWF_set hH ?_ ?_
        · exact (HeapWF_get hH hg).1
        · intro hs
          exact (HeapWF_get hH hg).2 hs
      · exact (HeapWF_get hH hg).1
      · intro hs
        exact absurd hs (by simp [Order.cancel])
    have hcongr2 : ∀ z, z ≠ oid →
        heapGet (heapSet (heapSet h oid { o with listElement := false }) oid
          ({ o with listElement := false } : Order).cancel) z = heapGet h z := by
      intro z hz
      rw [heapGet_set_ne _ _ hz, heapGet_set_ne _ _ hz]
    have hpermA : (oid :: (treeIds ob.bids
          ++ treeIds (ShardedPriceTreeAdapter.remove h ob.asks oid).2)).Perm
        (bookIds ob) := by
      refine List.Perm.trans ?_ (List.Perm.append_left (treeIds ob.bids) hR3)
      exact (List.perm_middle).symm
    refine ⟨?_, ?_, ?_, ?_, ?_⟩
    · simp only [OrderBook.cancelOrder, hcq, eq_self_iff_true, if_true, hg]
      rw [if_neg hsdne]
      simp only [hR1, heapGet_set_self]
      exact hfin
    · simp only [OrderBook.cancelOrder, hcq, eq_self_iff_true, if_true, hg]
      rw [if_neg hsdne]
      simp only [hR1, heapGet_set_self]
      refine ⟨?_, ?_, ?_, ?_, ?_, ?_⟩
      · refine TreeWF_congr (fun z hz => hcongr2 z (fun he => ?_)) hbidsx
        subst he
        exact hnotB hz
      · refine TreeWF_congr (fun z hz => ?_) hR2
        refine heapGet_set_ne _ _ (fun he => ?_)
        subst he
        exact hnotA2 hz
      · show (treeIds ob.bids
            ++ treeIds (ShardedPriceTreeAdapter.remove h ob.asks oid).2).Nodup
        have hig : (bookIds ob).Nodup := hbnd
        have := (hpermA.nodup_iff).mpr hig
        exact (List.nodup_cons.mp this).2
      · show (ob.orders.erase oid).Nodup
        exact hond.erase _
      · intro z hz
        have hz2 := (hond.mem_erase_iff).mp hz
        have hzb2 := hcorr1 z hz2.2
        show z ∈ treeIds ob.bids
          ++ treeIds (ShardedPriceTreeAdapter.remove h ob.asks oid).2
        have hz3 := (hpermA.mem_iff).mpr hzb2
        rcases List.mem_cons.mp hz3 with rfl | hz4
        · exact absurd rfl hz2.1
        · exact hz4
      · intro z hz
        have hz2 : z ∈ bookIds ob := (hpermA.mem_iff).mp (List.mem_cons_of_mem _ hz)
        have hz3 : z ∈ ob.orders := hcorr2 z hz2
        show z ∈ ob.orders.erase oid
        refine (hond.mem_erase_iff).mpr ⟨?_, hz3⟩
        intro he
        subst he
        have hnd3 := (hpermA.nodup_iff).mpr hbnd
        exact (List.nodup_cons.mp hnd3).1 hz
    · simp only [OrderBook.cancelOrder, hcq, eq_self_iff_true, if_true, hg]
      rw [if_neg hsdne]
      simp only [hR1, heapGet_set_self]
      show (oid :: (treeIds ob.bids
          ++ treeIds (ShardedPriceTreeAdapter.remove h ob.asks oid).2)).Perm (bookIds ob)
      exact hpermA
    · simp only [OrderBook.cancelOrder, hcq, eq_self_iff_true, if_true, hg]
      rw [if_neg hsdne]
      simp only [hR1, heapGet_set_self]
      show (getOrder (heapSet _ oid _) oid).status = _
      rw [getOrder_set_self]
      rfl
    · simp only [OrderBook.cancelOrder, hcq, eq_self_iff_true, if_true, hg]
      rw [if_neg hsdne]
      simp only [hR1, heapGet_set_self]
      intro z hz
      exact hcongr2 z hz

theorem engineCancel_spec {es : EngineState} {x : Option String} {oid : String}
    (hI : InvX es x) (hx : x = none ∨ x = some oid) :
    Inv (engineCancel es oid) ∧
    (∀ z, z ≠ oid → heapGet (engineCancel es oid).heap z = heapGet es.heap z) ∧
    (∀ z, z ∈ bookIds (engineCancel es oid).book → z ∈ bookIds es.book) := by
  obtain ⟨hH, hB⟩ := hI
  by_cases hc : oid ∈ es.book.orders
  · obtain ⟨c1, c2, c3, c4, c5⟩ := cancelOrder_spec hH hB hx hc
    refine ⟨⟨c1, c2⟩, ?_, ?_⟩
    · intro z hz
      exact c5 z hz
    · intro z hz
      exact (c3.mem_iff).mp (List.mem_cons_of_mem _ hz)
  · have hno := cancelOrder_noop (h := es.heap) hc
    have h1 : engineCancel es oid = es := by
      unfold engineCancel
      rw [hno]
    rw [h1]
    obtain ⟨hbids, hasks, hbnd2, hond, hc1, hc2⟩ := hB
    refine ⟨⟨hH, ?_, ?_, hbnd2, hond, hc1, hc2⟩, fun z _ => rfl, fun z hz => hz⟩
    · refine TreeWF_drop_x hbids ?_
      intro z hz he
      rcases hx with rfl | rfl
      · exact Option.noConfusion he
      · have hz' : oid = z := Option.some_injective _ he
        subst hz'
        exact hc (hc2 oid (List.mem_append_left _ hz))
    · refine TreeWF_drop_x hasks ?_
      intro z hz he
      rcases hx with rfl | rfl
      · exact Option.noConfusion he
      · have hz' : oid = z := Option.some_injective _ he
        subst hz'
        exact hc (hc2 oid (List.mem_append_right _ hz))

theorem getBestLevel_spec {h : Heap} {isBuy : Bool} {x : Option String}
    {t : ShardedPriceTree} (hw : TreeWF h isBuy x t) :
    (t.buckets = [] → ShardedPriceTreeAdapter.getBestLevel t = none ∧
      ShardedPriceTreeAdapter.getBestPrice t = 0) ∧
    (∀ H rest, t.buckets = H :: rest →
      ∃ L, ShardedPriceTreeAdapter.getBestLevel t = some L ∧
        H.chain.head? = some L ∧ L ∈ H.chain ∧
        ShardedPriceTreeAdapter.getBestPrice t = L.price ∧ 0 < L.price) := by
  obtain ⟨q1, q2, q3, q4, q5, q6⟩ := hw
  constructor
  · intro hnil
    rw [hnil] at q5 q6
    simp only [List.head?_nil, Option.map_none', Option.none_bind] at q5 q6
    constructor
    · unfold ShardedPriceTreeAdapter.getBestLevel
      rw [q6]
    · unfold ShardedPriceTreeAdapter.getBestPrice
      rw [q6]
  · intro H rest hbl
    rw [hbl] at q5 q6
    simp only [List.head?_cons, Option.map_some', Option.some_bind] at q5 q6
    have hHmem : H ∈ t.buckets := by rw [hbl]; exact List.mem_cons_self _ _
    have hbwf := q4 H hHmem
    have hchne : H.chain ≠ [] := hbwf.2.2.2.2.1
    obtain ⟨M, tl, hHC⟩ := List.exists_cons_of_ne_nil hchne
    · have hhead : H.chain.head? = some M := by rw [hHC]; rfl
      have hMmem : M ∈ H.chain := by rw [hHC]; exact List.mem_cons_self _ _
      have hbp : t.bestPrice = some M.price := by rw [q6, hhead]; rfl
      have hnd : (H.chain.map PriceLevel.price).Nodup :=
        chain_prices_nodup hbwf.2.2.2.2.2.1
      have hget : bucketsGet t.buckets H.bucketID = some H :=
        bucketsGet_mem (bucket_ids_nodup q3) hHmem
      have hfind : chainFind M.price H.chain = some M := chainFind_mem hnd hMmem
      refine ⟨M, ?_, hhead, hMmem, ?_, ?_⟩
      · unfold ShardedPriceTreeAdapter.getBestLevel
        rw [hbp, q5]
        simp only [hget, Option.some_bind]
        exact hfind
      · unfold ShardedPriceTreeAdapter.getBestPrice
        rw [hbp]
      · exact ((hbwf.2.2.2.2.2.2.1) M hMmem).1

theorem executeTrade_spec {es : EngineState} {buyOid sellOid : String} {price : Int}
    {bo so : Order}
    (hgb : heapGet es.heap buyOid = some bo)
    (hgs : heapGet es.heap sellOid = some so)
    (hne : buyOid ≠ sellOid) :
    (executeTrade es buyOid sellOid price).2.quantity
      = min bo.remainingQuantity so.remainingQuantity ∧
    (executeTrade es buyOid sellOid price).2.price = price ∧
    (executeTrade es buyOid sellOid price).2.id
      = "T" ++ toString (es.tradeSeq + 1) ∧
    heapGet (executeTrade es buyOid sellOid price).1.heap buyOid
      = some (bo.fill (min bo.remainingQuantity so.remainingQuantity)) ∧
    heapGet (executeTrade es buyOid sellOid price).1.heap sellOid
      = some (so.fill (min bo.remainingQuantity so.remainingQuantity)) ∧
    (∀ z, z ≠ buyOid → z ≠ sellOid →
      heapGet (executeTrade es buyOid sellOid price).1.heap z = heapGet es.heap z) ∧
    (executeTrade es buyOid sellOid price).1.book = es.book ∧
    (executeTrade es buyOid sellOid price).1.tradeSeq = es.tradeSeq + 1 ∧
    (executeTrade es buyOid sellOid price).1.heap
      = heapSet (heapSet es.heap buyOid
          (bo.fill (min bo.remainingQuantity so.remainingQuantity))) sellOid
          (so.fill (min bo.remainingQuantity so.remainingQuantity)) := by
  have hgob : getOrder es.heap buyOid = bo := by unfold getOrder; rw [hgb]; rfl
  have hgos : getOrder es.heap sellOid = so := by unfold getOrder; rw [hgs]; rfl
  refine ⟨?_, rfl, rfl, ?_, ?_, ?_, rfl, rfl, ?_⟩
  · show (NewTrade _ _ _ _ _ _).quantity = _
    unfold NewTrade
    show min (getOrder es.heap buyOid).remainingQuantity
        (getOrder es.heap sellOid).remainingQuantity = _
    rw [hgob, hgos]
  · show heapGet (heapSet (heapSet es.heap buyOid _) sellOid _) buyOid = _
    rw [heapGet_set_ne _ _ hne, heapGet_set_self, hgob, hgos]
  · show heapGet (heapSet (heapSet es.heap buyOid _) sellOid _) sellOid = _
    rw [heapGet_set_self, hgob, hgos]
  · intro z hzb hzs
    show heapGet (heapSet (heapSet es.heap buyOid _) sellOid _) z = _
    rw [heapGet_set_ne _ _ hzs, heapGet_set_ne _ _ hzb]
  · show heapSet (heapSet es.heap buyOid _) sellOid _ = _
    rw [hgob, hgos]

theorem fill_fields (o : Order) (q : Int) :
    (o.fill q).id = o.id ∧ (o.fill q).symbol = o.symbol ∧
    (o.fill q).side = o.side ∧ (o.fill q).otype = o.otype ∧
    (o.fill q).price = o.price ∧ (o.fill q).quantity = o.quantity ∧
    (o.fill q).filled = o.filled + q ∧
    (o.fill q).listElement = o.listElement ∧
    ((o.fill q).status = OrderStatus.Filled ∨
      (o.fill q).status = OrderStatus.PartialFilled) ∧
    ((o.fill q).status = OrderStatus.Filled ↔ o.quantity ≤ o.filled + q) := by
  unfold Order.fill Order.isFilled
  by_cases hf : o.quantity ≤ o.filled + q
  · rw [if_pos (by simpa using hf)]
    refine ⟨rfl, rfl, rfl, rfl, rfl, rfl, rfl, rfl, Or.inl rfl, ?_⟩
    simp [hf]
  · rw [if_neg (by simpa using hf)]
    refine ⟨rfl, rfl, rfl, rfl, rfl, rfl, rfl, rfl, Or.inr rfl, ?_⟩
    constructor
    · intro he
      exact absurd he (by simp)
    · intro hq
      exact absurd hq hf

theorem TreeWF_update_resting {h : Heap} {isBuy : Bool} {t : ShardedPriceTree}
    {oid : String} {o o' : Order}
    (hw : TreeWF h isBuy none t)
    (hg : heapGet h oid = some o)
    (hp : o'.price = o.price) (hsd : o'.side = o.side) (hot : o'.otype = o.otype)
    (hle : o'.listElement = true) (hf0 : 0 ≤ o'.filled)
    (hfq : o'.filled ≤ o'.quantity)
    (hrem : o'.remainingQuantity ≤ o.remainingQuantity)
    (hst : o'.status = OrderStatus.Pending ∨ o'.status = OrderStatus.PartialFilled ∨
      o'.status = OrderStatus.Filled) :
    TreeWF (heapSet h oid o') isBuy (some oid) t := by
  obtain ⟨q1, q2, q3, q4, q5, q6⟩ := hw
  refine ⟨q1, q2, q3, fun b hb => ?_, q5, q6⟩
  obtain ⟨w1, w2, w3, w4, w5, w6, w7, w8, w9, w10⟩ := q4 b hb
  refine ⟨w1, w2, w3, w4, w5, w6, fun L hL => ?_, w8, w9, w10⟩
  obtain ⟨u1, u2, u3⟩ := w7 L hL
  obtain ⟨z1, z2, z3, z4⟩ := u3
  have hgo : getOrder h oid = o := by unfold getOrder; rw [hg]; rfl
  refine ⟨u1, u2, z1, z2, ?_, ?_⟩
  · -- the level volume still dominates the remaining sum
    by_cases hmem : oid ∈ L.orders
    · rw [sumRemaining_set_mem o' z2 hmem, hgo]
      have := z3
      omega
    · rw [sumRemaining_set_not_mem o' hmem]
      exact z3
  · intro z hz
    by_cases hzo : z = oid
    · subst hzo
      have hv := z4 z hz
      obtain ⟨a1, a2, a3, a4, a5, a6, a7⟩ := hv
      rw [hgo] at a2 a3 a4
      have hd : decide ((some z : Option String) ≠ some z) = false := by simp
      rw [hd]
      have hgo' : getOrder (heapSet h z o') z = o' := getOrder_set_self h z o'
      refine ⟨?_, ?_, ?_, ?_, ?_, ?_, ?_⟩
      · exact heapGet_isSome_set h z z o' a1
      · rw [hgo', hp]
        exact a2
      · rw [hgo', hsd]
        exact a3
      · rw [hgo', hot]
        exact a4
      · rw [hgo', hle]
      · rw [hgo']
        exact hf0
      · rw [hgo']
        rw [if_neg (by simp)]
        exact ⟨hfq, hst⟩
    · have hv := z4 z hz
      rw [decide_none_ne] at hv
      have hd : decide ((some oid : Option String) ≠ some z) = true := by
        rw [decide_eq_true_iff]
        intro he
        exact hzo (Option.some_injective _ he).symm
      rw [hd]
      exact (OrderRestingS_congr (heapGet_set_ne h o' hzo)).mpr hv

theorem TreeWF_update_resting_strict {h : Heap} {isBuy : Bool} {t : ShardedPriceTree}
    {oid : String} {o o' : Order}
    (hw : TreeWF h isBuy none t)
    (hg : heapGet h oid = some o)
    (hp : o'.price = o.price) (hsd : o'.side = o.side) (hot : o'.otype = o.otype)
    (hle : o'.listElement = true) (hf0 : 0 ≤ o'.filled)
    (hfq : o'.filled < o'.quantity)
    (hrem : o'.remainingQuantity ≤ o.remainingQuantity)
    (hst : o'.status = OrderStatus.Pending ∨ o'.status = OrderStatus.PartialFilled) :
    TreeWF (heapSet h oid o') isBuy none t := by
  obtain ⟨q1, q2, q3, q4, q5, q6⟩ := hw
  refine ⟨q1, q2, q3, fun b hb => ?_, q5, q6⟩
  obtain ⟨w1, w2, w3, w4, w5, w6, w7, w8, w9, w10⟩ := q4 b hb
  refine ⟨w1, w2, w3, w4, w5, w6, fun L hL => ?_, w8, w9, w10⟩
  obtain ⟨u1, u2, u3⟩ := w7 L hL
  obtain ⟨z1, z2, z3, z4⟩ := u3
  have hgo : getOrder h oid = o := by unfold getOrder; rw [hg]; rfl
  refine ⟨u1, u2, z1, z2, ?_, ?_⟩
  · by_cases hmem : oid ∈ L.orders
    · rw [sumRemaining_set_mem o' z2 hmem, hgo]
      have := z3
      omega
    · rw [sumRemaining_set_not_mem o' hmem]
      exact z3
  · intro z hz
    rw [decide_none_ne]
    by_cases hzo : z = oid
    · subst hzo
      have hv := z4 z hz
      rw [decide_none_ne] at hv
      obtain ⟨a1, a2, a3, a4, a5, a6, a7⟩ := hv
      rw [hgo] at a2 a3 a4
      have hgo' : getOrder (heapSet h z o') z = o' := getOrder_set_self h z o'
      refine ⟨?_, ?_, ?_, ?_, ?_, ?_, ?_⟩
      · exact heapGet_isSome_set h z z o' a1
      · rw [hgo', hp]
        exact a2
      · rw [hgo', hsd]
        exact a3
      · rw [hgo', hot]
        exact a4
      · rw [hgo', hle]
      · rw [hgo']
        exact hf0
      · rw [hgo']
        rw [if_pos rfl]
        exact ⟨hfq, hst⟩
    · have hv := z4 z hz
      rw [decide_none_ne] at hv
      exact (OrderRestingS_congr (heapGet_set_ne h o' hzo)).mpr hv

theorem matchBuyGo_exit_filled {fuel : Nat} {es : EngineState} {buyOid : String}
    {acc : List Trade} (hf : (getOrder es.heap buyOid).isFilled = true) :
    matchBuyOrderGo (fuel + 1) es buyOid acc = (es, acc) := by
  show matchBuyOrderGo (Nat.succ fuel) es buyOid acc = _
  simp only [matchBuyOrderGo, hf, if_true]

theorem matchBuyGo_exit_guard {fuel : Nat} {es : EngineState} {buyOid : String}
    {acc : List Trade} (hnf : ¬ ((getOrder es.heap buyOid).isFilled = true))
    (hg : es.book.getBestAsk = 0 ∨ ((getOrder es.heap buyOid).otype = OrderType.Limit ∧
      (getOrder es.heap buyOid).price < es.book.getBestAsk)) :
    matchBuyOrderGo (fuel + 1) es buyOid acc = (es, acc) := by
  show matchBuyOrderGo (Nat.succ fuel) es buyOid acc = _
  simp only [matchBuyOrderGo]
  rw [if_neg hnf, if_pos hg]

theorem matchBuyGo_exit_nolevel {fuel : Nat} {es : EngineState} {buyOid : String}
    {acc : List Trade} (hnf : ¬ ((getOrder es.heap buyOid).isFilled = true))
    (hng : ¬ (es.book.getBestAsk = 0 ∨ ((getOrder es.heap buyOid).otype = OrderType.Limit ∧
      (getOrder es.heap buyOid).price < es.book.getBestAsk)))
    (hBL : es.book.getBestSellLevel = none) :
    matchBuyOrderGo (fuel + 1) es buyOid acc = (es, acc) := by
  show matchBuyOrderGo (Nat.succ fuel) es buyOid acc = _
  simp only [matchBuyOrderGo, hBL]
  rw [if_neg hnf, if_neg hng]

theorem matchBuyGo_step {fuel : Nat} {es : EngineState} {buyOid : String}
    {acc : List Trade} {L : PriceLevel} {sellOid : String}
    (hnf : ¬ ((getOrder es.heap buyOid).isFilled = true))
    (hng : ¬ (es.book.getBestAsk = 0 ∨ ((getOrder es.heap buyOid).otype = OrderType.Limit ∧
      (getOrder es.heap buyOid).price < es.book.getBestAsk)))
    (hBL : es.book.getBestSellLevel = some L)
    (hso : L.orders.head? = some sellOid) :
    matchBuyOrderGo (fuel + 1) es buyOid acc =
      matchBuyOrderGo fuel
        (if (getOrder (executeTrade es buyOid sellOid es.book.getBestAsk).1.heap
            sellOid).isFilled
          then engineCancel (executeTrade es buyOid sellOid es.book.getBestAsk).1 sellOid
          else (executeTrade es buyOid sellOid es.book.getBestAsk).1)
        buyOid (acc ++ [(executeTrade es buyOid sellOid es.book.getBestAsk).2]) := by
  show matchBuyOrderGo (Nat.succ fuel) es buyOid acc = _
  simp only [matchBuyOrderGo, hBL, hso]
  rw [if_neg hnf, if_neg hng]

theorem matchSellGo_exit_filled {fuel : Nat} {es : EngineState} {sellOid : String}
    {acc : List Trade} (hf : (getOrder es.heap sellOid).isFilled = true) :
    matchSellOrderGo (fuel + 1) es sellOid acc = (es, acc) := by
  show matchSellOrderGo (Nat.succ fuel) es sellOid acc = _
  simp only [matchSellOrderGo, hf, if_true]

theorem matchSellGo_exit_guard {fuel : Nat} {es : EngineState} {sellOid : String}
    {acc : List Trade} (hnf : ¬ ((getOrder es.heap sellOid).isFilled = true))
    (hg : es.book.getBestBid = 0 ∨ ((getOrder es.heap sellOid).otype = OrderType.Limit ∧
      es.book.getBestBid < (getOrder es.heap sellOid).price)) :
    matchSellOrderGo (fuel + 1) es sellOid acc = (es, acc) := by
  show matchSellOrderGo (Nat.succ fuel) es sellOid acc = _
  simp only [matchSellOrderGo]
  rw [if_neg hnf, if_pos hg]

theorem matchSellGo_exit_nolevel {fuel : Nat} {es : EngineState} {sellOid : String}
    {acc : List Trade} (hnf : ¬ ((getOrder es.heap sellOid).isFilled = true))
    (hng : ¬ (es.book.getBestBid = 0 ∨ ((getOrder es.heap sellOid).otype = OrderType.Limit ∧
      es.book.getBestBid < (getOrder es.heap sellOid).price)))
    (hBL : es.book.getBestBuyLevel = none) :
    matchSellOrderGo (fuel + 1) es sellOid acc = (es, acc) := by
  show matchSellOrderGo (Nat.succ fuel) es sellOid acc = _
  simp only [matchSellOrderGo, hBL]
  rw [if_neg hnf, if_neg hng]

theorem matchSellGo_step {fuel : Nat} {es : EngineState} {sellOid : String}
    {acc : List Trade} {L : PriceLevel} {buyOid : String}
    (hnf : ¬ ((getOrder es.heap sellOid).isFilled = true))
    (hng : ¬ (es.book.getBestBid = 0 ∨ ((getOrder es.heap sellOid).otype = OrderType.Limit ∧
      es.book.getBestBid < (getOrder es.heap sellOid).price)))
    (hBL : es.book.getBestBuyLevel = some L)
    (hso : L.orders.head? = some buyOid) :
    matchSellOrderGo (fuel + 1) es sellOid acc =
      matchSellOrderGo fuel
        (if (getOrder (executeTrade es buyOid sellOid es.book.getBestBid).1.heap
            buyOid).isFilled
          then engineCancel (executeTrade es buyOid sellOid es.book.getBestBid).1 buyOid
          else (executeTrade es buyOid sellOid es.book.getBestBid).1)
        sellOid (acc ++ [(executeTrade es buyOid sellOid es.book.getBestBid).2]) := by
  show matchSellOrderGo (Nat.succ fuel) es sellOid acc = _
  simp only [matchSellOrderGo, hBL, hso]
  rw [if_neg hnf, if_neg hng]

theorem invx_double_set {h h2 : Heap} {ob : OrderBook} {inOid restOid : String}
    {io ro : Order} {q : Int}
    (hB : BookWF h none ob)
    (hgb : heapGet h inOid = some io) (hle_in : io.listElement = false)
    (hgs : heapGet h restOid = some ro)
    (hq0 : 0 ≤ q) (hqr : q ≤ ro.remainingQuantity)
    (hf0r : 0 ≤ ro.filled)
    (hle_r : ro.listElement = true)
    (hg2in : heapGet h2 inOid = some (io.fill q))
    (hg2rest : heapGet h2 restOid = some (ro.fill q))
    (hframe : ∀ z, z ≠ inOid → z ≠ restOid → heapGet h2 z = heapGet h z)
    (hne : inOid ≠ restOid) :
    BookWF h2 (some restOid) ob ∧
    (¬ (ro.quantity ≤ ro.filled + q) → BookWF h2 none ob) := by
  obtain ⟨hbids, hasks, hbnd, hond, hcorr1, hcorr2⟩ := hB
  obtain ⟨f1, f2, f3, f4, f5, f6, f7, f8, f9, f10⟩ := fill_fields ro q
  have hpoint : ∀ z, heapGet h2 z
      = heapGet (heapSet (heapSet h inOid (io.fill q)) restOid (ro.fill q)) z := by
    intro z
    by_cases hz1 : z = restOid
    · subst hz1
      rw [heapGet_set_self, hg2rest]
    · rw [heapGet_set_ne _ _ hz1]
      by_cases hz2 : z = inOid
      · subst hz2
        rw [heapGet_set_self, hg2in]
      · rw [heapGet_set_ne _ _ hz2]
        exact hframe z hz2 hz1
  have hfreshB : inOid ∉ treeIds ob.bids := rest_not_mem hbids hgb hle_in
  have hfreshA : inOid ∉ treeIds ob.asks := rest_not_mem hasks hgb hle_in
  have hgm : heapGet (heapSet h inOid (io.fill q)) restOid = some ro := by
    rw [heapGet_set_ne _ _ (Ne.symm hne)]
    exact hgs
  have hcore : ∀ (tr : ShardedPriceTree) (ib : Bool), TreeWF h ib none tr →
      inOid ∉ treeIds tr →
      TreeWF (heapSet h inOid (io.fill q)) ib none tr := by
    intro tr ib hw hfresh
    refine TreeWF_congr (fun z hz => ?_) hw
    exact heapGet_set_ne _ _ (fun he => hfresh (he ▸ hz))
  have htrans : ∀ (tr : ShardedPriceTree) (ib : Bool) (x : Option String),
      TreeWF (heapSet (heapSet h inOid (io.fill q)) restOid (ro.fill q)) ib x tr →
      TreeWF h2 ib x tr := by
    intro tr ib x hw
    exact TreeWF_congr (fun z _ => hpoint z) hw
  constructor
  · refine ⟨?_, ?_, hbnd, hond, hcorr1, hcorr2⟩
    · refine htrans _ _ _ ?_
      refine TreeWF_update_resting (hcore _ _ hbids hfreshB) hgm f5 f3 f4 ?_ ?_ ?_ ?_ ?_
      · rw [f8, hle_r]
      · rw [f7]
        omega
      · rw [f7, f6]
        have hqr2 := hqr
        unfold Order.remainingQuantity at hqr2
        omega
      · show (ro.fill q).remainingQuantity ≤ ro.remainingQuantity
        unfold Order.remainingQuantity
        rw [f7, f6]
        omega
      · rcases f9 with h' | h'
        · exact Or.inr (Or.inr h')
        · exact Or.inr (Or.inl h')
    · refine htrans _ _ _ ?_
      refine TreeWF_update_resting (hcore _ _ hasks hfreshA) hgm f5 f3 f4 ?_ ?_ ?_ ?_ ?_
      · rw [f8, hle_r]
      · rw [f7]
        omega
      · rw [f7, f6]
        have hqr2 := hqr
        unfold Order.remainingQuantity at hqr2
        omega
      · show (ro.fill q).remainingQuantity ≤ ro.remainingQuantity
        unfold Order.remainingQuantity
        rw [f7, f6]
        omega
      · rcases f9 with h' | h'
        · exact Or.inr (Or.inr h')
        · exact Or.inr (Or.inl h')
  · intro hns
    have hstp : (ro.fill q).status = OrderStatus.PartialFilled := by
      rcases f9 with h' | h'
      · exact absurd (f10.mp h') hns
      · exact h'
    refine ⟨?_, ?_, hbnd, hond, hcorr1, hcorr2⟩
    · refine htrans _ _ _ ?_
      refine TreeWF_update_resting_strict (hcore _ _ hbids hfreshB) hgm f5 f3 f4 ?_ ?_ ?_ ?_ ?_
      · rw [f8, hle_r]
      · rw [f7]
        omega
      · rw [f7, f6]
        omega
      · show (ro.fill q).remainingQuantity ≤ ro.remainingQuantity
        unfold Order.remainingQuantity
        rw [f7, f6]
        omega
      · exact Or.inr hstp
    · refine htrans _ _ _ ?_
      refine TreeWF_update_resting_strict (hcore _ _ hasks hfreshA) hgm f5 f3 f4 ?_ ?_ ?_ ?_ ?_
      · rw [f8, hle_r]
      · rw [f7]
        omega
      · rw [f7, f6]
        omega
      · show (ro.fill q).remainingQuantity ≤ ro.remainingQuantity
        unfold Order.remainingQuantity
        rw [f7, f6]
        omega
      · exact Or.inr hstp

theorem matchBuyGo_preserves : ∀ (fuel : Nat) (es : EngineState) (buyOid : String)
    (acc : List Trade), Inv es → IncomingOK es.heap buyOid →
    Inv (matchBuyOrderGo fuel es buyOid acc).1 ∧
    IncomingOK (matchBuyOrderGo fuel es buyOid acc).1.heap buyOid ∧
    (getOrder (matchBuyOrderGo fuel es buyOid acc).1.heap buyOid).side
      = (getOrder es.heap buyOid).side ∧
    (getOrder (matchBuyOrderGo fuel es buyOid acc).1.heap buyOid).otype
      = (getOrder es.heap buyOid).otype ∧
    (getOrder (matchBuyOrderGo fuel es buyOid acc).1.heap buyOid).price
      = (getOrder es.heap buyOid).price ∧
    (getOrder (matchBuyOrderGo fuel es buyOid acc).1.heap buyOid).quantity
      = (getOrder es.heap buyOid).quantity := by
  intro fuel
  induction fuel with
  | zero =>
    intro es buyOid acc hI hIn
    exact ⟨hI, hIn, rfl, rfl, rfl, rfl⟩
  | succ fuel ih =>
    intro es buyOid acc hI hIn
    by_cases hnf : (getOrder es.heap buyOid).isFilled = true
    · rw [matchBuyGo_exit_filled hnf]
      exact ⟨hI, hIn, rfl, rfl, rfl, rfl⟩
    · by_cases hng : es.book.getBestAsk = 0 ∨
          ((getOrder es.heap buyOid).otype = OrderType.Limit ∧
            (getOrder es.heap buyOid).price < es.book.getBestAsk)
      · rw [matchBuyGo_exit_guard hnf hng]
        exact ⟨hI, hIn, rfl, rfl, rfl, rfl⟩
      · cases hBL0 : es.book.getBestSellLevel with
        | none =>
          rw [matchBuyGo_exit_nolevel hnf hng hBL0]
          exact ⟨hI, hIn, rfl, rfl, rfl, rfl⟩
        | some L =>
          obtain ⟨hH, hB⟩ := hI
          obtain ⟨hbids, hasks, hbnd, hond, hcorr1, hcorr2⟩ := hB
          have hBL : ShardedPriceTreeAdapter.getBestLevel es.book.asks = some L := hBL0
          cases hbk : es.book.asks.buckets with
          | nil =>
            have hnone := ((getBestLevel_spec hasks).1 hbk).1
            rw [hBL] at hnone
            exact Option.noConfusion hnone
          | cons H rest =>
            obtain ⟨L', hBL', hhead', hLmem', hbp', hp0'⟩ :=
              (getBestLevel_spec hasks).2 H rest hbk
            rw [hBL] at hBL'
            have hLL : L' = L := (Option.some_injective _ hBL').symm
            rw [hLL] at hhead' hLmem' hbp' hp0'
            have hHmem : H ∈ es.book.asks.buckets := by
              rw [hbk]; exact List.mem_cons_self _ _
            obtain ⟨u1, u2, u3⟩ := (hasks.2.2.2.1 H hHmem).2.2.2.2.2.2.1 L hLmem'
            obtain ⟨v1, v2, v3, v4⟩ := u3
            cases hso : L.orders.head? with
            | none =>
              exact absurd (List.head?_eq_none_iff.mp hso) v1
            | some sellOid =>
              have hsomem : sellOid ∈ L.orders := by
                cases hLo : L.orders with
                | nil => rw [hLo] at hso; exact Option.noConfusion hso
                | cons a tl =>
                  rw [hLo] at hso
                  simp only [List.head?_cons] at hso
                  have ha : a = sellOid := Option.some_injective _ hso
                  rw [← ha]
                  exact List.mem_cons_self _ _
              have hors := v4 sellOid hsomem
              rw [decide_none_ne] at hors
              obtain ⟨a1, a2, a3, a4, a5, a6, a7⟩ := hors
              rw [if_pos rfl] at a7
              obtain ⟨so, hgs⟩ := Option.isSome_iff_exists.mp a1
              have hgos : getOrder es.heap sellOid = so := by
                unfold getOrder; rw [hgs]; rfl
              rw [hgos] at a2 a3 a4 a5 a6 a7
              obtain ⟨bo, hgb⟩ := Option.isSome_iff_exists.mp hIn.1
              have hgob : getOrder es.heap buyOid = bo := by
                unfold getOrder; rw [hgb]; rfl
              have hi2 : 0 ≤ bo.filled := by rw [← hgob]; exact hIn.2.1
              have hi3 : bo.listElement = false := by rw [← hgob]; exact hIn.2.2.1
              have hi4 : bo.otype = OrderType.Limit → 0 < bo.price := by
                rw [← hgob]; exact hIn.2.2.2.1
              have hi5 : bo.status = OrderStatus.Pending ∨
                  bo.status = OrderStatus.PartialFilled ∨
                  bo.status = OrderStatus.Filled := by
                rw [← hgob]; exact hIn.2.2.2.2.1
              have hne : buyOid ≠ sellOid := by
                intro he
                subst he
                rw [hgob] at hgos
                rw [← hgos, hi3] at a5
                exact Bool.false_ne_true a5
              have hnf2 : ¬ (bo.quantity ≤ bo.filled) := by
                intro hq
                refine hnf ?_
                rw [hgob]
                unfold Order.isFilled
                simpa using hq
              have hq0 : 0 ≤ min bo.remainingQuantity so.remainingQuantity := by
                refine le_min ?_ ?_
                · unfold Order.remainingQuantity
                  omega
                · unfold Order.remainingQuantity
                  have := a7.1
                  omega
              have hqb : min bo.remainingQuantity so.remainingQuantity
                  ≤ bo.remainingQuantity := min_le_left _ _
              have hqr : min bo.remainingQuantity so.remainingQuantity
                  ≤ so.remainingQuantity := min_le_right _ _
              obtain ⟨e1, e2, e3, e4, e5, e6, e7, e8, e9⟩ :=
                @executeTrade_spec es buyOid sellOid es.book.getBestAsk bo so hgb hgs hne
              obtain ⟨g1, g2, g3, g4, g5, g6, g7, g8, g9, g10⟩ :=
                fill_fields bo (min bo.remainingQuantity so.remainingQuantity)
              obtain ⟨k1, k2, k3, k4, k5, k6, k7, k8, k9, k10⟩ :=
                fill_fields so (min bo.remainingQuantity so.remainingQuantity)
              have hqb2 := hqb
              have hqr2 := hqr
              unfold Order.remainingQuantity at hqb2 hqr2
              have hH2 : HeapWF
                  (executeTrade es buyOid sellOid es.book.getBestAsk).1.heap := by
                rw [e9]
                refine HeapWF_set (HeapWF_set hH ?_ ?_) ?_ ?_
                · rw [g1]; exact (HeapWF_get hH hgb).1
                · intro hs
                  have hhs := g10.mp hs
                  rw [g7, g6]
                  simp only [Order.remainingQuantity] at hhs ⊢
                  omega
                · rw [k1]; exact (HeapWF_get hH hgs).1
                · intro hs
                  have hhs := k10.mp hs
                  rw [k7, k6]
                  simp only [Order.remainingQuantity] at hhs ⊢
                  omega
              have hds := invx_double_set ⟨hbids, hasks, hbnd, hond, hcorr1, hcorr2⟩
                hgb hi3 hgs hq0 hqr a6 a5 e4 e5 e6 hne
              have hIx : InvX (executeTrade es buyOid sellOid es.book.getBestAsk).1
                  (some sellOid) := by
                refine ⟨hH2, ?_⟩
                rw [e7]
                exact hds.1
              have hgos2 : getOrder
                  (executeTrade es buyOid sellOid es.book.getBestAsk).1.heap sellOid
                  = so.fill (min bo.remainingQuantity so.remainingQuantity) := by
                unfold getOrder; rw [e5]; rfl
              by_cases hfs : so.quantity ≤ so.filled
                  + min bo.remainingQuantity so.remainingQuantity
              · have hfs' : (getOrder
                    (executeTrade es buyOid sellOid es.book.getBestAsk).1.heap
                    sellOid).isFilled = true := by
                  rw [hgos2]
                  unfold Order.isFilled
                  rw [k6, k7]
                  simpa using hfs
                rw [matchBuyGo_step hnf hng hBL0 hso, if_pos hfs']
                obtain ⟨hInv2, hfr2, hsub2⟩ := engineCancel_spec hIx (Or.inr rfl)
                have hgb2 : heapGet (engineCancel
                    (executeTrade es buyOid sellOid es.book.getBestAsk).1
                    sellOid).heap buyOid
                    = some (bo.fill (min bo.remainingQuantity so.remainingQuantity)) := by
                  rw [hfr2 buyOid hne]
                  exact e4
                have hgob2 : getOrder (engineCancel
                    (executeTrade es buyOid sellOid es.book.getBestAsk).1
                    sellOid).heap buyOid
                    = bo.fill (min bo.remainingQuantity so.remainingQuantity) := by
                  unfold getOrder; rw [hgb2]; rfl
                have hIn2 : IncomingOK (engineCancel
                    (executeTrade es buyOid sellOid es.book.getBestAsk).1
                    sellOid).heap buyOid := by
                  refine ⟨?_, ?_, ?_, ?_, ?_, ?_⟩
                  · rw [hgb2]; rfl
                  · rw [hgob2, g7]; omega
                  · rw [hgob2, g8]; exact hi3
                  · rw [hgob2, g4, g5]; exact hi4
                  · rw [hgob2]
                    rcases g9 with h' | h'
                    · exact Or.inr (Or.inr h')
                    · exact Or.inr (Or.inl h')
                  · rw [hgob2]
                    intro hs
                    rw [g6, g7]
                    exact g10.mp hs
                obtain ⟨r1, r2, r3, r4, r5, r6⟩ := ih _ buyOid _ hInv2 hIn2
                refine ⟨r1, r2, ?_, ?_, ?_, ?_⟩
                · rw [r3, hgob2, g3, hgob]
                · rw [r4, hgob2, g4, hgob]
                · rw [r5, hgob2, g5, hgob]
                · rw [r6, hgob2, g6, hgob]
              · have hfs' : ¬ ((getOrder
                    (executeTrade es buyOid sellOid es.book.getBestAsk).1.heap
                    sellOid).isFilled = true) := by
                  rw [hgos2]
                  unfold Order.isFilled
                  rw [k6, k7]
                  simpa using hfs
                rw [matchBuyGo_step hnf hng hBL0 hso, if_neg hfs']
                have hInv2 : Inv (executeTrade es buyOid sellOid es.book.getBestAsk).1 := by
                  refine ⟨hH2, ?_⟩
                  rw [e7]
                  exact hds.2 hfs
                have hgob2 : getOrder
                    (executeTrade es buyOid sellOid es.book.getBestAsk).1.heap buyOid
                    = bo.fill (min bo.remainingQuantity so.remainingQuantity) := by
                  unfold getOrder; rw [e4]; rfl
                have hIn2 : IncomingOK
                    (executeTrade es buyOid sellOid es.book.getBestAsk).1.heap buyOid := by
                  refine ⟨?_, ?_, ?_, ?_, ?_, ?_⟩
                  · rw [e4]; rfl
                  · rw [hgob2, g7]; omega
                  · rw [hgob2, g8]; exact hi3
                  · rw [hgob2, g4, g5]; exact hi4
                  · rw [hgob2]
                    rcases g9 with h' | h'
                    · exact Or.inr (Or.inr h')
                    · exact Or.inr (Or.inl h')
                  · rw [hgob2]
                    intro hs
                    rw [g6, g7]
                    exact g10.mp hs
                obtain ⟨r1, r2, r3, r4, r5, r6⟩ := ih _ buyOid _ hInv2 hIn2
                refine ⟨r1, r2, ?_, ?_, ?_, ?_⟩
                · rw [r3, hgob2, g3, hgob]
                · rw [r4, hgob2, g4, hgob]
                · rw [r5, hgob2, g5, hgob]
                · rw [r6, hgob2, g6, hgob]

theorem matchSellGo_preserves : ∀ (fuel : Nat) (es : EngineState) (sellOid : String)
    (acc : List Trade), Inv es → IncomingOK es.heap sellOid →
    Inv (matchSellOrderGo fuel es sellOid acc).1 ∧
    IncomingOK (matchSellOrderGo fuel es sellOid acc).1.heap sellOid ∧
    (getOrder (matchSellOrderGo fuel es sellOid acc).1.heap sellOid).side
      = (getOrder es.heap sellOid).side ∧
    (getOrder (matchSellOrderGo fuel es sellOid acc).1.heap sellOid).otype
      = (getOrder es.heap sellOid).otype ∧
    (getOrder (matchSellOrderGo fuel es sellOid acc).1.heap sellOid).price
      = (getOrder es.heap sellOid).price ∧
    (getOrder (matchSellOrderGo fuel es sellOid acc).1.heap sellOid).quantity
      = (getOrder es.heap sellOid).quantity := by
  intro fuel
  induction fuel with
  | zero =>
    intro es sellOid acc hI hIn
    exact ⟨hI, hIn, rfl, rfl, rfl, rfl⟩
  | succ fuel ih =>
    intro es sellOid acc hI hIn
    by_cases hnf : (getOrder es.heap sellOid).isFilled = true
    · rw [matchSellGo_exit_filled hnf]
      exact ⟨hI, hIn, rfl, rfl, rfl, rfl⟩
    · by_cases hng : es.book.getBestBid = 0 ∨
          ((getOrder es.heap sellOid).otype = OrderType.Limit ∧
            es.book.getBestBid < (getOrder es.heap sellOid).price)
      · rw [matchSellGo_exit_guard hnf hng]
        exact ⟨hI, hIn, rfl, rfl, rfl, rfl⟩
      · cases hBL0 : es.book.getBestBuyLevel with
        | none =>
          rw [matchSellGo_exit_nolevel hnf hng hBL0]
          exact ⟨hI, hIn, rfl, rfl, rfl, rfl⟩
        | some L =>
          obtain ⟨hH, hB⟩ := hI
          obtain ⟨hbids, hasks, hbnd, hond, hcorr1, hcorr2⟩ := hB
          have hBL : ShardedPriceTreeAdapter.getBestLevel es.book.bids = some L := hBL0
          cases hbk : es.book.bids.buckets with
          | nil =>
            have hnone := ((getBestLevel_spec hbids).1 hbk).1
            rw [hBL] at hnone
            exact Option.noConfusion hnone
          | cons H rest =>
            obtain ⟨L', hBL', hhead', hLmem', hbp', hp0'⟩ :=
              (getBestLevel_spec hbids).2 H rest hbk
            rw [hBL] at hBL'
            have hLL : L' = L := (Option.some_injective _ hBL').symm
            rw [hLL] at hhead' hLmem' hbp' hp0'
            have hHmem : H ∈ es.book.bids.buckets := by
              rw [hbk]; exact List.mem_cons_self _ _
            obtain ⟨u1, u2, u3⟩ := (hbids.2.2.2.1 H hHmem).2.2.2.2.2.2.1 L hLmem'
            obtain ⟨v1, v2, v3, v4⟩ := u3
            cases hso : L.orders.head? with
            | none =>
              exact absurd (List.head?_eq_none_iff.mp hso) v1
            | some buyOid =>
              have hbomem : buyOid ∈ L.orders := by
                cases hLo : L.orders with
                | nil => rw [hLo] at hso; exact Option.noConfusion hso
                | cons a tl =>
                  rw [hLo] at hso
                  simp only [List.head?_cons] at hso
                  have ha : a = buyOid := Option.some_injective _ hso
                  rw [← ha]
                  exact List.mem_cons_self _ _
              have hors := v4 buyOid hbomem
              rw [decide_none_ne] at hors
              obtain ⟨a1, a2, a3, a4, a5, a6, a7⟩ := hors
              rw [if_pos rfl] at a7
              obtain ⟨bo, hgb⟩ := Option.isSome_iff_exists.mp a1
              have hgob : getOrder es.heap buyOid = bo := by
                unfold getOrder; rw [hgb]; rfl
              rw [hgob] at a2 a3 a4 a5 a6 a7
              obtain ⟨so, hgs⟩ := Option.isSome_iff_exists.mp hIn.1
              have hgos : getOrder es.heap sellOid = so := by
                unfold getOrder; rw [hgs]; rfl
              have hi2 : 0 ≤ so.filled := by rw [← hgos]; exact hIn.2.1
              have hi3 : so.listElement = false := by rw [← hgos]; exact hIn.2.2.1
              have hi4 : so.otype = OrderType.Limit → 0 < so.price := by
                rw [← hgos]; exact hIn.2.2.2.1
              have hi5 : so.status = OrderStatus.Pending ∨
                  so.status = OrderStatus.PartialFilled ∨
                  so.status = OrderStatus.Filled := by
                rw [← hgos]; exact hIn.2.2.2.2.1
              have hne : sellOid ≠ buyOid := by
                intro he
                subst he
                rw [hgos] at hgob
                rw [← hgob, hi3] at a5
                exact Bool.false_ne_true a5
              have hnf2 : ¬ (so.quantity ≤ so.filled) := by
                intro hq
                refine hnf ?_
                rw [hgos]
                unfold Order.isFilled
                simpa using hq
              have hq0 : 0 ≤ min bo.remainingQuantity so.remainingQuantity := by
                refine le_min ?_ ?_
                · unfold Order.remainingQuantity
                  have := a7.1
                  omega
                · unfold Order.remainingQuantity
                  omega
              have hqb : min bo.remainingQuantity so.remainingQuantity
                  ≤ bo.remainingQuantity := min_le_left _ _
              have hqr : min bo.remainingQuantity so.remainingQuantity
                  ≤ so.remainingQuantity := min_le_right _ _
              obtain ⟨e1, e2, e3, e4, e5, e6, e7, e8, e9⟩ :=
                @executeTrade_spec es buyOid sellOid es.book.getBestBid bo so hgb hgs (Ne.symm hne)
              obtain ⟨g1, g2, g3, g4, g5, g6, g7, g8, g9, g10⟩ :=
                fill_fields so (min bo.remainingQuantity so.remainingQuantity)
              obtain ⟨k1, k2, k3, k4, k5, k6, k7, k8, k9, k10⟩ :=
                fill_fields bo (min bo.remainingQuantity so.remainingQuantity)
              have hH2 : HeapWF
                  (executeTrade es buyOid sellOid es.book.getBestBid).1.heap := by
                rw [e9]
                refine HeapWF_set (HeapWF_set hH ?_ ?_) ?_ ?_
                · rw [k1]; exact (HeapWF_get hH hgb).1
                · intro hs
                  have hhs := k10.mp hs
                  rw [k7, k6]
                  simp only [Order.remainingQuantity] at hhs ⊢
                  omega
                · rw [g1]; exact (HeapWF_get hH hgs).1
                · intro hs
                  have hhs := g10.mp hs
                  rw [g7, g6]
                  simp only [Order.remainingQuantity] at hhs ⊢
                  omega
              have hds := invx_double_set ⟨hbids, hasks, hbnd, hond, hcorr1, hcorr2⟩
                hgs hi3 hgb hq0 hqb a6 a5 e5 e4 (fun z hz1 hz2 => e6 z hz2 hz1) hne
              have hIx : InvX (executeTrade es buyOid sellOid es.book.getBestBid).1
                  (some buyOid) := by
                refine ⟨hH2, ?_⟩
                rw [e7]
                exact hds.1
              have hgob2x : getOrder
                  (executeTrade es buyOid sellOid es.book.getBestBid).1.heap buyOid
                  = bo.fill (min bo.remainingQuantity so.remainingQuantity) := by
                unfold getOrder; rw [e4]; rfl
              by_cases hfs : bo.quantity ≤ bo.filled
                  + min bo.remainingQuantity so.remainingQuantity
              · have hfs' : (getOrder
                    (executeTrade es buyOid sellOid es.book.getBestBid).1.heap
                    buyOid).isFilled = true := by
                  rw [hgob2x]
                  unfold Order.isFilled
                  rw [k6, k7]
                  simpa using hfs
                rw [matchSellGo_step hnf hng hBL0 hso, if_pos hfs']
                obtain ⟨hInv2, hfr2, hsub2⟩ := engineCancel_spec hIx (Or.inr rfl)
                have hgs2 : heapGet (engineCancel
                    (executeTrade es buyOid sellOid es.book.getBestBid).1
                    buyOid).heap sellOid
                    = some (so.fill (min bo.remainingQuantity so.remainingQuantity)) := by
                  rw [hfr2 sellOid hne]
                  exact e5
                have hgos2 : getOrder (engineCancel
                    (executeTrade es buyOid sellOid es.book.getBestBid).1
                    buyOid).heap sellOid
                    = so.fill (min bo.remainingQuantity so.remainingQuantity) := by
                  unfold getOrder; rw [hgs2]; rfl
                have hIn2 : IncomingOK (engineCancel
                    (executeTrade es buyOid sellOid es.book.getBestBid).1
                    buyOid).heap sellOid := by
                  refine ⟨?_, ?_, ?_, ?_, ?_, ?_⟩
                  · rw [hgs2]; rfl
                  · rw [hgos2, g7]; omega
                  · rw [hgos2, g8]; exact hi3
                  · rw [hgos2, g4, g5]; exact hi4
                  · rw [hgos2]
                    rcases g9 with h' | h'
                    · exact Or.inr (Or.inr h')
                    · exact Or.inr (Or.inl h')
                  · rw [hgos2]
                    intro hs
                    rw [g6, g7]
                    exact g10.mp hs
                obtain ⟨r1, r2, r3, r4, r5, r6⟩ := ih _ sellOid _ hInv2 hIn2
                refine ⟨r1, r2, ?_, ?_, ?_, ?_⟩
                · rw [r3, hgos2, g3, hgos]
                · rw [r4, hgos2, g4, hgos]
                · rw [r5, hgos2, g5, hgos]
                · rw [r6, hgos2, g6, hgos]
              · have hfs' : ¬ ((getOrder
                    (executeTrade es buyOid sellOid es.book.getBestBid).1.heap
                    buyOid).isFilled = true) := by
                  rw [hgob2x]
                  unfold Order.isFilled
                  rw [k6, k7]
                  simpa using hfs
                rw [matchSellGo_step hnf hng hBL0 hso, if_neg hfs']
                have hInv2 : Inv (executeTrade es buyOid sellOid es.book.getBestBid).1 := by
                  refine ⟨hH2, ?_⟩
                  rw [e7]
                  exact hds.2 hfs
                have hgos2 : getOrder
                    (executeTrade es buyOid sellOid es.book.getBestBid).1.heap sellOid
                    = so.fill (min bo.remainingQuantity so.remainingQuantity) := by
                  unfold getOrder; rw [e5]; rfl
                have hIn2 : IncomingOK
                    (executeTrade es buyOid sellOid es.book.getBestBid).1.heap sellOid := by
                  refine ⟨?_, ?_, ?_, ?_, ?_, ?_⟩
                  · rw [e5]; rfl
                  · rw [hgos2, g7]; omega
                  · rw [hgos2, g8]; exact hi3
                  · rw [hgos2, g4, g5]; exact hi4
                  · rw [hgos2]
                    rcases g9 with h' | h'
                    · exact Or.inr (Or.inr h')
                    · exact Or.inr (Or.inl h')
                  · rw [hgos2]
                    intro hs
                    rw [g6, g7]
                    exact g10.mp hs
                obtain ⟨r1, r2, r3, r4, r5, r6⟩ := ih _ sellOid _ hInv2 hIn2
                refine ⟨r1, r2, ?_, ?_, ?_, ?_⟩
                · rw [r3, hgos2, g3, hgos]
                · rw [r4, hgos2, g4, hgos]
                · rw [r5, hgos2, g5, hgos]
                · rw [r6, hgos2, g6, hgos]

theorem fresh_not_mem {h : Heap} {ib : Bool} {tr : ShardedPriceTree} {oid : String}
    (htw : TreeWF h ib none tr) (hg : heapGet h oid = none) : oid ∉ treeIds tr := by
  intro hmm
  obtain ⟨b, hb, hzb⟩ := List.mem_flatMap.mp hmm
  obtain ⟨L, hL, hzL⟩ := List.mem_flatMap.mp hzb
  obtain ⟨u1, u2, u3⟩ := (htw.2.2.2.1 b hb).2.2.2.2.2.2.1 L hL
  have hv := (u3.2.2.2 oid hzL).1
  rw [hg] at hv
  exact Bool.false_ne_true hv

theorem processOrder_preserves {es : EngineState} {oid : String}
    (hI : Inv es) (hIn : IncomingOK es.heap oid) :
    Inv (processOrder es oid).1 := by
  have hmain : ∀ et : EngineState, Inv et → IncomingOK et.heap oid →
      Inv (if ¬ (getOrder et.heap oid).isFilled ∧
            (getOrder et.heap oid).otype = OrderType.Limit
          then { et with
                  heap := (OrderBook.addOrder et.heap et.book oid).1,
                  book := (OrderBook.addOrder et.heap et.book oid).2 }
          else et) := by
    intro et hI1 hIn1
    by_cases hc : ¬ (getOrder et.heap oid).isFilled ∧
        (getOrder et.heap oid).otype = OrderType.Limit
    · rw [if_pos hc]
      obtain ⟨hH1, hB1⟩ := hI1
      obtain ⟨o1, hg1⟩ := Option.isSome_iff_exists.mp hIn1.1
      have hgo1 : getOrder et.heap oid = o1 := by unfold getOrder; rw [hg1]; rfl
      obtain ⟨hcf, hcl⟩ := hc
      rw [hgo1] at hcf hcl
      have hnq : ¬ (o1.quantity ≤ o1.filled) := by
        intro hq
        refine hcf ?_
        unfold Order.isFilled
        simpa using hq
      have hle1 : o1.listElement = false := by rw [← hgo1]; exact hIn1.2.2.1
      have hf01 : 0 ≤ o1.filled := by rw [← hgo1]; exact hIn1.2.1
      have hpos1 : 0 < o1.price := by
        refine ?_
        have := hIn1.2.2.2.1
        rw [hgo1] at this
        exact this hcl
      have hst1 : o1.status = OrderStatus.Pending ∨
          o1.status = OrderStatus.PartialFilled := by
        have h3 := hIn1.2.2.2.2.1
        have h4 := hIn1.2.2.2.2.2
        rw [hgo1] at h3 h4
        rcases h3 with h' | h' | h'
        · exact Or.inl h'
        · exact Or.inr h'
        · exact absurd (h4 h') hnq
      obtain ⟨s1, s2, s3, s4, s5⟩ := addOrder_spec hH1 hB1 hg1 hle1 hcl hpos1
        hf01 (by omega) hst1
      exact ⟨s2, s3⟩
    · rw [if_neg hc]
      exact hI1
  have hmb := matchBuyGo_preserves (es.book.orders.length + 2) es oid [] hI hIn
  have hms := matchSellGo_preserves (es.book.orders.length + 2) es oid [] hI hIn
  simp only [processOrder]
  by_cases hsd : (getOrder es.heap oid).side = Side.Buy
  · rw [if_pos hsd]
    exact hmain (matchBuyOrder es oid).1 hmb.1 hmb.2.1
  · rw [if_neg hsd]
    exact hmain (matchSellOrder es oid).1 hms.1 hms.2.1

theorem submit_state_ok {es : EngineState} {o : Order}
    (hI : Inv es) (hwf : eventWF es (Event.submit o) = true) :
    Inv { es with heap := heapSet es.heap o.id o } ∧
    IncomingOK (heapSet es.heap o.id o) o.id := by
  unfold eventWF at hwf
  simp only [Bool.and_eq_true, Bool.or_eq_true, decide_eq_true_eq,
    Option.isNone_iff_eq_none] at hwf
  obtain ⟨⟨⟨⟨hfresh, hf0⟩, hst⟩, hle⟩, hpr⟩ := hwf
  obtain ⟨hH, hbids, hasks, hbnd, hond, hc1, hc2⟩ := hI
  have hgEq : ∀ (tr : ShardedPriceTree) (ib : Bool),
      TreeWF es.heap ib none tr →
      ∀ z ∈ treeIds tr, heapGet (heapSet es.heap o.id o) z = heapGet es.heap z := by
    intro tr ib hw z hz
    refine heapGet_set_ne _ _ (fun he => ?_)
    exact fresh_not_mem hw hfresh (he ▸ hz)
  have hgself : getOrder (heapSet es.heap o.id o) o.id = o := by
    unfold getOrder
    rw [heapGet_set_self]
    rfl
  refine ⟨⟨?_, ?_, ?_, hbnd, hond, hc1, hc2⟩, ?_, ?_, ?_, ?_, ?_, ?_⟩
  · refine HeapWF_set hH rfl ?_
    intro hs
    rw [hst] at hs
    exact absurd hs (by decide)
  · exact TreeWF_congr (hgEq _ _ hbids) hbids
  · exact TreeWF_congr (hgEq _ _ hasks) hasks
  · rw [heapGet_set_self]
    rfl
  · rw [hgself, hf0]
  · rw [hgself]
    exact hle
  · rw [hgself]
    intro hlim
    rcases hpr with h' | h'
    · exact absurd hlim h'
    · exact h'
  · rw [hgself]
    exact Or.inl hst
  · rw [hgself]
    intro hs
    rw [hst] at hs
    exact absurd hs (by decide)

theorem step_preserves {es : EngineState} {e : Event}
    (hI : Inv es) (hwf : eventWF es e = true) :
    Inv (step es e).1 := by
  cases e with
  | submit o =>
    obtain ⟨h1, h2⟩ := submit_state_ok hI hwf
    exact processOrder_preserves h1 h2
  | cancel oid =>
    exact (engineCancel_spec (x := none) hI (Or.inl rfl)).1

theorem runFrom_preserves : ∀ (evs : List Event) (es : EngineState),
    Inv es → eventsWF es evs = true → Inv (runFrom es evs).1 := by
  intro evs
  induction evs with
  | nil =>
    intro es hI _
    exact hI
  | cons e rest ih =>
    intro es hI hwf
    unfold eventsWF at hwf
    rw [Bool.and_eq_true] at hwf
    simp only [runFrom]
    exact ih _ (step_preserves hI hwf.1) hwf.2

theorem NewMatchingEngine_Inv (symbol : String) : Inv (NewMatchingEngine symbol) := by
  refine ⟨⟨List.nodup_nil, fun p hp => absurd hp (List.not_mem_nil p)⟩,
    ?_, ?_, List.nodup_nil, List.nodup_nil, ?_, ?_⟩
  · exact ⟨rfl, rfl, List.Pairwise.nil, fun b hb => absurd hb (List.not_mem_nil b), rfl, rfl⟩
  · exact ⟨rfl, rfl, List.Pairwise.nil, fun b hb => absurd hb (List.not_mem_nil b), rfl, rfl⟩
  · intro z hz
    exact absurd hz (List.not_mem_nil z)
  · intro z hz
    exact absurd hz (List.not_mem_nil z)

theorem runEvents_preserves {symbol : String} {evs : List Event}
    (hwf : eventsWF (NewMatchingEngine symbol) evs = true) :
    Inv (runEvents symbol evs).1 := by
  unfold runEvents
  exact runFrom_preserves evs _ (NewMatchingEngine_Inv symbol) hwf

theorem processOrder_eq {es : EngineState} {oid : String} {es1 : EngineState}
    {tr : List Trade}
    (he : (if (getOrder es.heap oid).side = Side.Buy then matchBuyOrder es oid
           else matchSellOrder es oid) = (es1, tr)) :
    processOrder es oid =
      (if ¬ (getOrder es1.heap oid).isFilled ∧
          (getOrder es1.heap oid).otype = OrderType.Limit
        then { es1 with heap := (OrderBook.addOrder es1.heap es1.book oid).1,
                        book := (OrderBook.addOrder es1.heap es1.book oid).2 }
        else es1, tr) := by
  simp only [processOrder, he]

/-- C10: an order that already satisfies IsFilled on arrival (in
particular one with quantity ≤ 0 and filled = 0, since IsFilled is
filled ≥ quantity) is silently discarded by processOrder: it emits no
trades, changes nothing, and in particular is never added to the book. -/
theorem C10_prefilled_order_discarded {es : EngineState} {oid : String} {o : Order}
    (hg : heapGet es.heap oid = some o)
    (hq : o.quantity ≤ 0) (hf : o.filled = 0) :
    processOrder es oid = (es, []) := by
  have hgo : getOrder es.heap oid = o := by unfold getOrder; rw [hg]; rfl
  have hfil : (getOrder es.heap oid).isFilled = true := by
    rw [hgo]
    unfold Order.isFilled
    simp only [decide_eq_true_eq]
    omega
  have he : (if (getOrder es.heap oid).side = Side.Buy then matchBuyOrder es oid
      else matchSellOrder es oid) = (es, []) := by
    by_cases hsd : (getOrder es.heap oid).side = Side.Buy
    · rw [if_pos hsd]
      exact matchBuyGo_exit_filled hfil
    · rw [if_neg hsd]
      exact matchSellGo_exit_filled hfil
  rw [processOrder_eq he]
  rw [if_neg (fun hc => hc.1 hfil)]

theorem C10_witness :
    heapGet zeroQtyState.heap "x" = some zeroQtyOrder ∧
    zeroQtyOrder.quantity ≤ 0 ∧ zeroQtyOrder.filled = 0 ∧
    processOrder zeroQtyState "x" = (zeroQtyState, []) :=
  ⟨by decide, by decide, by decide,
   C10_prefilled_order_discarded (o := zeroQtyOrder) (by decide) (by decide) (by decide)⟩

/-- C3: SubmitOrder performs no validation at all: every order, malformed
or not, is appended to the submit queue unchanged, and no error is
signalled to the submitter. -/
theorem C3_submit_never_rejects (queue : List Order) (o : Order) :
    submitOrderOpt queue o = some (queue ++ [o]) ∧
    SubmitOrder queue o = queue ++ [o] :=
  ⟨rfl, rfl⟩

theorem C3_counterexample :
    ¬ specRejectsMalformed submitOrderOpt ∧
    malformedOrder.quantity ≤ 0 ∧
    SubmitOrder [] malformedOrder = [malformedOrder] := by
  refine ⟨?_, by decide, rfl⟩
  intro hspec
  have h := hspec [] malformedOrder (Or.inl (by decide))
  exact Option.noConfusion h

set_option maxRecDepth 4000 in
/-- C6: time priority inside a level.  From an empty book, after sells A,
B, C of quantity 10 at 50000 and a buy D of 15 at 50000, exactly the
trades (A,10) then (B,5) are emitted, A is removed from the book, and the
ask level at 50000 holds B then C with remaining quantities 5 and 10. -/
theorem C6_time_priority :
    (runEvents "S" timePriorityEvents).2.map
        (fun t => (t.sellOrderID, t.quantity)) = [("A", 10), ("B", 5)] ∧
    (ShardedPriceTreeAdapter.getLevel
        (runEvents "S" timePriorityEvents).1.book.asks 50000).map
        PriceLevel.orders = some ["B", "C"] ∧
    (getOrder (runEvents "S" timePriorityEvents).1.heap "B").remainingQuantity = 5 ∧
    (getOrder (runEvents "S" timePriorityEvents).1.heap "C").remainingQuantity = 10 ∧
    bookIds (runEvents "S" timePriorityEvents).1.book = ["B", "C"] ∧
    eventsWF (NewMatchingEngine "S") timePriorityEvents = true := by
  refine ⟨?_, ?_, ?_, ?_, ?_, ?_⟩ <;> decide

/-- C1 (corrected): on every well-formed run, every level of either ladder
has a non-empty FIFO and its Volume field bounds the sum of the remaining
quantities of its resting orders from above.  Equality fails: Volume is
not decremented when a resting order is partially filled. -/
theorem C1_level_volume_bound {symbol : String} {evs : List Event}
    (hwf : eventsWF (NewMatchingEngine symbol) evs = true) :
    ∀ b ∈ (runEvents symbol evs).1.book.bids.buckets ++
        (runEvents symbol evs).1.book.asks.buckets,
      ∀ L ∈ b.chain,
        L.orders ≠ [] ∧
        sumRemaining (runEvents symbol evs).1.heap L.orders ≤ L.volume := by
  obtain ⟨hH, hbids, hasks, h3, h4, h5, h6⟩ := runEvents_preserves hwf
  intro b hb L hL
  rcases List.mem_append.mp hb with hb' | hb'
  · have h := ((hbids.2.2.2.1 b hb').2.2.2.2.2.2.1 L hL).2.2
    exact ⟨h.1, h.2.2.1⟩
  · have h := ((hasks.2.2.2.1 b hb').2.2.2.2.2.2.1 L hL).2.2
    exact ⟨h.1, h.2.2.1⟩

theorem C1_witness :
    eventsWF (NewMatchingEngine "S") partialFillEvents = true ∧
    (∀ b ∈ (runEvents "S" partialFillEvents).1.book.bids.buckets ++
        (runEvents "S" partialFillEvents).1.book.asks.buckets,
      ∀ L ∈ b.chain,
        L.orders ≠ [] ∧
        sumRemaining (runEvents "S" partialFillEvents).1.heap L.orders ≤ L.volume) :=
  ⟨by decide, C1_level_volume_bound (by decide)⟩

set_option maxRecDepth 4000 in
theorem C1_counterexample :
    (ShardedPriceTreeAdapter.getLevel
        (runEvents "S" partialFillEvents).1.book.asks 50000).map PriceLevel.volume
      = some 100 ∧
    (ShardedPriceTreeAdapter.getLevel
        (runEvents "S" partialFillEvents).1.book.asks 50000).map
        (fun L => sumRemaining (runEvents "S" partialFillEvents).1.heap L.orders)
      = some 60 ∧
    OrderBook.getBestAsk (runEvents "S" partialFillEvents).1.book = 50000 ∧
    OrderBook.getBestBid (runEvents "S" partialFillEvents).1.book = 0 ∧
    eventsWF (NewMatchingEngine "S") partialFillEvents = true := by
  refine ⟨?_, ?_, ?_, ?_, ?_⟩ <;> decide

/-- C2 (corrected): what does hold of the status machine on every
well-formed run: an order whose status reads Filled has filled = quantity.
Filled itself is not absorbing: the engine cancels a fully filled resting
order when unlinking it from the book (see the counterexample). -/
theorem C2_filled_certifies_full_fill {symbol : String} {evs : List Event}
    (hwf : eventsWF (NewMatchingEngine symbol) evs = true) :
    ∀ p ∈ (runEvents symbol evs).1.heap,
      p.2.status = OrderStatus.Filled → p.2.filled = p.2.quantity := by
  have hI := runEvents_preserves hwf
  exact fun p hp => (hI.1.2 p hp).2

theorem C2_witness :
    eventsWF (NewMatchingEngine "S") fullFillEvents = true ∧
    (∀ p ∈ (runEvents "S" fullFillEvents).1.heap,
      p.2.status = OrderStatus.Filled → p.2.filled = p.2.quantity) :=
  ⟨by decide, C2_filled_certifies_full_fill (by decide)⟩

set_option maxRecDepth 4000 in
theorem C2_counterexample :
    (getOrder (executeTrade fullFillMidState "b1" "s1"
        (OrderBook.getBestAsk fullFillMidState.book)).1.heap "s1").status
      = OrderStatus.Filled ∧
    (getOrder (runEvents "S" fullFillEvents).1.heap "s1").status
      = OrderStatus.Cancelled ∧
    (getOrder (runEvents "S" fullFillEvents).1.heap "s1").filled
      = (getOrder (runEvents "S" fullFillEvents).1.heap "s1").quantity ∧
    eventsWF (NewMatchingEngine "S") fullFillEvents = true := by
  refine ⟨?_, ?_, ?_, ?_⟩ <;> decide

theorem processOrder_resting {es : EngineState} {oid : String}
    (hI : Inv es) (hIn : IncomingOK es.heap oid) :
    ((getOrder (processOrder es oid).1.heap oid).otype ≠ OrderType.Limit →
      oid ∉ bookIds (processOrder es oid).1.book) ∧
    (¬ (getOrder (processOrder es oid).1.heap oid).isFilled = true →
      (getOrder (processOrder es oid).1.heap oid).otype = OrderType.Limit →
      ∃ L, (if (getOrder es.heap oid).side = Side.Buy
          then ShardedPriceTreeAdapter.getLevel (processOrder es oid).1.book.bids
            (getOrder es.heap oid).price
          else ShardedPriceTreeAdapter.getLevel (processOrder es oid).1.book.asks
            (getOrder es.heap oid).price) = some L ∧ oid ∈ L.orders) := by
  have hmain : ∀ et : EngineState × List Trade,
      (if (getOrder es.heap oid).side = Side.Buy then matchBuyOrder es oid
        else matchSellOrder es oid) = et →
      Inv et.1 → IncomingOK et.1.heap oid →
      (getOrder et.1.heap oid).side = (getOrder es.heap oid).side →
      (getOrder et.1.heap oid).otype = (getOrder es.heap oid).otype →
      (getOrder et.1.heap oid).price = (getOrder es.heap oid).price →
      ((getOrder (processOrder es oid).1.heap oid).otype ≠ OrderType.Limit →
        oid ∉ bookIds (processOrder es oid).1.book) ∧
      (¬ (getOrder (processOrder es oid).1.heap oid).isFilled = true →
        (getOrder (processOrder es oid).1.heap oid).otype = OrderType.Limit →
        ∃ L, (if (getOrder es.heap oid).side = Side.Buy
            then ShardedPriceTreeAdapter.getLevel (processOrder es oid).1.book.bids
              (getOrder es.heap oid).price
            else ShardedPriceTreeAdapter.getLevel (processOrder es oid).1.book.asks
              (getOrder es.heap oid).price) = some L ∧ oid ∈ L.orders) := by
    intro et he hI1 hIn1 r3 r4 r5
    have he2 : (if (getOrder es.heap oid).side = Side.Buy then matchBuyOrder es oid
        else matchSellOrder es oid) = (et.1, et.2) := he
    rw [processOrder_eq he2]
    obtain ⟨hH1, hB1⟩ := hI1
    by_cases hc : ¬ (getOrder et.1.heap oid).isFilled = true ∧
        (getOrder et.1.heap oid).otype = OrderType.Limit
    · rw [if_pos hc]
      obtain ⟨o1, hg1⟩ := Option.isSome_iff_exists.mp hIn1.1
      have hgo1 : getOrder et.1.heap oid = o1 := by unfold getOrder; rw [hg1]; rfl
      obtain ⟨hcf, hcl⟩ := hc
      rw [hgo1] at hcf hcl
      have hnq : ¬ (o1.quantity ≤ o1.filled) := by
        intro hq
        refine hcf ?_
        unfold Order.isFilled
        simpa using hq
      have hle1 : o1.listElement = false := by rw [← hgo1]; exact hIn1.2.2.1
      have hf01 : 0 ≤ o1.filled := by rw [← hgo1]; exact hIn1.2.1
      have hpos1 : 0 < o1.price := by
        have h := hIn1.2.2.2.1
        rw [hgo1] at h
        exact h hcl
      have hst1 : o1.status = OrderStatus.Pending ∨
          o1.status = OrderStatus.PartialFilled := by
        have h3 := hIn1.2.2.2.2.1
        have h4 := hIn1.2.2.2.2.2
        rw [hgo1] at h3 h4
        rcases h3 with h' | h' | h'
        · exact Or.inl h'
        · exact Or.inr h'
        · exact absurd (h4 h') hnq
      obtain ⟨s1, s2, s3, s4, s5⟩ := addOrder_spec hH1 hB1 hg1 hle1 hcl hpos1
        hf01 (by omega) hst1
      have hgfin : getOrder (OrderBook.addOrder et.1.heap et.1.book oid).1 oid
          = { o1 with listElement := true } := by
        rw [s1]
        unfold getOrder
        rw [heapGet_set_self]
        rfl
      constructor
      · intro hmk
        refine absurd ?_ hmk
        show _ = OrderType.Limit
        rw [hgfin]
        exact hcl
      · intro _ _
        obtain ⟨L2, hL2, hmem2⟩ := s5
        refine ⟨L2, ?_, hmem2⟩
        have hsd1 : o1.side = (getOrder es.heap oid).side := by rw [← hgo1]; exact r3
        have hpr1 : o1.price = (getOrder es.heap oid).price := by rw [← hgo1]; exact r5
        rw [hsd1, hpr1] at hL2
        by_cases hsd : (getOrder es.heap oid).side = Side.Buy
        · rw [if_pos hsd] at hL2 ⊢
          exact hL2
        · rw [if_neg hsd] at hL2 ⊢
          exact hL2
    · rw [if_neg hc]
      obtain ⟨hbids1, hasks1, hb3, hb4, hb5, hb6⟩ := hB1
      obtain ⟨o1, hg1⟩ := Option.isSome_iff_exists.mp hIn1.1
      have hgo1 : getOrder et.1.heap oid = o1 := by unfold getOrder; rw [hg1]; rfl
      have hle1 : o1.listElement = false := by rw [← hgo1]; exact hIn1.2.2.1
      constructor
      · intro _
        intro hmm
        rcases List.mem_append.mp hmm with h' | h'
        · exact rest_not_mem hbids1 hg1 hle1 h'
        · exact rest_not_mem hasks1 hg1 hle1 h'
      · intro hnf hlim
        exact absurd ⟨hnf, hlim⟩ hc
  by_cases hsd : (getOrder es.heap oid).side = Side.Buy
  · have hmb := matchBuyGo_preserves (es.book.orders.length + 2) es oid [] hI hIn
    exact hmain (matchBuyOrder es oid) (if_pos hsd) hmb.1 hmb.2.1 hmb.2.2.1
      hmb.2.2.2.1 hmb.2.2.2.2.1
  · have hms := matchSellGo_preserves (es.book.orders.length + 2) es oid [] hI hIn
    exact hmain (matchSellOrder es oid) (if_neg hsd) hms.1 hms.2.1 hms.2.2.1
      hms.2.2.2.1 hms.2.2.2.2.1

/-- C8: a non-fully-filled market order's residual is discarded: after
processing, an order whose type is not Limit is never among the resting
ids of the book; a non-fully-filled limit order is inserted at its price
on its side.  Concretely, a market buy against an empty book produces zero
trades and leaves the book empty. -/
theorem C8_market_residual :
    (∀ (es : EngineState) (oid : String), Inv es → IncomingOK es.heap oid →
      (getOrder (processOrder es oid).1.heap oid).otype ≠ OrderType.Limit →
      oid ∉ bookIds (processOrder es oid).1.book) ∧
    (∀ (es : EngineState) (oid : String), Inv es → IncomingOK es.heap oid →
      ¬ (getOrder (processOrder es oid).1.heap oid).isFilled = true →
      (getOrder (processOrder es oid).1.heap oid).otype = OrderType.Limit →
      ∃ L, (if (getOrder es.heap oid).side = Side.Buy
          then ShardedPriceTreeAdapter.getLevel (processOrder es oid).1.book.bids
            (getOrder es.heap oid).price
          else ShardedPriceTreeAdapter.getLevel (processOrder es oid).1.book.asks
            (getOrder es.heap oid).price) = some L ∧ oid ∈ L.orders) ∧
    (runEvents "S" [Event.submit marketOrder]).2 = [] ∧
    bookIds (runEvents "S" [Event.submit marketOrder]).1.book = [] ∧
    eventsWF (NewMatchingEngine "S") [Event.submit marketOrder] = true := by
  refine ⟨?_, ?_, by decide, by decide, by decide⟩
  · intro es oid hI hIn
    exact (processOrder_resting hI hIn).1
  · intro es oid hI hIn
    exact (processOrder_resting hI hIn).2

/-- C4: for every fill executed by either matching loop — an incoming buy
matched against the head of the best sell level, and an incoming sell
matched against the head of the best buy level — the emitted trade's
quantity is exactly min(incoming remaining, resting remaining) taken
before the fill, its price is the resting order's price, both orders'
filled fields grow by exactly that quantity, the quantity is positive,
and this executeTrade call is precisely the one the loop's step
performs. -/
theorem C4_fill_conservation :
    (∀ (fuel : Nat) (es : EngineState) (buyOid sellOid : String) (acc : List Trade)
        (L : PriceLevel) (bo so : Order),
      Inv es →
      heapGet es.heap buyOid = some bo →
      bo.listElement = false →
      ¬ ((getOrder es.heap buyOid).isFilled = true) →
      ¬ (es.book.getBestAsk = 0 ∨
        ((getOrder es.heap buyOid).otype = OrderType.Limit ∧
          (getOrder es.heap buyOid).price < es.book.getBestAsk)) →
      es.book.getBestSellLevel = some L →
      L.orders.head? = some sellOid →
      heapGet es.heap sellOid = some so →
      (executeTrade es buyOid sellOid es.book.getBestAsk).2.quantity
        = min bo.remainingQuantity so.remainingQuantity ∧
      (executeTrade es buyOid sellOid es.book.getBestAsk).2.price = so.price ∧
      (getOrder (executeTrade es buyOid sellOid es.book.getBestAsk).1.heap buyOid).filled
        = bo.filled + min bo.remainingQuantity so.remainingQuantity ∧
      (getOrder (executeTrade es buyOid sellOid es.book.getBestAsk).1.heap sellOid).filled
        = so.filled + min bo.remainingQuantity so.remainingQuantity ∧
      0 < min bo.remainingQuantity so.remainingQuantity ∧
      matchBuyOrderGo (fuel + 1) es buyOid acc =
        matchBuyOrderGo fuel
          (if (getOrder (executeTrade es buyOid sellOid es.book.getBestAsk).1.heap
              sellOid).isFilled
            then engineCancel (executeTrade es buyOid sellOid es.book.getBestAsk).1 sellOid
            else (executeTrade es buyOid sellOid es.book.getBestAsk).1)
          buyOid (acc ++ [(executeTrade es buyOid sellOid es.book.getBestAsk).2])) ∧
    (∀ (fuel : Nat) (es : EngineState) (sellOid buyOid : String) (acc : List Trade)
        (L : PriceLevel) (so bo : Order),
      Inv es →
      heapGet es.heap sellOid = some so →
      so.listElement = false →
      ¬ ((getOrder es.heap sellOid).isFilled = true) →
      ¬ (es.book.getBestBid = 0 ∨
        ((getOrder es.heap sellOid).otype = OrderType.Limit ∧
          es.book.getBestBid < (getOrder es.heap sellOid).price)) →
      es.book.getBestBuyLevel = some L →
      L.orders.head? = some buyOid →
      heapGet es.heap buyOid = some bo →
      (executeTrade es buyOid sellOid es.book.getBestBid).2.quantity
        = min bo.remainingQuantity so.remainingQuantity ∧
      (executeTrade es buyOid sellOid es.book.getBestBid).2.price = bo.price ∧
      (getOrder (executeTrade es buyOid sellOid es.book.getBestBid).1.heap buyOid).filled
        = bo.filled + min bo.remainingQuantity so.remainingQuantity ∧
      (getOrder (executeTrade es buyOid sellOid es.book.getBestBid).1.heap sellOid).filled
        = so.filled + min bo.remainingQuantity so.remainingQuantity ∧
      0 < min bo.remainingQuantity so.remainingQuantity ∧
      matchSellOrderGo (fuel + 1) es sellOid acc =
        matchSellOrderGo fuel
          (if (getOrder (executeTrade es buyOid sellOid es.book.getBestBid).1.heap
              buyOid).isFilled
            then engineCancel (executeTrade es buyOid sellOid es.book.getBestBid).1 buyOid
            else (executeTrade es buyOid sellOid es.book.getBestBid).1)
          sellOid (acc ++ [(executeTrade es buyOid sellOid es.book.getBestBid).2])) := by
  constructor
  · intro fuel es buyOid sellOid acc L bo so hI hgb hle hnf hng hBL hso hgs
    obtain ⟨hH, hB⟩ := hI
    obtain ⟨hbids, hasks, hbnd, hond, hcorr1, hcorr2⟩ := hB
    have hBL2 : ShardedPriceTreeAdapter.getBestLevel es.book.asks = some L := hBL
    have hgob : getOrder es.heap buyOid = bo := by unfold getOrder; rw [hgb]; rfl
    have hgos : getOrder es.heap sellOid = so := by unfold getOrder; rw [hgs]; rfl
    cases hbk : es.book.asks.buckets with
    | nil =>
      have hnone := ((getBestLevel_spec hasks).1 hbk).1
      rw [hBL2] at hnone
      exact Option.noConfusion hnone
    | cons H rest =>
      obtain ⟨L', hBL', hhead', hLmem', hbp', hp0'⟩ :=
        (getBestLevel_spec hasks).2 H rest hbk
      rw [hBL2] at hBL'
      have hLL : L' = L := (Option.some_injective _ hBL').symm
      rw [hLL] at hhead' hLmem' hbp' hp0'
      have hHmem : H ∈ es.book.asks.buckets := by
        rw [hbk]; exact List.mem_cons_self _ _
      obtain ⟨u1, u2, u3⟩ := (hasks.2.2.2.1 H hHmem).2.2.2.2.2.2.1 L hLmem'
      obtain ⟨v1, v2, v3, v4⟩ := u3
      have hsomem : sellOid ∈ L.orders := by
        cases hLo : L.orders with
        | nil => rw [hLo] at hso; exact Option.noConfusion hso
        | cons a tl =>
          rw [hLo] at hso
          simp only [List.head?_cons] at hso
          have ha : a = sellOid := Option.some_injective _ hso
          rw [← ha]
          exact List.mem_cons_self _ _
      have hors := v4 sellOid hsomem
      rw [decide_none_ne] at hors
      obtain ⟨a1, a2, a3, a4, a5, a6, a7⟩ := hors
      rw [if_pos rfl] at a7
      rw [hgos] at a2 a3 a4 a5 a6 a7
      have hne : buyOid ≠ sellOid := by
        intro he
        subst he
        rw [hgob] at hgos
        rw [← hgos, hle] at a5
        exact Bool.false_ne_true a5
      have hnf2 : ¬ (bo.quantity ≤ bo.filled) := by
        intro hq
        refine hnf ?_
        rw [hgob]
        unfold Order.isFilled
        simpa using hq
      obtain ⟨e1, e2, e3, e4, e5, e6, e7, e8, e9⟩ :=
        @executeTrade_spec es buyOid sellOid es.book.getBestAsk bo so hgb hgs hne
      obtain ⟨g1, g2, g3, g4, g5, g6, g7, g8, g9, g10⟩ :=
        fill_fields bo (min bo.remainingQuantity so.remainingQuantity)
      obtain ⟨k1, k2, k3, k4, k5, k6, k7, k8, k9, k10⟩ :=
        fill_fields so (min bo.remainingQuantity so.remainingQuantity)
      refine ⟨e1, ?_, ?_, ?_, ?_, matchBuyGo_step hnf hng hBL hso⟩
      · rw [e2]
        show ShardedPriceTreeAdapter.getBestPrice es.book.asks = so.price
        rw [hbp']
        exact a2.symm
      · have hx : getOrder (executeTrade es buyOid sellOid es.book.getBestAsk).1.heap
            buyOid = bo.fill (min bo.remainingQuantity so.remainingQuantity) := by
          unfold getOrder; rw [e4]; rfl
        rw [hx, g7]
      · have hx : getOrder (executeTrade es buyOid sellOid es.book.getBestAsk).1.heap
            sellOid = so.fill (min bo.remainingQuantity so.remainingQuantity) := by
          unfold getOrder; rw [e5]; rfl
        rw [hx, k7]
      · have hb0 : 0 < bo.remainingQuantity := by
          unfold Order.remainingQuantity
          omega
        have hs0 : 0 < so.remainingQuantity := by
          unfold Order.remainingQuantity
          have := a7.1
          omega
        exact lt_min hb0 hs0
  · intro fuel es sellOid buyOid acc L so bo hI hgs hle hnf hng hBL hbo hgb
    obtain ⟨hH, hB⟩ := hI
    obtain ⟨hbids, hasks, hbnd, hond, hcorr1, hcorr2⟩ := hB
    have hBL2 : ShardedPriceTreeAdapter.getBestLevel es.book.bids = some L := hBL
    have hgob : getOrder es.heap buyOid = bo := by unfold getOrder; rw [hgb]; rfl
    have hgos : getOrder es.heap sellOid = so := by unfold getOrder; rw [hgs]; rfl
    cases hbk : es.book.bids.buckets with
    | nil =>
      have hnone := ((getBestLevel_spec hbids).1 hbk).1
      rw [hBL2] at hnone
      exact Option.noConfusion hnone
    | cons H rest =>
      obtain ⟨L', hBL', hhead', hLmem', hbp', hp0'⟩ :=
        (getBestLevel_spec hbids).2 H rest hbk
      rw [hBL2] at hBL'
      have hLL : L' = L := (Option.some_injective _ hBL').symm
      rw [hLL] at hhead' hLmem' hbp' hp0'
      have hHmem : H ∈ es.book.bids.buckets := by
        rw [hbk]; exact List.mem_cons_self _ _
      obtain ⟨u1, u2, u3⟩ := (hbids.2.2.2.1 H hHmem).2.2.2.2.2.2.1 L hLmem'
      obtain ⟨v1, v2, v3, v4⟩ := u3
      have hbomem : buyOid ∈ L.orders := by
        cases hLo : L.orders with
        | nil => rw [hLo] at hbo; exact Option.noConfusion hbo
        | cons a tl =>
          rw [hLo] at hbo
          simp only [List.head?_cons] at hbo
          have ha : a = buyOid := Option.some_injective _ hbo
          rw [← ha]
          exact List.mem_cons_self _ _
      have hors := v4 buyOid hbomem
      rw [decide_none_ne] at hors
      obtain ⟨a1, a2, a3, a4, a5, a6, a7⟩ := hors
      rw [if_pos rfl] at a7
      rw [hgob] at a2 a3 a4 a5 a6 a7
      have hne : buyOid ≠ sellOid := by
        intro he
        subst he
        rw [hgos] at hgob
        rw [← hgob, hle] at a5
        exact Bool.false_ne_true a5
      have hnf2 : ¬ (so.quantity ≤ so.filled) := by
        intro hq
        refine hnf ?_
        rw [hgos]
        unfold Order.isFilled
        simpa using hq
      obtain ⟨e1, e2, e3, e4, e5, e6, e7, e8, e9⟩ :=
        @executeTrade_spec es buyOid sellOid es.book.getBestBid bo so hgb hgs hne
      obtain ⟨g1, g2, g3, g4, g5, g6, g7, g8, g9, g10⟩ :=
        fill_fields bo (min bo.remainingQuantity so.remainingQuantity)
      obtain ⟨k1, k2, k3, k4, k5, k6, k7, k8, k9, k10⟩ :=
        fill_fields so (min bo.remainingQuantity so.remainingQuantity)
      refine ⟨e1, ?_, ?_, ?_, ?_, matchSellGo_step hnf hng hBL hbo⟩
      · rw [e2]
        show ShardedPriceTreeAdapter.getBestPrice es.book.bids = bo.price
        rw [hbp']
        exact a2.symm
      · have hx : getOrder (executeTrade es buyOid sellOid es.book.getBestBid).1.heap
            buyOid = bo.fill (min bo.remainingQuantity so.remainingQuantity) := by
          unfold getOrder; rw [e4]; rfl
        rw [hx, g7]
      · have hx : getOrder (executeTrade es buyOid sellOid es.book.getBestBid).1.heap
            sellOid = so.fill (min bo.remainingQuantity so.remainingQuantity) := by
          unfold getOrder; rw [e5]; rfl
        rw [hx, k7]
      · have hb0 : 0 < bo.remainingQuantity := by
          unfold Order.remainingQuantity
          have := a7.1
          omega
        have hs0 : 0 < so.remainingQuantity := by
          unfold Order.remainingQuantity
          omega
        exact lt_min hb0 hs0

theorem C4_witness :
    ((executeTrade fullFillMidState "b1" "s1" fullFillMidState.book.getBestAsk).2.quantity
      = min (NewLimitOrder "b1" "S" "u" Side.Buy 10 10 2).remainingQuantity
          ({ NewLimitOrder "s1" "S" "u" Side.Sell 10 10 1 with
              listElement := true } : Order).remainingQuantity ∧
    (executeTrade fullFillMidState "b1" "s1" fullFillMidState.book.getBestAsk).2.price
      = ({ NewLimitOrder "s1" "S" "u" Side.Sell 10 10 1 with
          listElement := true } : Order).price ∧
    (getOrder (executeTrade fullFillMidState "b1" "s1"
        fullFillMidState.book.getBestAsk).1.heap "b1").filled
      = (NewLimitOrder "b1" "S" "u" Side.Buy 10 10 2).filled
        + min (NewLimitOrder "b1" "S" "u" Side.Buy 10 10 2).remainingQuantity
            ({ NewLimitOrder "s1" "S" "u" Side.Sell 10 10 1 with
                listElement := true } : Order).remainingQuantity ∧
    (getOrder (executeTrade fullFillMidState "b1" "s1"
        fullFillMidState.book.getBestAsk).1.heap "s1").filled
      = ({ NewLimitOrder "s1" "S" "u" Side.Sell 10 10 1 with
            listElement := true } : Order).filled
        + min (NewLimitOrder "b1" "S" "u" Side.Buy 10 10 2).remainingQuantity
            ({ NewLimitOrder "s1" "S" "u" Side.Sell 10 10 1 with
                listElement := true } : Order).remainingQuantity ∧
    0 < min (NewLimitOrder "b1" "S" "u" Side.Buy 10 10 2).remainingQuantity
        ({ NewLimitOrder "s1" "S" "u" Side.Sell 10 10 1 with
            listElement := true } : Order).remainingQuantity ∧
    matchBuyOrderGo (0 + 1) fullFillMidState "b1" [] =
      matchBuyOrderGo 0
        (if (getOrder (executeTrade fullFillMidState "b1" "s1"
            fullFillMidState.book.getBestAsk).1.heap "s1").isFilled
          then engineCancel (executeTrade fullFillMidState "b1" "s1"
            fullFillMidState.book.getBestAsk).1 "s1"
          else (executeTrade fullFillMidState "b1" "s1"
            fullFillMidState.book.getBestAsk).1)
        "b1" ([] ++ [(executeTrade fullFillMidState "b1" "s1"
          fullFillMidState.book.getBestAsk).2])) ∧
    ((executeTrade sellFillMidState "b1" "s1" sellFillMidState.book.getBestBid).2.quantity
      = min ({ NewLimitOrder "b1" "S" "u" Side.Buy 10 10 1 with
              listElement := true } : Order).remainingQuantity
          (NewLimitOrder "s1" "S" "u" Side.Sell 10 10 2).remainingQuantity ∧
    (executeTrade sellFillMidState "b1" "s1" sellFillMidState.book.getBestBid).2.price
      = ({ NewLimitOrder "b1" "S" "u" Side.Buy 10 10 1 with
          listElement := true } : Order).price ∧
    (getOrder (executeTrade sellFillMidState "b1" "s1"
        sellFillMidState.book.getBestBid).1.heap "b1").filled
      = ({ NewLimitOrder "b1" "S" "u" Side.Buy 10 10 1 with
            listElement := true } : Order).filled
        + min ({ NewLimitOrder "b1" "S" "u" Side.Buy 10 10 1 with
                listElement := true } : Order).remainingQuantity
            (NewLimitOrder "s1" "S" "u" Side.Sell 10 10 2).remainingQuantity ∧
    (getOrder (executeTrade sellFillMidState "b1" "s1"
        sellFillMidState.book.getBestBid).1.heap "s1").filled
      = (NewLimitOrder "s1" "S" "u" Side.Sell 10 10 2).filled
        + min ({ NewLimitOrder "b1" "S" "u" Side.Buy 10 10 1 with
                listElement := true } : Order).remainingQuantity
            (NewLimitOrder "s1" "S" "u" Side.Sell 10 10 2).remainingQuantity ∧
    0 < min ({ NewLimitOrder "b1" "S" "u" Side.Buy 10 10 1 with
            listElement := true } : Order).remainingQuantity
        (NewLimitOrder "s1" "S" "u" Side.Sell 10 10 2).remainingQuantity ∧
    matchSellOrderGo (0 + 1) sellFillMidState "s1" [] =
      matchSellOrderGo 0
        (if (getOrder (executeTrade sellFillMidState "b1" "s1"
            sellFillMidState.book.getBestBid).1.heap "b1").isFilled
          then engineCancel (executeTrade sellFillMidState "b1" "s1"
            sellFillMidState.book.getBestBid).1 "b1"
          else (executeTrade sellFillMidState "b1" "s1"
            sellFillMidState.book.getBestBid).1)
        "s1" ([] ++ [(executeTrade sellFillMidState "b1" "s1"
          sellFillMidState.book.getBestBid).2])) :=
  ⟨C4_fill_conservation.1 0 fullFillMidState "b1" "s1" []
     { price := 10, orders := ["s1"], volume := 10 }
     (NewLimitOrder "b1" "S" "u" Side.Buy 10 10 2)
     { NewLimitOrder "s1" "S" "u" Side.Sell 10 10 1 with listElement := true }
     (by decide) (by decide) (by decide) (by decide) (by decide) (by decide)
     (by decide) (by decide),
   C4_fill_conservation.2 0 sellFillMidState "s1" "b1" []
     { price := 10, orders := ["b1"], volume := 10 }
     (NewLimitOrder "s1" "S" "u" Side.Sell 10 10 2)
     { NewLimitOrder "b1" "S" "u" Side.Buy 10 10 1 with listElement := true }
     (by decide) (by decide) (by decide) (by decide) (by decide) (by decide)
     (by decide) (by decide)⟩

theorem best_price_extremum {h : Heap} {isBuy : Bool} {t : ShardedPriceTree}
    (hw : TreeWF h isBuy none t) :
    (treeLevels t = [] → ShardedPriceTreeAdapter.getBestLevel t = none ∧
      ShardedPriceTreeAdapter.getBestPrice t = 0) ∧
    (∀ L ∈ treeLevels t, ∃ B ∈ treeLevels t,
      ShardedPriceTreeAdapter.getBestPrice t = B.price ∧
      (B.price = L.price ∨ Better isBuy B.price L.price)) := by
  constructor
  · intro hemp
    cases hbk : t.buckets with
    | nil => exact (getBestLevel_spec hw).1 hbk
    | cons H rest =>
      have hHmem : H ∈ t.buckets := by rw [hbk]; exact List.mem_cons_self _ _
      have hch := (hw.2.2.2.1 H hHmem).2.2.2.2.1
      obtain ⟨M, tl, hHC⟩ := List.exists_cons_of_ne_nil hch
      have hmm : M ∈ treeLevels t := by
        unfold treeLevels
        refine List.mem_flatMap.mpr ⟨H, hHmem, ?_⟩
        rw [hHC]
        exact List.mem_cons_self _ _
      rw [hemp] at hmm
      exact absurd hmm (List.not_mem_nil M)
  · intro L hL
    obtain ⟨b, hb, hLb⟩ := List.mem_flatMap.mp hL
    cases hbk : t.buckets with
    | nil => rw [hbk] at hb; exact absurd hb (List.not_mem_nil b)
    | cons H rest =>
      obtain ⟨B, hBL, hhead, hBmem, hbp, hp0⟩ := (getBestLevel_spec hw).2 H rest hbk
      have hHmem : H ∈ t.buckets := by rw [hbk]; exact List.mem_cons_self _ _
      refine ⟨B, List.mem_flatMap.mpr ⟨H, hHmem, hBmem⟩, hbp, ?_⟩
      by_cases hbH : b = H
      · subst hbH
        have hpw := (hw.2.2.2.1 b hb).2.2.2.2.2.1
        obtain ⟨tl, hHC⟩ : ∃ tl, b.chain = B :: tl := by
          cases hc : b.chain with
          | nil => rw [hc] at hhead; exact Option.noConfusion hhead
          | cons M tl =>
            rw [hc] at hhead
            simp only [List.head?_cons] at hhead
            refine ⟨tl, ?_⟩
            rw [Option.some_injective _ hhead]
        rw [hHC] at hLb hpw
        rcases List.mem_cons.mp hLb with rfl | hL'
        · exact Or.inl rfl
        · exact Or.inr ((List.pairwise_cons.mp hpw).1 L hL')
      · have hpwb := hw.2.2.1
        rw [hbk] at hpwb
        have hbrest : b ∈ rest := by
          rw [hbk] at hb
          rcases List.mem_cons.mp hb with rfl | h'
          · exact absurd rfl hbH
          · exact h'
        have hbet : Better isBuy H.bucketID b.bucketID :=
          (List.pairwise_cons.mp hpwb).1 b hbrest
        have hBfact := (hw.2.2.2.1 H hHmem).2.2.2.2.2.2.1 B hBmem
        have hLfact := (hw.2.2.2.1 b hb).2.2.2.2.2.2.1 L hLb
        have hdb : Better isBuy (Int.tdiv B.price 128) (Int.tdiv L.price 128) := by
          rw [hBfact.2.1, hLfact.2.1]
          exact hbet
        exact Or.inr (better_of_bucket (le_of_lt hBfact.1) (le_of_lt hLfact.1) hdb)

/-- C5: on every well-formed run, for each side of the book the cached
best-price query returns 0 when the side has no levels, and otherwise a
price attained by one of the side's levels that is extremal over all of
them: maximal for bids, minimal for asks. -/
theorem C5_best_price_extremum {symbol : String} {evs : List Event}
    (hwf : eventsWF (NewMatchingEngine symbol) evs = true) :
    (treeLevels (runEvents symbol evs).1.book.bids = [] →
      OrderBook.getBestBid (runEvents symbol evs).1.book = 0) ∧
    (∀ L ∈ treeLevels (runEvents symbol evs).1.book.bids,
      ∃ B ∈ treeLevels (runEvents symbol evs).1.book.bids,
        OrderBook.getBestBid (runEvents symbol evs).1.book = B.price ∧
        L.price ≤ B.price) ∧
    (treeLevels (runEvents symbol evs).1.book.asks = [] →
      OrderBook.getBestAsk (runEvents symbol evs).1.book = 0) ∧
    (∀ L ∈ treeLevels (runEvents symbol evs).1.book.asks,
      ∃ B ∈ treeLevels (runEvents symbol evs).1.book.asks,
        OrderBook.getBestAsk (runEvents symbol evs).1.book = B.price ∧
        B.price ≤ L.price) := by
  obtain ⟨hH, hbids, hasks, h3, h4, h5, h6⟩ := runEvents_preserves hwf
  have hbidsE := best_price_extremum hbids
  have hasksE := best_price_extremum hasks
  refine ⟨fun he => (hbidsE.1 he).2, ?_, fun he => (hasksE.1 he).2, ?_⟩
  · intro L hL
    obtain ⟨B, hBmem, hbp, hor⟩ := hbidsE.2 L hL
    refine ⟨B, hBmem, hbp, ?_⟩
    rcases hor with he | hbet
    · omega
    · unfold Better at hbet
      rw [if_pos rfl] at hbet
      omega
  · intro L hL
    obtain ⟨B, hBmem, hbp, hor⟩ := hasksE.2 L hL
    refine ⟨B, hBmem, hbp, ?_⟩
    rcases hor with he | hbet
    · omega
    · unfold Better at hbet
      rw [if_neg (by decide : ¬ false = true)] at hbet
      omega

theorem C5_witness :
    eventsWF (NewMatchingEngine "S") timePriorityEvents = true ∧
    ((treeLevels (runEvents "S" timePriorityEvents).1.book.bids = [] →
      OrderBook.getBestBid (runEvents "S" timePriorityEvents).1.book = 0) ∧
    (∀ L ∈ treeLevels (runEvents "S" timePriorityEvents).1.book.bids,
      ∃ B ∈ treeLevels (runEvents "S" timePriorityEvents).1.book.bids,
        OrderBook.getBestBid (runEvents "S" timePriorityEvents).1.book = B.price ∧
        L.price ≤ B.price) ∧
    (treeLevels (runEvents "S" timePriorityEvents).1.book.asks = [] →
      OrderBook.getBestAsk (runEvents "S" timePriorityEvents).1.book = 0) ∧
    (∀ L ∈ treeLevels (runEvents "S" timePriorityEvents).1.book.asks,
      ∃ B ∈ treeLevels (runEvents "S" timePriorityEvents).1.book.asks,
        OrderBook.getBestAsk (runEvents "S" timePriorityEvents).1.book = B.price ∧
        B.price ≤ L.price)) :=
  ⟨by decide, C5_best_price_extremum (by decide)⟩

theorem land_bit_decomp (a b : Bool) (m n : Nat) :
    Nat.land (2 * m + a.toNat) (2 * n + b.toNat)
      = 2 * Nat.land m n + (a && b).toNat := by
  have h := Nat.bitwise_bit (f := and) rfl a m b n
  have hb : ∀ (c : Bool) (k : Nat), Nat.bit c k = 2 * k + c.toNat := by
    intro c k
    cases c <;> simp [Nat.bit] <;> omega
  rw [hb, hb, hb] at h
  exact h

theorem land_pred_eq_zero_iff : ∀ n : Nat, 0 < n →
    (Nat.land n (n - 1) = 0 ↔ ∃ k : Nat, n = 2 ^ k) := by
  intro n
  induction n using Nat.strong_induction_on with
  | _ n ih =>
    intro hn
    rcases Nat.even_or_odd n with he | ho
    · obtain ⟨m, hm⟩ := he
      have hm2 : n = 2 * m := by omega
      have hmpos : 0 < m := by omega
      have hsub : n - 1 = 2 * (m - 1) + 1 := by omega
      have hdec : Nat.land n (n - 1) = 2 * Nat.land m (m - 1) := by
        rw [hsub, hm2]
        have h := land_bit_decomp false true m (m - 1)
        simpa using h
      constructor
      · intro hz
        have hz2 : Nat.land m (m - 1) = 0 := by omega
        obtain ⟨k, hk⟩ := (ih m (by omega) hmpos).mp hz2
        refine ⟨k + 1, ?_⟩
        rw [hm2, hk]
        ring
      · rintro ⟨k, hk⟩
        rcases k with _ | k2
        · rw [pow_zero] at hk
          omega
        · have hmk : m = 2 ^ k2 := by
            have h2 : 2 * m = 2 * 2 ^ k2 := by
              rw [← hm2, hk]
              ring
            omega
          have := (ih m (by omega) hmpos).mpr ⟨k2, hmk⟩
          omega
    · obtain ⟨m, hm⟩ := ho
      rcases Nat.eq_zero_or_pos m with rfl | hmpos
      · have h1 : n = 1 := by omega
        constructor
        · intro _
          exact ⟨0, by rw [pow_zero]; omega⟩
        · intro _
          rw [h1]
          decide
      · have hsub : n - 1 = 2 * m := by omega
        have hdec : Nat.land n (n - 1) = 2 * Nat.land m m := by
          rw [hsub, hm]
          have h := land_bit_decomp true false m m
          simpa using h
        have hself : Nat.land m m = m := Nat.and_self m
        rw [hself] at hdec
        constructor
        · intro hz
          omega
        · rintro ⟨k, hk⟩
          exfalso
          rcases k with _ | k2
          · rw [pow_zero] at hk
            omega
          · have h2 : n = 2 * 2 ^ k2 := by
              rw [hk]
              ring
            omega

theorem toU64_small {x : Int} (h0 : 0 ≤ x) (h64 : x < 2 ^ 64) : toU64 x = x.toNat := by
  unfold toU64
  congr 1
  omega

theorem wrap64_small {x : Int} (h0 : 0 ≤ x) (h63 : x < 2 ^ 63) : wrap64 x = x := by
  unfold wrap64
  rw [toU64_small h0 (by omega)]
  unfold ofU64
  rw [if_pos (by omega : x.toNat < 2 ^ 63)]
  omega

theorem int64And_pred_zero_iff {size : Int} (h0 : 0 < size) (h63 : size < 2 ^ 63) :
    (int64And size (wrap64 (size - 1)) = 0 ↔ ∃ k : Nat, size.toNat = 2 ^ k) := by
  rw [wrap64_small (by omega) (by omega)]
  unfold int64And
  rw [toU64_small (by omega) (by omega), toU64_small (by omega) (by omega)]
  have hsub : (size - 1).toNat = size.toNat - 1 := by omega
  rw [hsub]
  have hle : Nat.land size.toNat (size.toNat - 1) ≤ size.toNat := Nat.and_le_left
  have hlt : Nat.land size.toNat (size.toNat - 1) < 2 ^ 63 := by omega
  unfold ofU64
  rw [if_pos (by exact_mod_cast hlt)]
  rw [← land_pred_eq_zero_iff size.toNat (by omega)]
  constructor
  · intro hz
    exact_mod_cast hz
  · intro hz
    exact_mod_cast congrArg (fun m : Nat => (m : Int)) hz

/-- C9 (corrected): for positive capacities in the int64 range, both
ring-buffer constructors succeed exactly when the capacity is a power of
two, and on success the empty-slot semaphore is initialised to the
capacity.  The claimed equivalence fails only at capacity 0, which the
bit test also accepts (see the counterexample). -/
theorem C9_ringbuffer_pow2 {size : Int} (h0 : 0 < size) (h63 : size < 2 ^ 63) :
    ((NewRingBufferSemaphoreBatchSafe size).isSome = true ↔ isPowerOfTwo size) ∧
    ((NewTradeRingBufferBatchSafe size).isSome = true ↔ isPowerOfTwo size) ∧
    (∀ st, NewRingBufferSemaphoreBatchSafe size = some st →
      st.emptySlots = size.toNat ∧ st.bufLen = size ∧ st.fullSlots = 0) ∧
    (∀ st, NewTradeRingBufferBatchSafe size = some st →
      st.emptySlots = size.toNat ∧ st.bufLen = size ∧ st.fullSlots = 0) := by
  have hiff := int64And_pred_zero_iff h0 h63
  have hpow : (∃ k : Nat, size.toNat = 2 ^ k) ↔ isPowerOfTwo size := by
    unfold isPowerOfTwo
    constructor
    · rintro ⟨k, hk⟩
      refine ⟨k, ?_⟩
      have : ((size.toNat : Int)) = ((2 ^ k : Nat) : Int) := by exact_mod_cast hk
      push_cast at this
      omega
    · rintro ⟨k, hk⟩
      refine ⟨k, ?_⟩
      have hc : ((2 ^ k : Nat) : Int) = 2 ^ k := by push_cast; ring
      omega
  have hsome : ∀ f : Int → Option RingBufferState,
      (f = NewRingBufferSemaphoreBatchSafe ∨ f = NewTradeRingBufferBatchSafe) →
      ((f size).isSome = true ↔ isPowerOfTwo size) ∧
      (∀ st, f size = some st →
        st.emptySlots = size.toNat ∧ st.bufLen = size ∧ st.fullSlots = 0) := by
    intro f hf
    have hfe : f size = if int64And size (wrap64 (size - 1)) ≠ 0 then none
        else if size < 0 then none
        else some ({ bufLen := size, mask := size - 1,
                     emptySlots := size.toNat, fullSlots := 0 }) := by
      rcases hf with rfl | rfl <;> rfl
    rw [hfe]
    by_cases hz : int64And size (wrap64 (size - 1)) = 0
    · rw [if_neg (by simpa using hz), if_neg (by omega)]
      refine ⟨?_, ?_⟩
      · simp only [Option.isSome_some, true_iff]
        exact hpow.mp (hiff.mp hz)
      · intro st hst
        have hst2 := Option.some_injective _ hst.symm
        rw [hst2]
        exact ⟨rfl, rfl, rfl⟩
    · rw [if_pos (by simpa using hz)]
      refine ⟨?_, ?_⟩
      · simp only [Option.isSome_none, Bool.false_eq_true, false_iff]
        intro hp
        exact hz (hiff.mpr (hpow.mpr hp))
      · intro st hst
        exact Option.noConfusion hst
  exact ⟨(hsome _ (Or.inl rfl)).1, (hsome _ (Or.inr rfl)).1,
    (hsome _ (Or.inl rfl)).2, (hsome _ (Or.inr rfl)).2⟩

theorem C9_witness :
    (0 : Int) < 8 ∧ (8 : Int) < 2 ^ 63 ∧
    (((NewRingBufferSemaphoreBatchSafe 8).isSome = true ↔ isPowerOfTwo 8) ∧
    ((NewTradeRingBufferBatchSafe 8).isSome = true ↔ isPowerOfTwo 8) ∧
    (∀ st, NewRingBufferSemaphoreBatchSafe 8 = some st →
      st.emptySlots = (8 : Int).toNat ∧ st.bufLen = 8 ∧ st.fullSlots = 0) ∧
    (∀ st, NewTradeRingBufferBatchSafe 8 = some st →
      st.emptySlots = (8 : Int).toNat ∧ st.bufLen = 8 ∧ st.fullSlots = 0)) :=
  ⟨by norm_num, by norm_num, C9_ringbuffer_pow2 (by norm_num) (by norm_num)⟩

theorem C9_counterexample :
    (NewRingBufferSemaphoreBatchSafe 0).isSome = true ∧
    (NewTradeRingBufferBatchSafe 0).isSome = true ∧
    ¬ isPowerOfTwo 0 ∧
    (NewRingBufferSemaphoreBatchSafe 0).map RingBufferState.bufLen = some 0 := by
  refine ⟨by decide, by decide, ?_, by decide⟩
  rintro ⟨k, hk⟩
  have h2 : (0:Int) < 2 ^ k := pow_pos (by norm_num) k
  omega

theorem heapSet_set (h : Heap) (k : String) (v w : Order) :
    heapSet (heapSet h k v) k w = heapSet h k w := by
  induction h with
  | nil => simp [heapSet]
  | cons q rest ih =>
    obtain ⟨k1, v1⟩ := q
    by_cases hk : k1 = k
    · simp [heapSet, hk]
    · simp [heapSet, hk, ih]

theorem bucketsGet_append (pre post : List Bucket) (b : Bucket)
    (hpre : ∀ d ∈ pre, (d : Bucket).bucketID ≠ b.bucketID) :
    bucketsGet (pre ++ b :: post) b.bucketID = some b := by
  induction pre with
  | nil => simp [bucketsGet]
  | cons d rest ih =>
    have hd : d.bucketID ≠ b.bucketID := hpre d (List.mem_cons_self _ _)
    simp only [List.cons_append, bucketsGet, hd, if_false]
    exact ih (fun e he => hpre e (List.mem_cons_of_mem _ he))

theorem bucketsPut_fresh_split (isBuy : Bool) (b : Bucket) (bs : List Bucket)
    (hfresh : b.bucketID ∉ bs.map Bucket.bucketID) :
    ∃ pre post, bs = pre ++ post ∧ bucketsPut isBuy b bs = pre ++ b :: post ∧
      ∀ d ∈ pre, (d : Bucket).bucketID ≠ b.bucketID := by
  induction bs with
  | nil => exact ⟨[], [], rfl, rfl, by simp⟩
  | cons c rest ih =>
    rw [List.map_cons, List.mem_cons] at hfresh
    push_neg at hfresh
    by_cases hb : isBetterBucket isBuy b.bucketID c.bucketID
    · refine ⟨[], c :: rest, rfl, ?_, by simp⟩
      simp [bucketsPut, Ne.symm hfresh.1, hb]
    · obtain ⟨pre, post, h1, h2, h3⟩ := ih hfresh.2
      refine ⟨c :: pre, post, by simp [h1], ?_, ?_⟩
      · simp only [bucketsPut, Ne.symm hfresh.1, if_false, hb, List.cons_append]
        rw [h2]
        simp
      · intro d hd
        rcases List.mem_cons.mp hd with rfl | hd'
        · exact fun he => hfresh.1 he.symm
        · exact h3 d hd'

theorem chainModify_insert (isBuy : Bool) (f : PriceLevel → PriceLevel)
    (L : PriceLevel) (c : List PriceLevel)
    (hfresh : L.price ∉ c.map PriceLevel.price) (hfp : (f L).price = L.price) :
    chainModify L.price f (chainInsert isBuy L c) = chainInsert isBuy (f L) c := by
  induction c with
  | nil => simp [chainInsert, chainModify]
  | cons M rest ih =>
    rw [List.map_cons, List.mem_cons] at hfresh
    push_neg at hfresh
    by_cases hb : isBetterPrice isBuy L.price M.price
    · rw [chainInsert_cons_better rest hb]
      have hb2 : isBetterPrice isBuy (f L).price M.price = true := by rw [hfp]; exact hb
      rw [chainInsert_cons_better rest hb2]
      simp [chainModify]
    · rw [chainInsert_cons_worse rest (by simpa using hb)]
      have hb2 : ¬ isBetterPrice isBuy (f L).price M.price = true := by
        rw [hfp]; simpa using hb
      rw [chainInsert_cons_worse rest (by simpa using hb2)]
      simp only [chainModify, Ne.symm hfresh.1, if_false, List.cons.injEq, true_and]
      exact ih hfresh.2

theorem chainRemove_insert (isBuy : Bool) (L : PriceLevel) (c : List PriceLevel)
    (hfresh : L.price ∉ c.map PriceLevel.price) :
    chainRemove L.price (chainInsert isBuy L c) = c := by
  induction c with
  | nil => simp [chainInsert, chainRemove]
  | cons M rest ih =>
    rw [List.map_cons, List.mem_cons] at hfresh
    push_neg at hfresh
    by_cases hb : isBetterPrice isBuy L.price M.price
    · rw [chainInsert_cons_better rest hb]
      simp [chainRemove]
    · rw [chainInsert_cons_worse rest (by simpa using hb)]
      simp only [chainRemove, Ne.symm hfresh.1, if_false, List.cons.injEq, true_and]
      exact ih hfresh.2

theorem chainFind_insert (isBuy : Bool) (L : PriceLevel) (c : List PriceLevel)
    (hfresh : L.price ∉ c.map PriceLevel.price) :
    chainFind L.price (chainInsert isBuy L c) = some L := by
  induction c with
  | nil => simp [chainInsert, chainFind]
  | cons M rest ih =>
    rw [List.map_cons, List.mem_cons] at hfresh
    push_neg at hfresh
    by_cases hb : isBetterPrice isBuy L.price M.price
    · rw [chainInsert_cons_better rest hb]
      simp [chainFind]
    · rw [chainInsert_cons_worse rest (by simpa using hb)]
      simp only [chainFind, Ne.symm hfresh.1, if_false]
      exact ih hfresh.2

theorem chainModify_map_price (p : Int) (f : PriceLevel → PriceLevel)
    (c : List PriceLevel) (hf : ∀ L, (f L).price = L.price) :
    (chainModify p f c).map PriceLevel.price = c.map PriceLevel.price := by
  induction c with
  | nil => simp [chainModify]
  | cons M rest ih =>
    by_cases hp : M.price = p
    · simp [chainModify, hp, hf]
    · simp [chainModify, hp, ih]

theorem slotsErase_set (s : List (Int × Int)) (i p : Int)
    (hfresh : i ∉ s.map Prod.fst) : slotsErase (slotsSet s i p) i = s := by
  induction s with
  | nil => simp [slotsSet, slotsErase]
  | cons q rest ih =>
    obtain ⟨i1, p1⟩ := q
    rw [List.map_cons, List.mem_cons] at hfresh
    push_neg at hfresh
    simp only [slotsSet, Ne.symm hfresh.1, if_false, slotsErase,
      List.cons.injEq, true_and]
    exact ih hfresh.2

theorem slot_price_unique {h : Heap} {isBuy : Bool} {x : Option String} {b : Bucket}
    {o : Order} {p : Int}
    (hbwf : BucketWF h isBuy x b)
    (hpos : 0 < o.price)
    (hdiv : Int.tdiv o.price 128 = b.bucketID)
    (hsg : slotsGet b.slots (int64And o.price 127) = some p) :
    p = o.price := by
  obtain ⟨w1, w2, w3, w4, w5, w6, w7, w8, w9, w10⟩ := hbwf
  have hmem := slotsGet_some_mem hsg
  obtain ⟨hi, hp⟩ := w8 _ hmem
  have hi2 : int64And o.price 127 = int64And p 127 := hi
  have hp2 : p ∈ b.chain.map PriceLevel.price := hp
  obtain ⟨L, hL, hLp⟩ := List.mem_map.mp hp2
  obtain ⟨z1, z2, z3⟩ := w7 L hL
  rw [← hLp]
  refine price_inj (le_of_lt z1) (le_of_lt hpos) ?_ ?_
  · rw [z2, hdiv]
  · rw [hLp]
    exact hi2.symm

theorem chainModify_append (p : Int) (f : PriceLevel → PriceLevel)
    (pre post : List PriceLevel) (M : PriceLevel)
    (hM : M.price = p) (hpre : ∀ N ∈ pre, (N : PriceLevel).price ≠ p) :
    chainModify p f (pre ++ M :: post) = pre ++ f M :: post := by
  induction pre with
  | nil => simp [chainModify, hM]
  | cons N rest ih =>
    have hN : N.price ≠ p := hpre N (List.mem_cons_self _ _)
    simp only [List.cons_append, chainModify, hN, if_false]
    show N :: chainModify p f (rest ++ M :: post) = N :: (rest ++ f M :: post)
    rw [ih (fun e he => hpre e (List.mem_cons_of_mem _ he))]

theorem chainModify_modify_id (p : Int) (f g : PriceLevel → PriceLevel)
    (c : List PriceLevel)
    (hfp : ∀ L, (f L).price = L.price)
    (hfg : ∀ L ∈ c, g (f L) = L) :
    chainModify p g (chainModify p f c) = c := by
  induction c with
  | nil => simp [chainModify]
  | cons M rest ih =>
    by_cases hp : M.price = p
    · simp only [chainModify, hp, if_true, if_pos]
      have hfMp : (f M).price = p := by rw [hfp]; exact hp
      simp only [chainModify, hfMp, if_true, if_pos]
      rw [hfg M (List.mem_cons_self _ _)]
    · simp only [chainModify, hp, if_false]
      rw [ih (fun L hL => hfg L (List.mem_cons_of_mem _ hL))]

theorem roundtrip_existing_level {h : Heap} {isBuy : Bool} {t : ShardedPriceTree}
    {oid : String} {o : Order} {b : Bucket} {p : Int}
    (hw : TreeWF h isBuy none t)
    (hg : heapGet h oid = some o)
    (hle : o.listElement = false)
    (hpos : 0 < o.price)
    (hbg : bucketsGet t.buckets (Int.tdiv o.price t.bucketSize) = some b)
    (hslot : slotsGet b.slots (int64And o.price b.bucketMask) = some p) :
    ShardedPriceTreeAdapter.remove (ShardedPriceTreeAdapter.insert h t oid).1
        (ShardedPriceTreeAdapter.insert h t oid).2 oid
      = (heapSet h oid { o with listElement := false }, t) := by
  have hfresh : oid ∉ treeIds t := rest_not_mem hw hg hle
  obtain ⟨q1, q2, q3, q4, q5, q6⟩ := hw
  obtain ⟨hbmem, hbid⟩ := bucketsGet_some hbg
  have hbwf := q4 b hbmem
  have hmask : b.bucketMask = 127 := hbwf.2.2.1
  have hdiv : Int.tdiv o.price 128 = b.bucketID := by rw [← q2, hbid]
  have hfreshb : oid ∉ b.chain.flatMap PriceLevel.orders := fun hz =>
    hfresh (List.mem_flatMap.mpr ⟨b, hbmem, hz⟩)
  have hslot127 : slotsGet b.slots (int64And o.price 127) = some p := by
    rw [← hmask]; exact hslot
  have hpeq : p = o.price := slot_price_unique hbwf hpos hdiv hslot127
  subst hpeq
  have hpmem : o.price ∈ b.chain.map PriceLevel.price := by
    have hmem := slotsGet_some_mem hslot
    exact (hbwf.2.2.2.2.2.2.2.1 _ hmem).2
  have hndp : (b.chain.map PriceLevel.price).Nodup :=
    chain_prices_nodup hbwf.2.2.2.2.2.1
  obtain ⟨L0, hL0mem, hL0p⟩ := List.mem_map.mp hpmem
  have hfind : chainFind o.price b.chain = some L0 := by
    rw [← hL0p]
    exact chainFind_mem hndp hL0mem
  have hchainid : chainModify o.price (fun L =>
      { L with orders := L.orders.erase oid,
               volume := L.volume - o.remainingQuantity })
      (chainModify o.price (fun L =>
        { L with orders := L.orders ++ [oid],
                 volume := L.volume + o.remainingQuantity }) b.chain) = b.chain := by
    refine chainModify_modify_id _ _ _ _ (fun L => rfl) ?_
    intro L hL
    have hnotin : oid ∉ L.orders := fun hz =>
      hfreshb (List.mem_flatMap.mpr ⟨L, hL, hz⟩)
    show ({ L with orders := (L.orders ++ [oid]).erase oid,
                   volume := L.volume + o.remainingQuantity - o.remainingQuantity }
      : PriceLevel) = L
    have h1 : (L.orders ++ [oid]).erase oid = L.orders := by
      rw [List.erase_append_right _ hnotin]
      simp
    have h2 : L.volume + o.remainingQuantity - o.remainingQuantity = L.volume := by
      ring
    rw [h1, h2]
  -- the inserted bucket
  set b2 : Bucket := { b with chain := chainModify o.price (fun L =>
      { L with orders := L.orders ++ [oid],
               volume := L.volume + o.remainingQuantity }) b.chain } with hb2def
  have hb2id : b2.bucketID = b.bucketID := rfl
  have hmemid : b2.bucketID ∈ t.buckets.map Bucket.bucketID := by
    rw [hb2id]
    exact List.mem_map.mpr ⟨b, hbmem, rfl⟩
  have hputeq : bucketsPut t.isBuy b2 t.buckets = bucketsSet b2 t.buckets :=
    bucketsPut_existing (by rw [q1]; exact q3) hmemid
  have hget2 : bucketsGet t.buckets b2.bucketID = some b := by
    rw [hb2id, hbid]
    exact hbg
  obtain ⟨pre, post, hbsplit, hsetsplit, hprene⟩ := bucketsSet_split b2 hget2
  have hdivb2 : Int.tdiv o.price t.bucketSize = b2.bucketID := by
    rw [hb2id]; exact hbid.symm
  have hbg2 : bucketsGet (bucketsPut t.isBuy b2 t.buckets)
      (Int.tdiv o.price t.bucketSize) = some b2 := by
    rw [hputeq, hsetsplit, hdivb2]
    exact bucketsGet_append pre post b2 hprene
  -- the re-assembled bucket list after the remove writes back
  have hsetback : bucketsSet b (bucketsPut t.isBuy b2 t.buckets) = t.buckets := by
    rw [hputeq, hsetsplit]
    rw [bucketsSet_append pre post b2 b rfl hprene]
    exact hbsplit.symm
  -- the level found by the remove is non-empty
  have hlvlwf := (hbwf.2.2.2.2.2.2.1 L0 hL0mem).2.2
  have hL0ne : L0.orders ≠ [] := hlvlwf.1
  have hlen0 : ¬ (L0.orders.length = 0) := by
    intro hz
    exact hL0ne (List.length_eq_zero.mp hz)
  -- the head bucket
  cases hbl : t.buckets with
  | nil => rw [hbl] at hbmem; simp at hbmem
  | cons H rest =>
  rw [hbl] at q5 q6
  simp only [List.head?_cons, Option.map_some', Option.some_bind] at q5 q6
  have hnb : ¬ (isBetterBucket t.isBuy (Int.tdiv o.price t.bucketSize)
      H.bucketID = true) := by
    intro hx
    rw [q1] at hx
    have hbet := isBetterBucket_iff.mp hx
    rw [← hbid] at hbet
    rw [hbl] at hbmem
    rcases List.mem_cons.mp hbmem with rfl | hbr
    · exact hbet.irrefl
    · rw [hbl, List.pairwise_cons] at q3
      exact (q3.1 b hbr).asymm hbet
  by_cases hbH : b = H
  · have heqid : Int.tdiv o.price t.bucketSize = H.bucketID := by
      rw [← hbH]; exact hbid.symm
    have hins : ShardedPriceTreeAdapter.insert h t oid
        = (heapSet h oid { o with listElement := true },
           { t with buckets := bucketsPut t.isBuy b2 t.buckets,
                    bestPrice := (b2.chain.head?).map (fun L => L.price) }) := by
      simp only [ShardedPriceTreeAdapter.insert, hg, hbg, hslot, q5]
      rw [if_neg hnb, if_pos heqid]
    rw [hins]
    have hrq : ({ o with listElement := true } : Order).remainingQuantity
        = o.remainingQuantity := rfl
    have hrem : ShardedPriceTreeAdapter.remove
        (heapSet h oid { o with listElement := true })
        { t with buckets := bucketsPut t.isBuy b2 t.buckets,
                 bestPrice := (b2.chain.head?).map (fun L => L.price) } oid
        = (heapSet h oid { o with listElement := false },
           { t with buckets := t.buckets,
                    bestPrice := (b2.chain.head?).map (fun L => L.price) }) := by
      simp only [ShardedPriceTreeAdapter.remove, heapGet_set_self, hbg2, hb2def,
        hslot, if_true, hrq, hchainid, Bucket.findLevel, hfind, Option.map_some',
        Option.getD_some, heapSet_set, hsetback]
      rw [if_neg hlen0]
    rw [hrem]
    have hcache : (b2.chain.head?).map (fun L => L.price) = t.bestPrice := by
      rw [q6]
      have hmp : (b2.chain.map PriceLevel.price) = b.chain.map PriceLevel.price := by
        rw [hb2def]
        exact chainModify_map_price _ _ _ (fun L => rfl)
      have hh := head_price_of_map_eq hmp
      rw [hbH] at hh
      exact hh
    rw [hcache]
  · have hneid : ¬ (Int.tdiv o.price t.bucketSize = H.bucketID) := by
      intro hx
      rw [hbl] at hbmem
      rcases List.mem_cons.mp hbmem with rfl | hbr
      · exact hbH rfl
      · rw [hbl, List.pairwise_cons] at q3
        exact (Better.ne (q3.1 b hbr)) (hbid.trans hx).symm
    have hins : ShardedPriceTreeAdapter.insert h t oid
        = (heapSet h oid { o with listElement := true },
           { t with buckets := bucketsPut t.isBuy b2 t.buckets }) := by
      simp only [ShardedPriceTreeAdapter.insert, hg, hbg, hslot, q5]
      rw [if_neg hnb, if_neg hneid]
    rw [hins]
    have hrq : ({ o with listElement := true } : Order).remainingQuantity
        = o.remainingQuantity := rfl
    have hrem : ShardedPriceTreeAdapter.remove
        (heapSet h oid { o with listElement := true })
        { t with buckets := bucketsPut t.isBuy b2 t.buckets } oid
        = (heapSet h oid { o with listElement := false },
           { t with buckets := t.buckets }) := by
      simp only [ShardedPriceTreeAdapter.remove, heapGet_set_self, hbg2, hb2def,
        hslot, if_true, hrq, hchainid, Bucket.findLevel, hfind, Option.map_some',
        Option.getD_some, heapSet_set, hsetback]
      rw [if_neg hlen0]
    rw [hrem]

theorem roundtrip_new_level {h : Heap} {isBuy : Bool} {t : ShardedPriceTree}
    {oid : String} {o : Order} {b : Bucket}
    (hw : TreeWF h isBuy none t)
    (hg : heapGet h oid = some o)
    (hle : o.listElement = false)
    (hpos : 0 < o.price)
    (hbg : bucketsGet t.buckets (Int.tdiv o.price t.bucketSize) = some b)
    (hslot : slotsGet b.slots (int64And o.price b.bucketMask) = none) :
    ShardedPriceTreeAdapter.remove (ShardedPriceTreeAdapter.insert h t oid).1
        (ShardedPriceTreeAdapter.insert h t oid).2 oid
      = (heapSet h oid { o with listElement := false }, t) := by
  have hfresh : oid ∉ treeIds t := rest_not_mem hw hg hle
  obtain ⟨q1, q2, q3, q4, q5, q6⟩ := hw
  obtain ⟨hbmem, hbid⟩ := bucketsGet_some hbg
  have hbwf := q4 b hbmem
  have hmask : b.bucketMask = 127 := hbwf.2.2.1
  have hdiv : Int.tdiv o.price 128 = b.bucketID := by rw [← q2, hbid]
  have hpfresh : o.price ∉ b.chain.map PriceLevel.price := by
    intro hmem
    obtain ⟨L, hL, hLp⟩ := List.mem_map.mp hmem
    have h9 := hbwf.2.2.2.2.2.2.2.2.1 L hL
    rw [hLp] at h9
    have hsg := slotsGet_mem_nodup hbwf.2.2.2.2.2.2.2.2.2 h9
    rw [← hmask] at hsg
    rw [hslot] at hsg
    exact Option.noConfusion hsg
  have hidxfresh : int64And o.price b.bucketMask ∉ b.slots.map Prod.fst :=
    (slotsGet_none_iff b.slots (int64And o.price b.bucketMask)).mp hslot
  have hbsz : ¬ (b.size = 0) := by
    intro h0
    have hlp : 0 < b.chain.length := List.length_pos.mpr hbwf.2.2.2.2.1
    rw [hbwf.2.2.2.1] at h0
    omega
  have hfnew : (fun L => ({ L with orders := L.orders ++ [oid], volume := L.volume + o.remainingQuantity } : PriceLevel)) ({ price := o.price, orders := [], volume := 0 } : PriceLevel) = { price := o.price, orders := [oid], volume := o.remainingQuantity } := by
    simp
  have hchmod : chainModify o.price (fun L => ({ L with orders := L.orders ++ [oid], volume := L.volume + o.remainingQuantity } : PriceLevel)) (chainInsert b.isBuy { price := o.price, orders := [], volume := 0 } b.chain) = chainInsert b.isBuy { price := o.price, orders := [oid], volume := o.remainingQuantity } b.chain := by
    have hx := chainModify_insert b.isBuy (fun L => ({ L with orders := L.orders ++ [oid], volume := L.volume + o.remainingQuantity } : PriceLevel)) ({ price := o.price, orders := [], volume := 0 } : PriceLevel) b.chain hpfresh rfl
    rw [hfnew] at hx
    exact hx
  have hgf2 : (fun L => ({ L with orders := L.orders.erase oid, volume := L.volume - o.remainingQuantity } : PriceLevel)) ({ price := o.price, orders := [oid], volume := o.remainingQuantity } : PriceLevel) = { price := o.price, orders := [], volume := 0 } := by
    simp
  have hchrem2 : chainModify o.price (fun L => ({ L with orders := L.orders.erase oid, volume := L.volume - o.remainingQuantity } : PriceLevel)) (chainInsert b.isBuy { price := o.price, orders := [oid], volume := o.remainingQuantity } b.chain) = chainInsert b.isBuy { price := o.price, orders := [], volume := 0 } b.chain := by
    have hx := chainModify_insert b.isBuy (fun L => ({ L with orders := L.orders.erase oid, volume := L.volume - o.remainingQuantity } : PriceLevel)) ({ price := o.price, orders := [oid], volume := o.remainingQuantity } : PriceLevel) b.chain hpfresh rfl
    rw [hgf2] at hx
    exact hx
  have hfindB : chainFind o.price (chainInsert b.isBuy { price := o.price, orders := [], volume := 0 } b.chain) = some { price := o.price, orders := [], volume := 0 } :=
    chainFind_insert b.isBuy ({ price := o.price, orders := [], volume := 0 } : PriceLevel) b.chain hpfresh
  have hchrem3 : chainRemove o.price (chainInsert b.isBuy { price := o.price, orders := [], volume := 0 } b.chain) = b.chain :=
    chainRemove_insert b.isBuy ({ price := o.price, orders := [], volume := 0 } : PriceLevel) b.chain hpfresh
  have hserase : slotsErase (slotsSet b.slots (int64And o.price b.bucketMask) o.price)
      (int64And o.price b.bucketMask) = b.slots :=
    slotsErase_set _ _ _ hidxfresh
  have hslotB : slotsGet (slotsSet b.slots (int64And o.price b.bucketMask) o.price)
      (int64And o.price b.bucketMask) = some o.price :=
    slotsGet_set_self _ _ _
  have hsz : b.size + 1 - 1 = b.size := by ring
  have hbkid : ({ b with slots := slotsSet b.slots (int64And o.price b.bucketMask) o.price, size := b.size + 1, chain := chainInsert b.isBuy { price := o.price, orders := [oid], volume := o.remainingQuantity } b.chain } : Bucket).bucketID = b.bucketID := rfl
  have hmemid : ({ b with slots := slotsSet b.slots (int64And o.price b.bucketMask) o.price, size := b.size + 1, chain := chainInsert b.isBuy { price := o.price, orders := [oid], volume := o.remainingQuantity } b.chain } : Bucket).bucketID ∈ t.buckets.map Bucket.bucketID := by
    rw [hbkid]
    exact List.mem_map.mpr ⟨b, hbmem, rfl⟩
  have hputeq : bucketsPut t.isBuy { b with slots := slotsSet b.slots (int64And o.price b.bucketMask) o.price, size := b.size + 1, chain := chainInsert b.isBuy { price := o.price, orders := [oid], volume := o.remainingQuantity } b.chain } t.buckets = bucketsSet { b with slots := slotsSet b.slots (int64And o.price b.bucketMask) o.price, size := b.size + 1, chain := chainInsert b.isBuy { price := o.price, orders := [oid], volume := o.remainingQuantity } b.chain } t.buckets :=
    bucketsPut_existing (by rw [q1]; exact q3) hmemid
  have hget2 : bucketsGet t.buckets ({ b with slots := slotsSet b.slots (int64And o.price b.bucketMask) o.price, size := b.size + 1, chain := chainInsert b.isBuy { price := o.price, orders := [oid], volume := o.remainingQuantity } b.chain } : Bucket).bucketID = some b := by
    rw [hbkid, hbid]
    exact hbg
  obtain ⟨pre, post, hbsplit, hsetsplit, hprene⟩ := bucketsSet_split ({ b with slots := slotsSet b.slots (int64And o.price b.bucketMask) o.price, size := b.size + 1, chain := chainInsert b.isBuy { price := o.price, orders := [oid], volume := o.remainingQuantity } b.chain } : Bucket) hget2
  have hdivbk : Int.tdiv o.price t.bucketSize = ({ b with slots := slotsSet b.slots (int64And o.price b.bucketMask) o.price, size := b.size + 1, chain := chainInsert b.isBuy { price := o.price, orders := [oid], volume := o.remainingQuantity } b.chain } : Bucket).bucketID := by
    rw [hbkid]; exact hbid.symm
  have hbg2 : bucketsGet (bucketsPut t.isBuy { b with slots := slotsSet b.slots (int64And o.price b.bucketMask) o.price, size := b.size + 1, chain := chainInsert b.isBuy { price := o.price, orders := [oid], volume := o.remainingQuantity } b.chain } t.buckets)
      (Int.tdiv o.price t.bucketSize) = some { b with slots := slotsSet b.slots (int64And o.price b.bucketMask) o.price, size := b.size + 1, chain := chainInsert b.isBuy { price := o.price, orders := [oid], volume := o.remainingQuantity } b.chain } := by
    rw [hputeq, hsetsplit, hdivbk]
    exact bucketsGet_append pre post ({ b with slots := slotsSet b.slots (int64And o.price b.bucketMask) o.price, size := b.size + 1, chain := chainInsert b.isBuy { price := o.price, orders := [oid], volume := o.remainingQuantity } b.chain } : Bucket) hprene
  have hset1 : bucketsSet { b with slots := slotsSet b.slots (int64And o.price b.bucketMask) o.price, size := b.size + 1, chain := chainInsert b.isBuy { price := o.price, orders := [], volume := 0 } b.chain } (bucketsPut t.isBuy { b with slots := slotsSet b.slots (int64And o.price b.bucketMask) o.price, size := b.size + 1, chain := chainInsert b.isBuy { price := o.price, orders := [oid], volume := o.remainingQuantity } b.chain } t.buckets)
      = pre ++ { b with slots := slotsSet b.slots (int64And o.price b.bucketMask) o.price, size := b.size + 1, chain := chainInsert b.isBuy { price := o.price, orders := [], volume := 0 } b.chain } :: post := by
    rw [hputeq, hsetsplit]
    exact bucketsSet_append pre post ({ b with slots := slotsSet b.slots (int64And o.price b.bucketMask) o.price, size := b.size + 1, chain := chainInsert b.isBuy { price := o.price, orders := [oid], volume := o.remainingQuantity } b.chain } : Bucket) ({ b with slots := slotsSet b.slots (int64And o.price b.bucketMask) o.price, size := b.size + 1, chain := chainInsert b.isBuy { price := o.price, orders := [], volume := 0 } b.chain } : Bucket) rfl hprene
  have hbg3 : bucketsGet (pre ++ { b with slots := slotsSet b.slots (int64And o.price b.bucketMask) o.price, size := b.size + 1, chain := chainInsert b.isBuy { price := o.price, orders := [], volume := 0 } b.chain } :: post) (Int.tdiv o.price t.bucketSize)
      = some { b with slots := slotsSet b.slots (int64And o.price b.bucketMask) o.price, size := b.size + 1, chain := chainInsert b.isBuy { price := o.price, orders := [], volume := 0 } b.chain } := by
    rw [show Int.tdiv o.price t.bucketSize = ({ b with slots := slotsSet b.slots (int64And o.price b.bucketMask) o.price, size := b.size + 1, chain := chainInsert b.isBuy { price := o.price, orders := [], volume := 0 } b.chain } : Bucket).bucketID from hdivbk]
    exact bucketsGet_append pre post ({ b with slots := slotsSet b.slots (int64And o.price b.bucketMask) o.price, size := b.size + 1, chain := chainInsert b.isBuy { price := o.price, orders := [], volume := 0 } b.chain } : Bucket) hprene
  have hsetback2 : bucketsSet b (pre ++ { b with slots := slotsSet b.slots (int64And o.price b.bucketMask) o.price, size := b.size + 1, chain := chainInsert b.isBuy { price := o.price, orders := [], volume := 0 } b.chain } :: post) = t.buckets := by
    rw [bucketsSet_append pre post ({ b with slots := slotsSet b.slots (int64And o.price b.bucketMask) o.price, size := b.size + 1, chain := chainInsert b.isBuy { price := o.price, orders := [], volume := 0 } b.chain } : Bucket) b rfl hprene]
    exact hbsplit.symm
  have hrq : ({ o with listElement := true } : Order).remainingQuantity
      = o.remainingQuantity := rfl
  cases hbl : t.buckets with
  | nil => rw [hbl] at hbmem; simp at hbmem
  | cons H rest =>
  rw [hbl] at q5 q6
  simp only [List.head?_cons, Option.map_some', Option.some_bind] at q5 q6
  have hHmem : H ∈ t.buckets := by rw [hbl]; exact List.mem_cons_self _ _
  have hbwfH := q4 H hHmem
  obtain ⟨M0, tl0, hHC0⟩ := List.exists_cons_of_ne_nil hbwfH.2.2.2.2.1
  have hM0mem : M0 ∈ H.chain := by rw [hHC0]; exact List.mem_cons_self _ _
  have hq6M0 : t.bestPrice = some M0.price := by rw [q6, hHC0]; rfl
  have hheadq : t.buckets.head? = some H := by rw [hbl]; rfl
  have hHC0h : H.chain.head? = some M0 := by rw [hHC0]; rfl
  have hnb : ¬ (isBetterBucket t.isBuy (Int.tdiv o.price t.bucketSize)
      H.bucketID = true) := by
    intro hx
    rw [q1] at hx
    have hbet := isBetterBucket_iff.mp hx
    rw [← hbid] at hbet
    rw [hbl] at hbmem
    rcases List.mem_cons.mp hbmem with rfl | hbr
    · exact hbet.irrefl
    · rw [hbl, List.pairwise_cons] at q3
      exact (q3.1 b hbr).asymm hbet
  by_cases hbH : b = H
  · have heqid : Int.tdiv o.price t.bucketSize = H.bucketID := by
      rw [← hbH]; exact hbid.symm
    have hM0ne : ¬ (some M0.price = some (o.price : Int)) := by
      intro he
      have he2 : M0.price = o.price := Option.some_injective _ he
      refine hpfresh ?_
      rw [← he2, hbH]
      exact List.mem_map.mpr ⟨M0, hM0mem, rfl⟩
    have hbchain : b.chain = M0 :: tl0 := by rw [hbH]; exact hHC0
    have hins : ShardedPriceTreeAdapter.insert h t oid
        = (heapSet h oid { o with listElement := true },
           { t with buckets := bucketsPut t.isBuy { b with slots := slotsSet b.slots (int64And o.price b.bucketMask) o.price, size := b.size + 1, chain := chainInsert b.isBuy { price := o.price, orders := [oid], volume := o.remainingQuantity } b.chain } t.buckets,
                    bestPrice := ((chainInsert b.isBuy { price := o.price, orders := [oid], volume := o.remainingQuantity } b.chain).head?).map (fun L => L.price) }) := by
      simp only [ShardedPriceTreeAdapter.insert, hg, hbg, hslot, Bucket.insert, q5]
      rw [if_neg hnb, if_pos heqid, hchmod]
    rw [hins]
    by_cases hbp : isBetterPrice b.isBuy o.price M0.price
    · have hcv2 : ((chainInsert b.isBuy { price := o.price, orders := [oid], volume := o.remainingQuantity } b.chain).head?).map (fun L => L.price)
          = some o.price := by
        rw [chainInsert_head, hbchain]
        simp only [List.head?_cons]
        rw [if_pos hbp]
        rfl
      have hrem : ShardedPriceTreeAdapter.remove
          (heapSet h oid { o with listElement := true })
          { t with buckets := bucketsPut t.isBuy { b with slots := slotsSet b.slots (int64And o.price b.bucketMask) o.price, size := b.size + 1, chain := chainInsert b.isBuy { price := o.price, orders := [oid], volume := o.remainingQuantity } b.chain } t.buckets,
                   bestPrice := ((chainInsert b.isBuy { price := o.price, orders := [oid], volume := o.remainingQuantity } b.chain).head?).map (fun L => L.price) } oid
          = (heapSet h oid { o with listElement := false }, t) := by
        simp only [ShardedPriceTreeAdapter.remove, heapGet_set_self, hbg2,
          hslotB, if_true, hrq, hchrem2, Bucket.findLevel, hfindB,
          Option.map_some', Option.getD_some, heapSet_set, hset1, hcv2,
          List.length_nil, eq_self_iff_true, ShardedPriceTree.remove, hbg3,
          Bucket.remove, hserase, hsz, hchrem3, hsetback2, updateBestPriceFromTree,
          hheadq, hHC0h]
        rw [if_neg hbsz]
        simp only [← q5, ← hq6M0]
      rw [hrem]
    · have hcv3 : ((chainInsert b.isBuy { price := o.price, orders := [oid], volume := o.remainingQuantity } b.chain).head?).map (fun L => L.price)
          = some M0.price := by
        rw [chainInsert_head, hbchain]
        simp only [List.head?_cons]
        rw [if_neg hbp]
        rfl
      have hrem : ShardedPriceTreeAdapter.remove
          (heapSet h oid { o with listElement := true })
          { t with buckets := bucketsPut t.isBuy { b with slots := slotsSet b.slots (int64And o.price b.bucketMask) o.price, size := b.size + 1, chain := chainInsert b.isBuy { price := o.price, orders := [oid], volume := o.remainingQuantity } b.chain } t.buckets,
                   bestPrice := ((chainInsert b.isBuy { price := o.price, orders := [oid], volume := o.remainingQuantity } b.chain).head?).map (fun L => L.price) } oid
          = (heapSet h oid { o with listElement := false }, t) := by
        simp only [ShardedPriceTreeAdapter.remove, heapGet_set_self, hbg2,
          hslotB, if_true, hrq, hchrem2, Bucket.findLevel, hfindB,
          Option.map_some', Option.getD_some, heapSet_set, hset1, hcv3,
          List.length_nil, eq_self_iff_true, ShardedPriceTree.remove, hbg3,
          Bucket.remove, hserase, hsz, hchrem3, hsetback2]
        rw [if_neg hbsz, if_neg hM0ne]
        simp only [← hq6M0]
      rw [hrem]
  · have hneid : ¬ (Int.tdiv o.price t.bucketSize = H.bucketID) := by
      intro hx
      rw [hbl] at hbmem
      rcases List.mem_cons.mp hbmem with rfl | hbr
      · exact hbH rfl
      · rw [hbl, List.pairwise_cons] at q3
        exact (Better.ne (q3.1 b hbr)) (hbid.trans hx).symm
    have hM0ne2 : ¬ (some M0.price = some (o.price : Int)) := by
      intro he
      have he2 : M0.price = o.price := Option.some_injective _ he
      have hM0div := (hbwfH.2.2.2.2.2.2.1 M0 hM0mem).2.1
      rw [he2] at hM0div
      have hidEq : b.bucketID = H.bucketID := by rw [← hdiv, hM0div]
      have hbnd := bucket_ids_nodup q3
      have hgb := bucketsGet_mem hbnd hbmem
      have hgH := bucketsGet_mem hbnd hHmem
      rw [hidEq] at hgb
      rw [hgH] at hgb
      exact hbH (Option.some_injective _ hgb).symm
    have hins : ShardedPriceTreeAdapter.insert h t oid
        = (heapSet h oid { o with listElement := true },
           { t with buckets := bucketsPut t.isBuy { b with slots := slotsSet b.slots (int64And o.price b.bucketMask) o.price, size := b.size + 1, chain := chainInsert b.isBuy { price := o.price, orders := [oid], volume := o.remainingQuantity } b.chain } t.buckets }) := by
      simp only [ShardedPriceTreeAdapter.insert, hg, hbg, hslot, Bucket.insert, q5]
      rw [if_neg hnb, if_neg hneid, hchmod]
    rw [hins]
    have hrem : ShardedPriceTreeAdapter.remove
        (heapSet h oid { o with listElement := true })
        { t with buckets := bucketsPut t.isBuy { b with slots := slotsSet b.slots (int64And o.price b.bucketMask) o.price, size := b.size + 1, chain := chainInsert b.isBuy { price := o.price, orders := [oid], volume := o.remainingQuantity } b.chain } t.buckets } oid
        = (heapSet h oid { o with listElement := false }, t) := by
      simp only [ShardedPriceTreeAdapter.remove, heapGet_set_self, hbg2,
        hslotB, if_true, hrq, hchrem2, Bucket.findLevel, hfindB,
        Option.map_some', Option.getD_some, heapSet_set, hset1,
        List.length_nil, eq_self_iff_true, ShardedPriceTree.remove, hbg3,
        Bucket.remove, hserase, hsz, hchrem3, hsetback2, hq6M0]
      rw [if_neg hbsz, if_neg hM0ne2]
      rw [← hq6M0]
    rw [hrem]

theorem roundtrip_new_bucket {h : Heap} {isBuy : Bool} {t : ShardedPriceTree}
    {oid : String} {o : Order}
    (hw : TreeWF h isBuy none t)
    (hg : heapGet h oid = some o)
    (hle : o.listElement = false)
    (hpos : 0 < o.price)
    (hbg : bucketsGet t.buckets (Int.tdiv o.price t.bucketSize) = none) :
    ShardedPriceTreeAdapter.remove (ShardedPriceTreeAdapter.insert h t oid).1
        (ShardedPriceTreeAdapter.insert h t oid).2 oid
      = (heapSet h oid { o with listElement := false }, t) := by
  obtain ⟨q1, q2, q3, q4, q5, q6⟩ := hw
  have hfreshid : Int.tdiv o.price t.bucketSize ∉ t.buckets.map Bucket.bucketID :=
    (bucketsGet_none_iff _ _).mp hbg
  have hslotnil : slotsGet ([] : List (Int × Int)) (int64And o.price (t.bucketSize - 1))
      = none := rfl
  have hfnew : (fun L => ({ L with orders := L.orders ++ [oid], volume := L.volume + o.remainingQuantity } : PriceLevel)) ({ price := o.price, orders := [], volume := 0 } : PriceLevel) = { price := o.price, orders := [oid], volume := o.remainingQuantity } := by
    simp
  have hgf2 : (fun L => ({ L with orders := L.orders.erase oid, volume := L.volume - o.remainingQuantity } : PriceLevel)) ({ price := o.price, orders := [oid], volume := o.remainingQuantity } : PriceLevel) = { price := o.price, orders := [], volume := 0 } := by
    simp
  have hchC : chainModify o.price (fun L => ({ L with orders := L.orders ++ [oid], volume := L.volume + o.remainingQuantity } : PriceLevel)) (chainInsert t.isBuy { price := o.price, orders := [], volume := 0 } []) = [{ price := o.price, orders := [oid], volume := o.remainingQuantity }] := by
    rw [chainInsert_nil]
    simp [chainModify]
  have hchgC : chainModify o.price (fun L => ({ L with orders := L.orders.erase oid, volume := L.volume - o.remainingQuantity } : PriceLevel)) [{ price := o.price, orders := [oid], volume := o.remainingQuantity }] = [{ price := o.price, orders := [], volume := 0 }] := by
    simp [chainModify]
  have hfindC : chainFind o.price [{ price := o.price, orders := [], volume := 0 }] = some { price := o.price, orders := [], volume := 0 } := by
    simp [chainFind]
  have hchremC : chainRemove o.price [{ price := o.price, orders := [], volume := 0 }] = [] := by
    simp [chainRemove]
  have hseraseC : slotsErase (slotsSet [] (int64And o.price (t.bucketSize - 1)) o.price) (int64And o.price (t.bucketSize - 1)) = [] :=
    slotsErase_set [] _ _ (by simp)
  have hslotC : slotsGet (slotsSet [] (int64And o.price (t.bucketSize - 1)) o.price) (int64And o.price (t.bucketSize - 1)) = some o.price :=
    slotsGet_set_self _ _ _
  have hszC : (0 : Int) + 1 - 1 = 0 := by ring
  have hrq : ({ o with listElement := true } : Order).remainingQuantity
      = o.remainingQuantity := rfl
  obtain ⟨pre, post, hsplit, hput, hprene⟩ :=
    bucketsPut_fresh_split t.isBuy ({ bucketID := Int.tdiv o.price t.bucketSize, slots := slotsSet [] (int64And o.price (t.bucketSize - 1)) o.price, chain := [{ price := o.price, orders := [oid], volume := o.remainingQuantity }], size := 0 + 1, isBuy := t.isBuy, bucketSize := t.bucketSize, bucketMask := t.bucketSize - 1 } : Bucket) t.buckets hfreshid
  have hbg4 : bucketsGet (bucketsPut t.isBuy ({ bucketID := Int.tdiv o.price t.bucketSize, slots := slotsSet [] (int64And o.price (t.bucketSize - 1)) o.price, chain := [{ price := o.price, orders := [oid], volume := o.remainingQuantity }], size := 0 + 1, isBuy := t.isBuy, bucketSize := t.bucketSize, bucketMask := t.bucketSize - 1 } : Bucket) t.buckets)
      (Int.tdiv o.price t.bucketSize) = some ({ bucketID := Int.tdiv o.price t.bucketSize, slots := slotsSet [] (int64And o.price (t.bucketSize - 1)) o.price, chain := [{ price := o.price, orders := [oid], volume := o.remainingQuantity }], size := 0 + 1, isBuy := t.isBuy, bucketSize := t.bucketSize, bucketMask := t.bucketSize - 1 } : Bucket) := by
    rw [hput]
    exact bucketsGet_append pre post ({ bucketID := Int.tdiv o.price t.bucketSize, slots := slotsSet [] (int64And o.price (t.bucketSize - 1)) o.price, chain := [{ price := o.price, orders := [oid], volume := o.remainingQuantity }], size := 0 + 1, isBuy := t.isBuy, bucketSize := t.bucketSize, bucketMask := t.bucketSize - 1 } : Bucket) hprene
  have hsetC : bucketsSet ({ bucketID := Int.tdiv o.price t.bucketSize, slots := slotsSet [] (int64And o.price (t.bucketSize - 1)) o.price, chain := [{ price := o.price, orders := [], volume := 0 }], size := 0 + 1, isBuy := t.isBuy, bucketSize := t.bucketSize, bucketMask := t.bucketSize - 1 } : Bucket) (bucketsPut t.isBuy ({ bucketID := Int.tdiv o.price t.bucketSize, slots := slotsSet [] (int64And o.price (t.bucketSize - 1)) o.price, chain := [{ price := o.price, orders := [oid], volume := o.remainingQuantity }], size := 0 + 1, isBuy := t.isBuy, bucketSize := t.bucketSize, bucketMask := t.bucketSize - 1 } : Bucket) t.buckets)
      = pre ++ ({ bucketID := Int.tdiv o.price t.bucketSize, slots := slotsSet [] (int64And o.price (t.bucketSize - 1)) o.price, chain := [{ price := o.price, orders := [], volume := 0 }], size := 0 + 1, isBuy := t.isBuy, bucketSize := t.bucketSize, bucketMask := t.bucketSize - 1 } : Bucket) :: post := by
    rw [hput]
    exact bucketsSet_append pre post ({ bucketID := Int.tdiv o.price t.bucketSize, slots := slotsSet [] (int64And o.price (t.bucketSize - 1)) o.price, chain := [{ price := o.price, orders := [oid], volume := o.remainingQuantity }], size := 0 + 1, isBuy := t.isBuy, bucketSize := t.bucketSize, bucketMask := t.bucketSize - 1 } : Bucket) ({ bucketID := Int.tdiv o.price t.bucketSize, slots := slotsSet [] (int64And o.price (t.bucketSize - 1)) o.price, chain := [{ price := o.price, orders := [], volume := 0 }], size := 0 + 1, isBuy := t.isBuy, bucketSize := t.bucketSize, bucketMask := t.bucketSize - 1 } : Bucket) rfl hprene
  have hbg5 : bucketsGet (pre ++ ({ bucketID := Int.tdiv o.price t.bucketSize, slots := slotsSet [] (int64And o.price (t.bucketSize - 1)) o.price, chain := [{ price := o.price, orders := [], volume := 0 }], size := 0 + 1, isBuy := t.isBuy, bucketSize := t.bucketSize, bucketMask := t.bucketSize - 1 } : Bucket) :: post) (Int.tdiv o.price t.bucketSize)
      = some ({ bucketID := Int.tdiv o.price t.bucketSize, slots := slotsSet [] (int64And o.price (t.bucketSize - 1)) o.price, chain := [{ price := o.price, orders := [], volume := 0 }], size := 0 + 1, isBuy := t.isBuy, bucketSize := t.bucketSize, bucketMask := t.bucketSize - 1 } : Bucket) :=
    bucketsGet_append pre post ({ bucketID := Int.tdiv o.price t.bucketSize, slots := slotsSet [] (int64And o.price (t.bucketSize - 1)) o.price, chain := [{ price := o.price, orders := [], volume := 0 }], size := 0 + 1, isBuy := t.isBuy, bucketSize := t.bucketSize, bucketMask := t.bucketSize - 1 } : Bucket) hprene
  have hremC : bucketsRemove (Int.tdiv o.price t.bucketSize) (pre ++ ({ bucketID := Int.tdiv o.price t.bucketSize, slots := slotsSet [] (int64And o.price (t.bucketSize - 1)) o.price, chain := [{ price := o.price, orders := [], volume := 0 }], size := 0 + 1, isBuy := t.isBuy, bucketSize := t.bucketSize, bucketMask := t.bucketSize - 1 } : Bucket) :: post)
      = pre ++ post :=
    bucketsRemove_append _ pre post ({ bucketID := Int.tdiv o.price t.bucketSize, slots := slotsSet [] (int64And o.price (t.bucketSize - 1)) o.price, chain := [{ price := o.price, orders := [], volume := 0 }], size := 0 + 1, isBuy := t.isBuy, bucketSize := t.bucketSize, bucketMask := t.bucketSize - 1 } : Bucket) rfl hprene
  cases hbl : t.buckets with
  | nil =>
    rw [hbl] at q5 q6
    simp only [List.head?_nil, Option.map_none', Option.none_bind] at q5 q6
    have hppnil : pre ++ post = [] := by rw [← hsplit]; exact hbl
    have hins : ShardedPriceTreeAdapter.insert h t oid
        = (heapSet h oid { o with listElement := true },
           { t with buckets := bucketsPut t.isBuy ({ bucketID := Int.tdiv o.price t.bucketSize, slots := slotsSet [] (int64And o.price (t.bucketSize - 1)) o.price, chain := [{ price := o.price, orders := [oid], volume := o.remainingQuantity }], size := 0 + 1, isBuy := t.isBuy, bucketSize := t.bucketSize, bucketMask := t.bucketSize - 1 } : Bucket) t.buckets,
                    bestBucket := some (Int.tdiv o.price t.bucketSize),
                    bestPrice := some o.price }) := by
      simp only [ShardedPriceTreeAdapter.insert, hg, hbg, NewBucket, Bucket.insert,
        q5, hchC, hslotnil, List.head?_cons, Option.map_some']
    rw [hins]
    have hrem : ShardedPriceTreeAdapter.remove
        (heapSet h oid { o with listElement := true })
        { t with buckets := bucketsPut t.isBuy ({ bucketID := Int.tdiv o.price t.bucketSize, slots := slotsSet [] (int64And o.price (t.bucketSize - 1)) o.price, chain := [{ price := o.price, orders := [oid], volume := o.remainingQuantity }], size := 0 + 1, isBuy := t.isBuy, bucketSize := t.bucketSize, bucketMask := t.bucketSize - 1 } : Bucket) t.buckets,
                 bestBucket := some (Int.tdiv o.price t.bucketSize),
                 bestPrice := some o.price } oid
        = (heapSet h oid { o with listElement := false }, t) := by
      simp only [ShardedPriceTreeAdapter.remove, heapGet_set_self, hbg4, hslotC,
        if_true, hrq, hchgC, Bucket.findLevel, hfindC, Option.map_some',
        Option.getD_some, heapSet_set, hsetC, List.length_nil, eq_self_iff_true,
        ShardedPriceTree.remove, hbg5, Bucket.remove, hseraseC, hszC, hchremC,
        hremC, updateBestPriceFromTree, hppnil, List.head?_nil]
      rw [show ([] : List Bucket) = t.buckets from hbl.symm]
      have htlit : t = ({ buckets := t.buckets, bestBucket := none, bestPrice := none, isBuy := t.isBuy, bucketSize := t.bucketSize } : ShardedPriceTree) := by
        nth_rewrite 1 [← q5]
        rw [← q6]
      rw [← htlit]
    rw [hrem]
  | cons H rest =>
    rw [hbl] at q5 q6
    simp only [List.head?_cons, Option.map_some', Option.some_bind] at q5 q6
    have hHmem : H ∈ t.buckets := by rw [hbl]; exact List.mem_cons_self _ _
    have hbwfH := q4 H hHmem
    obtain ⟨M0, tl0, hHC0⟩ := List.exists_cons_of_ne_nil hbwfH.2.2.2.2.1
    have hq6M0 : t.bestPrice = some M0.price := by rw [q6, hHC0]; rfl
    have hheadq : t.buckets.head? = some H := by rw [hbl]; rfl
    have hHC0h : H.chain.head? = some M0 := by rw [hHC0]; rfl
    have hHne : H.bucketID ≠ Int.tdiv o.price t.bucketSize := by
      intro he
      refine hfreshid ?_
      rw [← he]
      exact List.mem_map.mpr ⟨H, hHmem, rfl⟩
    by_cases hbb : isBetterBucket t.isBuy (Int.tdiv o.price t.bucketSize)
        H.bucketID = true
    · have hins : ShardedPriceTreeAdapter.insert h t oid
          = (heapSet h oid { o with listElement := true },
             { t with buckets := bucketsPut t.isBuy ({ bucketID := Int.tdiv o.price t.bucketSize, slots := slotsSet [] (int64And o.price (t.bucketSize - 1)) o.price, chain := [{ price := o.price, orders := [oid], volume := o.remainingQuantity }], size := 0 + 1, isBuy := t.isBuy, bucketSize := t.bucketSize, bucketMask := t.bucketSize - 1 } : Bucket) t.buckets,
                      bestBucket := some (Int.tdiv o.price t.bucketSize),
                      bestPrice := some o.price }) := by
        simp only [ShardedPriceTreeAdapter.insert, hg, hbg, NewBucket, Bucket.insert,
          q5, hchC, hslotnil, List.head?_cons, Option.map_some']
        rw [if_pos hbb]
      rw [hins]
      have hrem : ShardedPriceTreeAdapter.remove
          (heapSet h oid { o with listElement := true })
          { t with buckets := bucketsPut t.isBuy ({ bucketID := Int.tdiv o.price t.bucketSize, slots := slotsSet [] (int64And o.price (t.bucketSize - 1)) o.price, chain := [{ price := o.price, orders := [oid], volume := o.remainingQuantity }], size := 0 + 1, isBuy := t.isBuy, bucketSize := t.bucketSize, bucketMask := t.bucketSize - 1 } : Bucket) t.buckets,
                   bestBucket := some (Int.tdiv o.price t.bucketSize),
                   bestPrice := some o.price } oid
          = (heapSet h oid { o with listElement := false }, t) := by
        simp only [ShardedPriceTreeAdapter.remove, heapGet_set_self, hbg4, hslotC,
          if_true, hrq, hchgC, Bucket.findLevel, hfindC, Option.map_some',
          Option.getD_some, heapSet_set, hsetC, List.length_nil, eq_self_iff_true,
          ShardedPriceTree.remove, hbg5, Bucket.remove, hseraseC, hszC, hchremC,
          hremC, updateBestPriceFromTree, hHC0h]
        rw [show (pre ++ post) = t.buckets from hsplit.symm]
        rw [hheadq]
        simp only [List.head?_cons, Option.map_some']
        rw [hHC0h]
        simp only [Option.map_some']
        have htlit : t = ({ buckets := t.buckets, bestBucket := some H.bucketID, bestPrice := some M0.price, isBuy := t.isBuy, bucketSize := t.bucketSize } : ShardedPriceTree) := by
          rw [← q5, ← hq6M0]
        rw [← htlit]
      rw [hrem]
    · have hneqid : ¬ (Int.tdiv o.price t.bucketSize = H.bucketID) :=
        fun he => hHne he.symm
      have hins : ShardedPriceTreeAdapter.insert h t oid
          = (heapSet h oid { o with listElement := true },
             { t with buckets := bucketsPut t.isBuy ({ bucketID := Int.tdiv o.price t.bucketSize, slots := slotsSet [] (int64And o.price (t.bucketSize - 1)) o.price, chain := [{ price := o.price, orders := [oid], volume := o.remainingQuantity }], size := 0 + 1, isBuy := t.isBuy, bucketSize := t.bucketSize, bucketMask := t.bucketSize - 1 } : Bucket) t.buckets }) := by
        simp only [ShardedPriceTreeAdapter.insert, hg, hbg, NewBucket, Bucket.insert,
          q5, hchC, hslotnil]
        rw [if_neg hbb, if_neg hneqid]
      rw [hins]
      have hcnd : ¬ (t.bestBucket = some (Int.tdiv o.price t.bucketSize)) := by
        rw [q5]
        intro he
        exact hHne (Option.some_injective _ he)
      have hrem : ShardedPriceTreeAdapter.remove
          (heapSet h oid { o with listElement := true })
          { t with buckets := bucketsPut t.isBuy ({ bucketID := Int.tdiv o.price t.bucketSize, slots := slotsSet [] (int64And o.price (t.bucketSize - 1)) o.price, chain := [{ price := o.price, orders := [oid], volume := o.remainingQuantity }], size := 0 + 1, isBuy := t.isBuy, bucketSize := t.bucketSize, bucketMask := t.bucketSize - 1 } : Bucket) t.buckets } oid
          = (heapSet h oid { o with listElement := false }, t) := by
        simp only [ShardedPriceTreeAdapter.remove, heapGet_set_self, hbg4, hslotC,
          if_true, hrq, hchgC, Bucket.findLevel, hfindC, Option.map_some',
          Option.getD_some, heapSet_set, hsetC, List.length_nil, eq_self_iff_true,
          ShardedPriceTree.remove, hbg5, Bucket.remove, hseraseC, hszC, hchremC,
          hremC]
        rw [if_neg hcnd]
        rw [show (pre ++ post) = t.buckets from hsplit.symm]
      rw [hrem]

theorem adapterInsert_fst_eq {h : Heap} {t : ShardedPriceTree} {oid : String}
    {o : Order} (hg : heapGet h oid = some o) :
    (ShardedPriceTreeAdapter.insert h t oid).1
      = heapSet h oid { o with listElement := true } := by
  simp only [ShardedPriceTreeAdapter.insert, hg]

theorem adapter_roundtrip {h : Heap} {isBuy : Bool} {t : ShardedPriceTree}
    {oid : String} {o : Order}
    (hw : TreeWF h isBuy none t)
    (hg : heapGet h oid = some o)
    (hle : o.listElement = false)
    (hpos : 0 < o.price) :
    ShardedPriceTreeAdapter.remove (ShardedPriceTreeAdapter.insert h t oid).1
        (ShardedPriceTreeAdapter.insert h t oid).2 oid
      = (heapSet h oid { o with listElement := false }, t) := by
  cases hbg : bucketsGet t.buckets (Int.tdiv o.price t.bucketSize) with
  | none => exact roundtrip_new_bucket hw hg hle hpos hbg
  | some b =>
    cases hslot : slotsGet b.slots (int64And o.price b.bucketMask) with
    | none => exact roundtrip_new_level hw hg hle hpos hbg hslot
    | some p => exact roundtrip_existing_level hw hg hle hpos hbg hslot

/-- C7: adding a fresh order and then cancelling it returns the order book
(both ladders, their volumes and best pointers, and the id map) to its
pre-add state; on the heap, only the order itself changes, to its cancelled
form. -/
theorem C7_add_cancel_roundtrip {h : Heap} {ob : OrderBook} {oid : String} {o : Order}
    (hB : BookWF h none ob)
    (hg : heapGet h oid = some o)
    (hle : o.listElement = false)
    (hpos : 0 < o.price) :
    (OrderBook.cancelOrder (OrderBook.addOrder h ob oid).1
        (OrderBook.addOrder h ob oid).2 oid).2 = ob ∧
    (OrderBook.cancelOrder (OrderBook.addOrder h ob oid).1
        (OrderBook.addOrder h ob oid).2 oid).1
      = heapSet h oid (Order.cancel o) := by
  have hwb : TreeWF h true none ob.bids := hB.1
  have hwa : TreeWF h false none ob.asks := hB.2.1
  have hnbb : oid ∉ treeIds ob.bids := rest_not_mem hwb hg hle
  have hnba : oid ∉ treeIds ob.asks := rest_not_mem hwa hg hle
  have hno : oid ∉ ob.orders := by
    intro hm
    rcases List.mem_append.mp (hB.2.2.2.2.1 oid hm) with hcm | hcm
    · exact hnbb hcm
    · exact hnba hcm
  have hreg : mapRegister ob.orders oid = oid :: ob.orders := by
    simp [mapRegister, hno]
  have hofold : ({ o with listElement := false } : Order) = o := by
    rw [← hle]
  have hcont2 : (oid :: ob.orders).contains oid = true := by simp
  have herase : (oid :: ob.orders).erase oid = ob.orders :=
    List.erase_cons_head oid ob.orders
  have hgi : ∀ t2 : ShardedPriceTree,
      heapGet (ShardedPriceTreeAdapter.insert h t2 oid).1 oid
        = some ({ o with listElement := true } : Order) := by
    intro t2
    rw [adapterInsert_fst_eq hg]
    exact heapGet_set_self h oid _
  by_cases hside : o.side = Side.Buy
  · have hadd : OrderBook.addOrder h ob oid
        = ((ShardedPriceTreeAdapter.insert h ob.bids oid).1,
           { symbol := ob.symbol,
             bids := (ShardedPriceTreeAdapter.insert h ob.bids oid).2,
             asks := ob.asks, orders := oid :: ob.orders }) := by
      simp only [OrderBook.addOrder, hg, hreg]
      rw [if_pos hside]
    have hrt := adapter_roundtrip hwb hg hle hpos
    rw [hofold] at hrt
    have hside2 : ({ o with listElement := true } : Order).side = Side.Buy := hside
    have hcan : OrderBook.cancelOrder (OrderBook.addOrder h ob oid).1
        (OrderBook.addOrder h ob oid).2 oid = (heapSet h oid (Order.cancel o), ob) := by
      rw [hadd]
      simp only [OrderBook.cancelOrder, hcont2, eq_self_iff_true, if_true, hgi]
      rw [if_pos hside2]
      simp only [hrt, herase, heapGet_set_self, heapSet_set]
    rw [hcan]
    exact ⟨rfl, rfl⟩
  · have hadd : OrderBook.addOrder h ob oid
        = ((ShardedPriceTreeAdapter.insert h ob.asks oid).1,
           { symbol := ob.symbol, bids := ob.bids,
             asks := (ShardedPriceTreeAdapter.insert h ob.asks oid).2,
             orders := oid :: ob.orders }) := by
      simp only [OrderBook.addOrder, hg, hreg]
      rw [if_neg hside]
    have hrt := adapter_roundtrip hwa hg hle hpos
    rw [hofold] at hrt
    have hside2 : ¬ (({ o with listElement := true } : Order).side = Side.Buy) := hside
    have hcan : OrderBook.cancelOrder (OrderBook.addOrder h ob oid).1
        (OrderBook.addOrder h ob oid).2 oid = (heapSet h oid (Order.cancel o), ob) := by
      rw [hadd]
      simp only [OrderBook.cancelOrder, hcont2, eq_self_iff_true, if_true, hgi]
      rw [if_neg hside2]
      simp only [hrt, herase, heapGet_set_self, heapSet_set]
    rw [hcan]
    exact ⟨rfl, rfl⟩

/-- C7 witness: the round trip at a concrete empty book and fresh order. -/
theorem C7_roundtrip_witness :
    (OrderBook.cancelOrder (OrderBook.addOrder rtHeap rtBook "r1").1
        (OrderBook.addOrder rtHeap rtBook "r1").2 "r1").2 = rtBook ∧
    (OrderBook.cancelOrder (OrderBook.addOrder rtHeap rtBook "r1").1
        (OrderBook.addOrder rtHeap rtBook "r1").2 "r1").1
      = heapSet rtHeap "r1" (Order.cancel rtOrder) :=
  C7_add_cancel_roundtrip (by decide) (by decide) (by decide) (by decide)

end LX
